import Mathlib

/-!
# Nexus plot decoder (`lib/src/nexus_plot.cpp`)

A shallow embedding of the decoder: the `std::istream` the functions share
becomes an explicit `Stream` value that every operation takes and returns, a
thrown exception becomes `Except.error`, and the three decoding functions
`read_header`, `read_varnames` and `load` are translated statement by
statement.

Conventions of the embedding

* A byte is a `Fin 256`; a `str<N>` is a `List Byte` of length `N`.
* An `int32_t` is an `Int`; a 32-bit word in memory is a `Nat` below `2^32`.
  The host is little-endian, so `ntoh` swaps the four bytes of a word.
* A `float` is its IEEE-754 binary32 bit pattern (`F32`).
* `stream.read(p, n)` overwrites the first `gcount` bytes of the destination
  and leaves the others as they were.  A destination that the source does
  not initialise (`std::array<char, N> buf;`) starts with bytes that the
  language does not fix; they are the parameter `junk`, one assignment of
  bytes for all such buffers of a run.  What holds for every `junk` holds
  whatever the memory held.  Where the outcome of the code depends on such
  bytes (the class name that the loop of `load` compares with the sentinel
  after a read that did not fill it), the code is evaluated at a chosen
  `junk` to show the dependence, and nothing is claimed about the memory of
  a real run.
* C++ leaves `int` overflow and an out-of-range `float` to `int32_t`
  conversion undefined; the embedding reports both as `Error.undefined`.
-/

namespace Nex

/-! ## Bytes, words and floats -/

abbrev Byte := Fin 256

/-- The `n` bytes of a zero-initialised buffer (`buf {}`, `std::vector<T>(n)`). -/
def zeros (n : Nat) : List Byte := List.replicate n 0

/-- The `n` bytes of a buffer the source leaves uninitialised, as the
parameter `junk` gives them. -/
def uninit (junk : Nat → Byte) (n : Nat) : List Byte := (List.range n).map junk

/-- The value of the 32-bit word stored at the head of `bs` on the
(little-endian) host; bytes that are missing count as zero. -/
def host_word (bs : List Byte) : Nat :=
  (bs.getD 0 0).val + 256 * (bs.getD 1 0).val + 65536 * (bs.getD 2 0).val
    + 16777216 * (bs.getD 3 0).val

/-- The source's `ntoh`, that is `ntohl` on a little-endian host: the four
bytes of the word in reverse order. -/
def ntoh (ui : Nat) : Nat :=
  ui % 256 * 16777216 + ui / 256 % 256 * 65536 + ui / 65536 % 256 * 256
    + ui / 16777216 % 256

/-- The conversion `uint32_t` to `int32_t` (two's complement). -/
def to_int32 (w : Nat) : Int :=
  if w % 4294967296 < 2147483648 then (w % 4294967296 : Nat)
  else ((w % 4294967296 : Nat) : Int) - 4294967296

/-- The conversion `int32_t` to `uint32_t`. -/
def to_uint32 (i : Int) : Nat := (i % 4294967296).toNat

/-- The big-endian value of the four bytes at the head of `bs`. -/
def be32 (bs : List Byte) : Nat :=
  16777216 * (bs.getD 0 0).val + 65536 * (bs.getD 1 0).val + 256 * (bs.getD 2 0).val
    + (bs.getD 3 0).val

/-- The `k`-th `int32_t` of a buffer after
`std::transform(begin, end, begin, ntoh)`. -/
def word_at (buf : List Byte) (k : Nat) : Int :=
  to_int32 (ntoh (host_word (buf.drop (4 * k))))

/-- A buffer of `n` `int32_t` after `std::transform(begin, end, begin, ntoh)`. -/
def words (buf : List Byte) (n : Nat) : List Int :=
  (List.range n).map (word_at buf)

/-- The source's `negative` lambda. -/
def negative (x : Int) : Bool := decide (x < 0)

/-- An IEEE-754 binary32 value, held as its bit pattern. -/
structure F32 where
  bits : Nat
deriving DecidableEq, Repr

/-- The source's `interpret_float`: the `memcpy` of an `int32_t` into a
`float`. -/
def interpret_float (i : Int) : F32 := ⟨to_uint32 i⟩

namespace F32

def sign (f : F32) : Nat := f.bits / 2147483648 % 2

def exponent (f : F32) : Nat := f.bits / 8388608 % 256

def fraction (f : F32) : Nat := f.bits % 8388608

/-- The integer significand: the fraction, with the hidden bit of a normal
number. -/
def significand (f : F32) : Nat :=
  if f.exponent = 0 then f.fraction else 8388608 + f.fraction

/-- The power of two that scales the significand, offset by 149 so that it
is a natural number: the value is `significand * 2 ^ (scale - 149)`. -/
def scale (f : F32) : Nat := if f.exponent = 0 then 0 else f.exponent - 1

/-- An infinity or a NaN. -/
def nonfinite (f : F32) : Bool := decide (f.exponent = 255)

/-- The magnitude of a finite `f`, rounded toward zero to an integer. -/
def trunc_abs (f : F32) : Nat :=
  if 149 ≤ f.scale then f.significand * 2 ^ (f.scale - 149)
  else f.significand / 2 ^ (149 - f.scale)

/-- The value of a finite `f` as a rational number. -/
def toRat (f : F32) : ℚ :=
  (if f.sign = 0 then 1 else -1) * (f.significand : ℚ) * (2 : ℚ) ^ ((f.scale : Int) - 149)

end F32

/-- The conversion `(int32_t) f`: truncation toward zero; `none` where C++
leaves it undefined (infinities, NaN, and values whose truncation is not an
`int32_t`). -/
def float_to_int32 (f : F32) : Option Int :=
  if f.nonfinite then none
  else if f.sign = 0 then
    if f.trunc_abs < 2147483648 then some (f.trunc_abs : Int) else none
  else
    if f.trunc_abs ≤ 2147483648 then some (-(f.trunc_abs : Int)) else none

/-! ## The input stream -/

/-- The state of a `std::istream` over a fixed sequence of bytes.
`seek_past_end` tells the two standard stream buffers apart: a file buffer
accepts a seek beyond the last byte (`true`), a string buffer refuses it
(`false`).  `exceptions` is the stream's exception mask, as the pair
(eofbit, failbit). -/
structure Stream where
  data : List Byte
  pos : Nat
  eofbit : Bool
  failbit : Bool
  seek_past_end : Bool
  exceptions : Bool × Bool
deriving DecidableEq, Repr

namespace Stream

/-- The `good()` of a stream. -/
def good (s : Stream) : Bool := !s.eofbit && !s.failbit

/-- A stream opened on `data`, in its initial state. -/
def fresh (data : List Byte) (seek_past_end : Bool) : Stream :=
  { data := data, pos := 0, eofbit := false, failbit := false,
    seek_past_end := seek_past_end, exceptions := (false, false) }

/-- Model of `stream.read(buf, n)`, `buf0` being the content of the
destination before the call.  A stream that is not good only gets its
failbit set.  Otherwise the bytes that are left, at most `n`, are stored at
the head of the destination and the cursor moves past them; when they are
fewer than `n`, eofbit and failbit are set. -/
def read (s : Stream) (buf0 : List Byte) (n : Nat) : List Byte × Stream :=
  if s.good then
    let got := (s.data.drop s.pos).take n
    if got.length = n then
      (got ++ buf0.drop n, { s with pos := s.pos + n })
    else
      (got ++ buf0.drop got.length,
        { s with pos := s.pos + got.length, eofbit := true, failbit := true })
  else
    (buf0, { s with failbit := true })

/-- Model of a `seekg` whose target is the absolute offset `target`: eofbit
is cleared first; a stream whose failbit is set is left alone; a target the
buffer refuses sets failbit; otherwise the cursor moves to the target. -/
def seekg_to (s : Stream) (target : Nat) : Stream :=
  if s.failbit then { s with eofbit := false }
  else if !s.seek_past_end && decide (s.data.length < target) then
    { s with eofbit := false, failbit := true }
  else { s with eofbit := false, pos := target }

/-- The stream `s` with a clear eofbit and its cursor at `p`: what a `seekg`
that succeeds leaves. -/
def moved (s : Stream) (p : Nat) : Stream := { s with eofbit := false, pos := p }

/-- Model of `stream.seekg(off, std::ios::beg)`. -/
def seekg_beg (s : Stream) (off : Nat) : Stream := s.seekg_to off

/-- Model of `stream.seekg(off, std::ios::cur)`. -/
def seekg_cur (s : Stream) (off : Nat) : Stream := s.seekg_to (s.pos + off)

end Stream

/-- The source's `read_str<N>`: `N` bytes read into an uninitialised
array. -/
def read_str (junk : Nat → Byte) (N : Nat) (s : Stream) : List Byte × Stream :=
  s.read (uninit junk N) N

/-! ## Results -/

/-- The exceptions that leave `load`. `unit_system` is whatever the
constructor of `UnitSystem` throws for a code it does not know;
`length_error` is what `std::vector<int32_t>(n)` throws for a negative `n`;
`undefined` marks an execution that C++ leaves undefined; `terminate` is the
call of `std::terminate` when the destructor of `stream_guard` throws. -/
inductive Error where
  | bad_header (what : String)
  | unexpected_eof (what : String)
  | unit_system
  | length_error
  | undefined
  | terminate
deriving DecidableEq, Repr

/-- Equality of results is decidable. -/
instance decEqExcept {ε α : Type} [DecidableEq ε] [DecidableEq α] : DecidableEq (Except ε α)
  | .ok a, .ok b =>
    if h : a = b then isTrue (congrArg Except.ok h)
    else isFalse (fun e => h (Except.ok.inj e))
  | .error a, .error b =>
    if h : a = b then isTrue (congrArg Except.error h)
    else isFalse (fun e => h (Except.error.inj e))
  | .ok _, .error _ => isFalse (fun e => Except.noConfusion e)
  | .error _, .ok _ => isFalse (fun e => Except.noConfusion e)

/-- Modelled from the spec: the declaration of `NexusHeader` (in
`nex/nexus_plot.hpp`) is not part of the sources; the spec gives it as the
unit system plus eight 32-bit counters, the first of which is
`num_classes`. `read_header` fills the nine fields in this order. -/
structure NexusHeader (U : Type) where
  unit_system : U
  num_classes : Int
  counter1 : Int
  counter2 : Int
  counter3 : Int
  counter4 : Int
  counter5 : Int
  counter6 : Int
  counter7 : Int
deriving DecidableEq, Repr

/-- Modelled from the spec: the declaration of `NexusData` is not part of
the sources; `read_vars` fills its seven fields in this order. -/
structure NexusData where
  timestep : Int
  time : F32
  max_perfs : Int
  classname : List Byte
  instancename : List Byte
  varname : List Byte
  value : F32
deriving DecidableEq, Repr

/-- Modelled from the spec: the declaration of `NexusPlot` is not part of
the sources; `load` builds it from the header and the records. -/
structure NexusPlot (U : Type) where
  header : NexusHeader U
  data : List NexusData
deriving DecidableEq, Repr

/-! ## `read_header` -/

/-- The source's `th0`, the bytes of `"PLOT  BIN   "`. -/
def th0 : List Byte := [80, 76, 79, 84, 32, 32, 66, 73, 78, 32, 32, 32]

/-- The source's `stop`, the bytes of `"STOP    "`. -/
def stop : List Byte := [83, 84, 79, 80, 32, 32, 32, 32]

/-- The source's `read_header`. `mk_unit` stands for the constructor of
`UnitSystem`, which is not part of the sources: `none` when it throws. -/
def read_header {U : Type} (mk_unit : List Byte → Option U) (junk : Nat → Byte)
    (stream : Stream) : Except Error (NexusHeader U) × Stream :=
  let stream := stream.seekg_beg 4
  let (th1, stream) := read_str junk 12 stream
  let ok := decide (th1 = th0)
  if !ok || !stream.good then
    (.error (.bad_header "Could not verify file type"), stream)
  else
    let stream := stream.seekg_cur 6
    let stream := stream.seekg_cur 6
    let stream := stream.seekg_cur 6
    let stream := stream.seekg_cur 6
    let (us, stream) := read_str junk 6 stream
    if !stream.good then
      (.error (.unexpected_eof "File has no content"), stream)
    else
      match mk_unit us with
      | none => (.error .unit_system, stream)
      | some unit_system =>
        let stream := stream.seekg_cur (530 + 264)
        let (raw, stream) := stream.read (zeros 32) 32
        if !stream.good then (.error (.unexpected_eof ""), stream)
        else
          let buf := words raw 8
          if buf.any negative then
            (.error (.bad_header "Negative value, corrupted file"), stream)
          else
            (.ok { unit_system := unit_system,
                   num_classes := word_at raw 0,
                   counter1 := word_at raw 1,
                   counter2 := word_at raw 2,
                   counter3 := word_at raw 3,
                   counter4 := word_at raw 4,
                   counter5 := word_at raw 5,
                   counter6 := word_at raw 6,
                   counter7 := word_at raw 7 }, stream)

/-! ## `read_varnames` -/

/-- The `std::map< str<8>, std::vector<str<4>> >` of the source: its entries,
one for each key.  The list has them in the order in which the keys were
inserted, a `std::map` in the order of the keys: the order of the list means
nothing.  The lookups (`get`), the set of keys and the number of entries are
those of the map. -/
abbrev VarMap := List (List Byte × List (List Byte))

namespace VarMap

/-- The vector stored for `k`, empty when `k` is not a key. -/
def get : VarMap → List Byte → List (List Byte)
  | [], _ => []
  | (k', v') :: m, k => if k' = k then v' else get m k

/-- Whether `k` is a key. -/
def contains : VarMap → List Byte → Bool
  | [], _ => false
  | (k', _) :: m, k => if k' = k then true else contains m k

/-- Model of `m[k] = v`: the entry for `k` is replaced, or added when `k`
is not a key.  The list gets the new entry at its end; where a `std::map`
puts it, by the order of the keys, is not modelled. -/
def assign : VarMap → List Byte → List (List Byte) → VarMap
  | [], k, v => [(k, v)]
  | (k', v') :: m, k, v => if k' = k then (k, v) :: m else (k', v') :: assign m k v

/-- Model of evaluating `m[k]`: an empty vector is inserted when `k` is not
a key. -/
def touch (m : VarMap) (k : List Byte) : VarMap := m.assign k (m.get k)

/-- Model of `m[k].push_back(x)`. -/
def push_back (m : VarMap) (k : List Byte) (x : List Byte) : VarMap :=
  m.assign k (m.get k ++ [x])

/-- The keys of the map. -/
def keys (m : VarMap) : List (List Byte) := m.map Prod.fst

/-- The `size()` of the map. -/
def size (m : VarMap) : Nat := m.length

end VarMap

/-- The first loop of `read_varnames`: `n` times `stream.read(classname.data(), 8)`
and `classnames.push_back(classname)`, with one `classname` buffer for all
the iterations. -/
def read_classnames : Nat → List Byte → Stream → List (List Byte) × Stream
  | 0, _, stream => ([], stream)
  | n + 1, classname, stream =>
    let (classname, stream) := stream.read classname 8
    let (rest, stream) := read_classnames n classname stream
    (classname :: rest, stream)

/-- The inner loop of `read_varnames`: the `n` four-byte pieces of `buf`,
`memcpy(varname.data(), buf.data() + k*4, 4)`. -/
def split_names (buf : List Byte) (n : Nat) : List (List Byte) :=
  (List.range n).map (fun k => (buf.drop (k * 4)).take 4)

/-- One iteration of the second loop of `read_varnames`, for the class name
`classnames[i]` and the count `vars_in_class[i]`. -/
def read_class (classname : List Byte) (count : Int) (varnames : VarMap)
    (stream : Stream) : Except Error VarMap × Stream :=
  let varnames := varnames.assign classname []
  let stream := stream.seekg_cur 4
  if 2147483648 ≤ count * 4 then (.error .undefined, stream)
  else
    let (buf, stream) := stream.read (zeros (count * 4).toNat) (count * 4).toNat
    let varnames :=
      (split_names buf count.toNat).foldl (fun m x => m.push_back classname x) varnames
    let stream := stream.seekg_cur 8
    (.ok varnames, stream)

/-- The second loop of `read_varnames`, over the pairs
`(classnames[i], vars_in_class[i])`. -/
def read_classes : List (List Byte × Int) → VarMap → Stream → Except Error VarMap × Stream
  | [], varnames, stream => (.ok varnames, stream)
  | (classname, count) :: rest, varnames, stream =>
    match read_class classname count varnames stream with
    | (.ok varnames, stream) => read_classes rest varnames stream
    | (.error e, stream) => (.error e, stream)

/-- The source's `read_varnames`. -/
def read_varnames (junk : Nat → Byte) (stream : Stream) (num_classes : Int) :
    Except Error VarMap × Stream :=
  if num_classes < 0 then (.error .length_error, stream)
  else
    let stream := stream.seekg_cur 8
    let (classnames, stream) := read_classnames num_classes.toNat (uninit junk 8) stream
    let stream := stream.seekg_cur 8
    if 2147483648 ≤ num_classes * 4 then (.error .undefined, stream)
    else
      let (raw, stream) :=
        stream.read (zeros (4 * num_classes.toNat)) (num_classes * 4).toNat
      let vars_in_class := words raw num_classes.toNat
      if vars_in_class.any negative then
        (.error (.bad_header "Negative value, corrupted file"), stream)
      else
        let stream := stream.seekg_cur 8
        match read_classes (classnames.zip vars_in_class) [] stream with
        | (.error e, stream) => (.error e, stream)
        | (.ok varnames, stream) =>
          if stream.eofbit || !stream.good then (.error (.unexpected_eof ""), stream)
          else (.ok varnames, stream)

/-! ## `read_vars` and `load` -/

/-- The source's `read_vars`; the new `data` is returned with the stream. -/
def read_vars (stream : Stream) (data : List NexusData) (timestep : Int) (time : F32)
    (max_perfs : Int) (classname instancename : List Byte) (varnames : List (List Byte)) :
    List NexusData × Stream :=
  let (values, stream) := stream.read (zeros (varnames.length * 4)) (varnames.length * 4)
  (data ++ (List.range varnames.length).map (fun k =>
      { timestep := timestep,
        time := time,
        max_perfs := max_perfs,
        classname := classname,
        instancename := instancename,
        varname := varnames.getD k [],
        value := interpret_float (word_at values k) }),
    stream)

/-- The loop over the entities of one block in `load`, `n` iterations. -/
def read_items (junk : Nat → Byte) (timestep : Int) (time : F32) (max_perfs : Int)
    (classname : List Byte) :
    Nat → VarMap → List NexusData → Stream → VarMap × List NexusData × Stream
  | 0, varnames, data, stream => (varnames, data, stream)
  | n + 1, varnames, data, stream =>
    let stream := stream.seekg_cur 8
    let (instancename, stream) := stream.read (uninit junk 8) 8
    let stream := stream.seekg_cur 64
    let varnames := varnames.touch classname
    let (data, stream) := read_vars stream data timestep time max_perfs classname
      instancename (varnames.get classname)
    read_items junk timestep time max_perfs classname n varnames data stream

/-- One iteration of the `while (true)` loop of `load` after the class name
has been read and found different from `stop`: the rest of the block is
decoded. The result carries the variable map and the records. -/
def read_block (junk : Nat → Byte) (classname : List Byte) (varnames : VarMap)
    (data : List NexusData) (stream : Stream) :
    Except Error (VarMap × List NexusData) × Stream :=
  let stream := stream.seekg_cur 8
  let (buf, stream) := stream.read (zeros 20) 20
  if !stream.good then (.error (.unexpected_eof ""), stream)
  else
    match float_to_int32 (interpret_float (word_at buf 0)),
          float_to_int32 (interpret_float (word_at buf 2)),
          float_to_int32 (interpret_float (word_at buf 4)) with
    | some timestep, some num_items, some max_perfs =>
      let time := interpret_float (word_at buf 1)
      let (varnames, data, stream) :=
        read_items junk timestep time max_perfs classname num_items.toNat
          varnames data stream
      let stream := stream.seekg_cur 8
      (.ok (varnames, data), stream)
    | _, _, _ => (.error .undefined, stream)

/-- The `while (true)` loop of `load`, run for at most `fuel` iterations:
`none` when they do not suffice.  The result carries the records, the
variable map and the stream as the loop leaves them. -/
def load_loop (junk : Nat → Byte) :
    Nat → VarMap → List NexusData → Stream →
      Option (Except Error (List NexusData) × VarMap × Stream)
  | 0, _, _, _ => none
  | fuel + 1, varnames, data, stream =>
    let (classname, stream) := read_str junk 8 stream
    if classname = stop then some (.ok data, varnames, stream)
    else
      match read_block junk classname varnames data stream with
      | (.error e, stream) => some (.error e, varnames, stream)
      | (.ok (varnames, data), stream) => load_loop junk fuel varnames data stream

/-- The body of `load(std::istream&)` between the construction of the
`stream_guard` and its destruction.  The loop gets one iteration more than
the stream has bytes, which always suffices (`load_loop_fuel`). -/
def load_body {U : Type} (mk_unit : List Byte → Option U) (junk : Nat → Byte)
    (stream : Stream) : Except Error (NexusPlot U) × Stream :=
  match read_header mk_unit junk stream with
  | (.error e, stream) => (.error e, stream)
  | (.ok header, stream) =>
    match read_varnames junk stream header.num_classes with
    | (.error e, stream) => (.error e, stream)
    | (.ok varnames, stream) =>
      match load_loop junk (stream.data.length + 1) varnames [] stream with
      | some (.ok data, _, stream) => (.ok { header := header, data := data }, stream)
      | some (.error e, _, stream) => (.error e, stream)
      | none => (.error .undefined, stream)

/-- Model of `basic_ios::exceptions(mask)`: the mask is stored, and the call
throws when the state of the stream has a bit of the mask. -/
def Stream.set_exceptions (s : Stream) (mask : Bool × Bool) : Bool × Stream :=
  ((s.eofbit && mask.1) || (s.failbit && mask.2), { s with exceptions := mask })

/-- The source's `load(std::istream&)`: the exception mask is saved and
cleared, the body runs, and the destructor of `stream_guard` puts the mask
back on every way out.  A destructor that throws ends the program
(`Error.terminate`). -/
def load {U : Type} (mk_unit : List Byte → Option U) (junk : Nat → Byte)
    (stream : Stream) : Except Error (NexusPlot U) × Stream :=
  let mask := stream.exceptions
  let (_, stream) := stream.set_exceptions (false, false)
  let (result, stream) := load_body mk_unit junk stream
  let (thrown, stream) := stream.set_exceptions mask
  if thrown then (.error .terminate, stream) else (result, stream)

/-! ## Layouts and examples used in the statements -/

/-- The stream `s` is not failed and holds the bytes `l` from offset `p`
on. -/
def Stream.Holds (s : Stream) (p : Nat) (l : List Byte) : Prop :=
  s.failbit = false ∧ p ≤ s.data.length ∧ s.data.drop p = l

/-- The streams `s` and `t` in a run of the same code on a stream and on its
first `n` bytes: `t` holds the first `n` bytes of `s`, and unless one of them
has failed, both are good with their cursors at the same offset. -/
def Stream.Sim (n : Nat) (s t : Stream) : Prop :=
  t.data = s.data.take n ∧ t.seek_past_end = s.seek_past_end ∧
    (s.failbit = true ∨ t.failbit = true ∨
      (s.good = true ∧ t.good = true ∧ t.pos = s.pos))

/-- One class of a catalog section, as its bytes lie in the stream: the
entry of the class-name table, the entry of the count table, and the block
of the class (a skipped time-variable name, the variable names, a skipped
trailer). -/
structure ClassLayout where
  name : List Byte
  count : List Byte
  timevar : List Byte
  vars : List (List Byte)
  trailer : List Byte
deriving DecidableEq, Repr

namespace ClassLayout

/-- The fields have the widths of the format and the count is the number of
variable names. -/
def complete (c : ClassLayout) : Prop :=
  c.name.length = 8 ∧ c.count.length = 4 ∧ c.timevar.length = 4 ∧
    (∀ v ∈ c.vars, v.length = 4) ∧ c.trailer.length = 8 ∧ be32 c.count = c.vars.length

instance (c : ClassLayout) : Decidable c.complete := by
  unfold complete; infer_instance

/-- The bytes of the class's block. -/
def block (c : ClassLayout) : List Byte := c.timevar ++ c.vars.flatten ++ c.trailer

end ClassLayout

/-- The bytes of a catalog section: 8 skipped bytes, the class-name table, 8
skipped bytes, the count table, 8 skipped bytes, the blocks of the
classes. -/
def catalog_section (skip1 skip2 skip3 : List Byte) (cs : List ClassLayout) : List Byte :=
  skip1 ++ ((cs.map (·.name)).flatten ++ (skip2 ++ ((cs.map (·.count)).flatten
    ++ (skip3 ++ (cs.map (·.block)).flatten))))

/-- The catalog that `read_varnames` builds from the classes `cs`: in the
order of the table, each name is assigned its variable names. -/
def catalog_of (cs : List ClassLayout) : VarMap :=
  cs.foldl (fun m c => m.assign c.name c.vars) []

/-- A unit-system constructor for the examples: it knows the code `METRIC`
only. -/
def metric_only (code : List Byte) : Option (List Byte) :=
  if code = [77, 69, 84, 82, 73, 67] then some code else none

/-- Uninitialised memory for the examples: all zero. -/
def zero_junk : Nat → Byte := fun _ => 0

/-- An example header with signature, unit system `METRIC` and the counters
`num_classes, 0, 0, 0, 0, 0, 0, 0`. -/
def example_header (num_classes : Byte) : List Byte :=
  zeros 4 ++ th0 ++ zeros 24 ++ [77, 69, 84, 82, 73, 67] ++ zeros 794
    ++ [0, 0, 0, num_classes] ++ zeros 28

/-- The class `WELL` with the variables `WOPR` and `WWPR`. -/
def example_class : ClassLayout :=
  { name := [87, 69, 76, 76, 32, 32, 32, 32],
    count := [0, 0, 0, 2],
    timevar := [84, 73, 77, 69],
    vars := [[87, 79, 80, 82], [87, 87, 80, 82]],
    trailer := zeros 8 }

/-- The entries of the class-name table of a stream whose header says
`n` classes: the 8 bytes at offset `880 + 8 * i`, for `i < n`. -/
def class_table (data : List Byte) (n : Nat) : List (List Byte) :=
  (List.range n).map (fun i => (data.drop (880 + 8 * i)).take 8)

/-- The catalog section of the examples: the one class `example_class`. -/
def example_catalog : List Byte :=
  catalog_section (zeros 8) (zeros 8) (zeros 8) [example_class]

/-- A class `WELL` without variables. -/
def empty_class : ClassLayout :=
  { name := [87, 69, 76, 76, 32, 32, 32, 32],
    count := [0, 0, 0, 0],
    timevar := [84, 73, 77, 69],
    vars := [],
    trailer := zeros 8 }

/-- A stream whose header says two classes and whose class-name table has
the name `WELL` twice. -/
def repeated_class_stream : List Byte :=
  example_header 2 ++ catalog_section (zeros 8) (zeros 8) (zeros 8) [empty_class, empty_class]

/-- A catalog section cut off after its count table, whose one count is
`0xFFFFFFFF`. -/
def negative_count_stream : List Byte :=
  zeros 8 ++ [87, 69, 76, 76, 32, 32, 32, 32] ++ zeros 8 ++ [255, 255, 255, 255]

/-- One entity of a data block, as its bytes lie in the stream: 8 skipped
bytes, the instance name, 64 skipped bytes, and the values array, one
four-byte word for each variable. -/
structure EntityLayout where
  skip1 : List Byte
  name : List Byte
  skip2 : List Byte
  values : List (List Byte)
deriving DecidableEq, Repr

namespace EntityLayout

/-- The bytes of the entity. -/
def bytes (e : EntityLayout) : List Byte :=
  e.skip1 ++ (e.name ++ (e.skip2 ++ e.values.flatten))

/-- The fields have the widths of the format, for a class of `nvars`
variables. -/
def complete (e : EntityLayout) (nvars : Nat) : Prop :=
  e.skip1.length = 8 ∧ e.name.length = 8 ∧ e.skip2.length = 64 ∧ e.values.length = nvars
    ∧ ∀ v ∈ e.values, v.length = 4

instance (e : EntityLayout) (nvars : Nat) : Decidable (e.complete nvars) := by
  unfold complete; infer_instance

end EntityLayout

/-- One data block, as its bytes lie in the stream: the class name, 8
skipped bytes, five four-byte words, the entities, and a skipped trailer of
8 bytes. -/
structure BlockLayout where
  classname : List Byte
  skip : List Byte
  word0 : List Byte
  word1 : List Byte
  word2 : List Byte
  word3 : List Byte
  word4 : List Byte
  entities : List EntityLayout
  trailer : List Byte
deriving DecidableEq, Repr

namespace BlockLayout

/-- The bytes of the block after its class name. -/
def body (b : BlockLayout) : List Byte :=
  b.skip ++ ((b.word0 ++ (b.word1 ++ (b.word2 ++ (b.word3 ++ b.word4))))
    ++ ((b.entities.map (·.bytes)).flatten ++ b.trailer))

/-- The bytes of the block. -/
def bytes (b : BlockLayout) : List Byte := b.classname ++ b.body

/-- The timestep of the block: the float of word 0, truncated. -/
def timestep (b : BlockLayout) : Option Int := float_to_int32 ⟨be32 b.word0⟩

/-- The time of the block: the float of word 1. -/
def time (b : BlockLayout) : F32 := ⟨be32 b.word1⟩

/-- The number of entities of the block: the float of word 2, truncated. -/
def num_items (b : BlockLayout) : Option Int := float_to_int32 ⟨be32 b.word2⟩

/-- The `max_perfs` of the block: the float of word 4, truncated. -/
def max_perfs (b : BlockLayout) : Option Int := float_to_int32 ⟨be32 b.word4⟩

/-- The block is complete for a class of `nvars` variables: its class name
is not the sentinel, the fields have the widths of the format, the three
floats that are truncated fit an `int32_t`, and the block has as many
entities as word 2 says. -/
def complete (b : BlockLayout) (nvars : Nat) : Prop :=
  b.classname.length = 8 ∧ b.classname ≠ stop ∧ b.skip.length = 8 ∧ b.word0.length = 4
    ∧ b.word1.length = 4 ∧ b.word2.length = 4 ∧ b.word3.length = 4 ∧ b.word4.length = 4
    ∧ b.trailer.length = 8 ∧ b.timestep.isSome ∧ b.max_perfs.isSome
    ∧ b.num_items.map Int.toNat = some b.entities.length
    ∧ ∀ e ∈ b.entities, e.complete nvars

instance (b : BlockLayout) (nvars : Nat) : Decidable (b.complete nvars) := by
  unfold complete; infer_instance

/-- The records of the block for a class with the variable names `vars`:
over the entities in the order of the stream, then over the variable names
in the order of the catalog, one record whose value is the matching word of
the entity's values array. -/
def records (b : BlockLayout) (vars : List (List Byte)) : List NexusData :=
  (b.entities.map (fun e => (List.range vars.length).map (fun k =>
    { timestep := b.timestep.getD 0,
      time := b.time,
      max_perfs := b.max_perfs.getD 0,
      classname := b.classname,
      instancename := e.name,
      varname := vars.getD k [],
      value := ⟨be32 (e.values.getD k [])⟩ }))).flatten

end BlockLayout

/-- The records that the entities `es` give in a block with the timestep
`ts`, the time `t`, the `max_perfs` `mp` and the class name `c`, whose class
has the variable names `vars`. -/
def entity_records (ts : Int) (t : F32) (mp : Int) (c : List Byte) (vars : List (List Byte))
    (es : List EntityLayout) : List NexusData :=
  (es.map (fun e => (List.range vars.length).map (fun k =>
    { timestep := ts, time := t, max_perfs := mp, classname := c, instancename := e.name,
      varname := vars.getD k [], value := ⟨be32 (e.values.getD k [])⟩ }))).flatten

/-- The records of a sequence of blocks, in the order of the stream, for the
catalog `varnames`. -/
def records_of (varnames : VarMap) (blocks : List BlockLayout) : List NexusData :=
  (blocks.map (fun b => b.records (varnames.get b.classname))).flatten

/-- The bytes of a plot stream: header, catalog section, data blocks,
sentinel. -/
def plot_stream (header : List Byte) (skip1 skip2 skip3 : List Byte) (cs : List ClassLayout)
    (blocks : List BlockLayout) : List Byte :=
  header ++ (catalog_section skip1 skip2 skip3 cs
    ++ ((blocks.map (·.bytes)).flatten ++ stop))

/-- The entity `WELL-A01` with the values `100.0f` and `0.0f`. -/
def example_entity : EntityLayout :=
  { skip1 := zeros 8,
    name := [87, 69, 76, 76, 45, 65, 48, 49],
    skip2 := zeros 64,
    values := [[66, 200, 0, 0], [0, 0, 0, 0]] }

/-- A block of the class `WELL` with timestep `3.0f`, time `1.5f`, one
entity and `max_perfs` `0.0f`. -/
def example_block : BlockLayout :=
  { classname := [87, 69, 76, 76, 32, 32, 32, 32],
    skip := zeros 8,
    word0 := [64, 64, 0, 0],
    word1 := [63, 192, 0, 0],
    word2 := [63, 128, 0, 0],
    word3 := [0, 0, 0, 0],
    word4 := [0, 0, 0, 0],
    entities := [example_entity],
    trailer := zeros 8 }

/-- The example plot stream: one class `WELL` with the variables `WOPR` and
`WWPR`, one block with one entity. -/
def example_stream : List Byte :=
  plot_stream (example_header 1) (zeros 8) (zeros 8) (zeros 8) [example_class] [example_block]

/-- A stream of data blocks that starts with a block of the class
`STOPabcd`, without entities, and ends with the sentinel. -/
def similar_name_stream : List Byte :=
  [83, 84, 79, 80, 97, 98, 99, 100] ++ zeros 8 ++ zeros 20 ++ zeros 8 ++ stop

/-! ## Layouts and examples for the data-block loop -/

/-- An entity named `FIELD` without values. -/
def unknown_entity : EntityLayout :=
  { skip1 := zeros 8,
    name := [70, 73, 69, 76, 68, 32, 32, 32],
    skip2 := zeros 64,
    values := [] }

/-- A block of the class `FIELD`, which the example catalog does not have,
with timestep `3.0f`, time `1.5f` and one entity. -/
def unknown_block : BlockLayout :=
  { classname := [70, 73, 69, 76, 68, 32, 32, 32],
    skip := zeros 8,
    word0 := [64, 64, 0, 0],
    word1 := [63, 192, 0, 0],
    word2 := [63, 128, 0, 0],
    word3 := [0, 0, 0, 0],
    word4 := [0, 0, 0, 0],
    entities := [unknown_entity],
    trailer := zeros 8 }

/-- The example plot stream with a block of the class `FIELD` before its
block of the class `WELL`. -/
def unknown_class_stream : List Byte :=
  plot_stream (example_header 1) (zeros 8) (zeros 8) (zeros 8) [example_class]
    [unknown_block, example_block]

/-- The bytes of a plot stream that ends inside the values array of an
entity: header, catalog section, the complete blocks `pre`, the block `b` up
to the last of its complete entities, the entity `e` up to its values array,
and `tail`, what the stream has of that array. The trailer of `b` and the
values of `e` are not part of the stream. -/
def cut_stream (header skip1 skip2 skip3 : List Byte) (cs : List ClassLayout)
    (pre : List BlockLayout) (b : BlockLayout) (e : EntityLayout) (tail : List Byte) :
    List Byte :=
  header ++ (catalog_section skip1 skip2 skip3 cs ++ ((pre.map (·.bytes)).flatten
    ++ (b.classname ++ (b.skip ++ ((b.word0 ++ (b.word1 ++ (b.word2 ++ (b.word3 ++ b.word4))))
    ++ ((b.entities.map (·.bytes)).flatten ++ (e.skip1 ++ (e.name ++ (e.skip2 ++ tail)))))))))

/-- The example plot stream cut after the first byte of the values array of
its entity: of the 8 bytes `42 C8 00 00 00 00 00 00` of the array it has the
byte `42`. -/
def short_values_stream : List Byte :=
  cut_stream (example_header 1) (zeros 8) (zeros 8) (zeros 8) [example_class] []
    { example_block with entities := [] } example_entity [66]

/-- What no read and no seek changes in a stream: its bytes, its kind of
buffer and its exception mask. -/
def Stream.frame (s : Stream) : List Byte × Bool × (Bool × Bool) :=
  (s.data, s.seek_past_end, s.exceptions)

/-- The smallest plot stream: the example header with one class, the class
`WELL` without variables, and the sentinel. -/
def minimal_stream : List Byte :=
  plot_stream (example_header 1) (zeros 8) (zeros 8) (zeros 8) [empty_class] []

/-- The rational number `q` rounded toward zero to an integer. -/
def trunc (q : ℚ) : Int := if 0 ≤ q then ⌊q⌋ else ⌈q⌉

/-- The float `f` is finite and its truncation toward zero is an
`int32_t`. -/
def F32.fits (f : F32) : Prop :=
  f.nonfinite = false ∧ -2147483648 ≤ trunc f.toRat ∧ trunc f.toRat < 2147483648

instance (f : F32) : Decidable f.fits := by
  unfold F32.fits; infer_instance

/-- The example entity with one value, `100.0f`. -/
def single_value_entity : EntityLayout :=
  { example_entity with values := [[66, 200, 0, 0]] }

/-- The rest of a block behind its class name: 8 skipped bytes, the words
`0x40400000`, `0x3FC00000`, `0x40000000`, `0x01020304` and `0`, two entities
with one value each, and the trailer. -/
def block_words_stream : List Byte :=
  zeros 8 ++ ([64, 64, 0, 0] ++ [63, 192, 0, 0] ++ [64, 0, 0, 0] ++ [1, 2, 3, 4] ++ [0, 0, 0, 0])
    ++ single_value_entity.bytes ++ single_value_entity.bytes ++ zeros 8

/-- The stream `s` over the bytes `d` instead of its own. -/
def Stream.rebase (s : Stream) (d : List Byte) : Stream := { s with data := d }

/-- The bytes `d` can stand for the bytes of `s` in what is decoded from
offset `k` on: they are as many, they are the same from offset `k` on, and
unless `s` has failed its cursor is not before `k`. -/
def Stream.Agree (k : Nat) (s : Stream) (d : List Byte) : Prop :=
  d.length = s.data.length ∧ d.drop k = s.data.drop k ∧ (s.failbit = false → k ≤ s.pos)

/-- The bytes `l` with every byte of the skipped header fields, at the
offsets 0 to 3, 16 to 39 and 46 to 839, replaced by `0xFF`. -/
def scramble (l : List Byte) : List Byte :=
  (List.range l.length).map (fun i =>
    if i < 4 ∨ (16 ≤ i ∧ i < 40) ∨ (46 ≤ i ∧ i < 840) then 255 else l.getD i 0)

/-- A class `WELL` with the one variable `WOPR`. -/
def first_well : ClassLayout :=
  { name := [87, 69, 76, 76, 32, 32, 32, 32],
    count := [0, 0, 0, 1],
    timevar := [84, 73, 77, 69],
    vars := [[87, 79, 80, 82]],
    trailer := zeros 8 }

/-- A class `WELL` with the one variable `WWPR`. -/
def second_well : ClassLayout :=
  { name := [87, 69, 76, 76, 32, 32, 32, 32],
    count := [0, 0, 0, 1],
    timevar := [84, 73, 77, 69],
    vars := [[87, 87, 80, 82]],
    trailer := zeros 8 }

/-- A catalog section whose class-name table has the name `WELL` twice,
first with the variable `WOPR`, then with the variable `WWPR`. -/
def repeated_catalog : List Byte :=
  catalog_section (zeros 8) (zeros 8) (zeros 8) [first_well, second_well]

/-- The variable map `m'` gives every lookup that `m` gives and has every key
of `m`. -/
def VarMap.Grows (m m' : VarMap) : Prop :=
  (∀ k, m'.get k = m.get k) ∧ ∀ k, k ∈ m.keys → k ∈ m'.keys

/-- Uninitialised memory that holds the bytes of the sentinel `"STOP    "`. -/
def stop_junk (i : Nat) : Byte := stop.getD i 0

/-- An entity named `ZONE-A01` without values. -/
def zone_entity : EntityLayout :=
  { skip1 := zeros 8,
    name := [90, 79, 78, 69, 45, 65, 48, 49],
    skip2 := zeros 64,
    values := [] }

/-- A block of the class `ZONE`, which the example catalog does not have,
with timestep `3.0f`, time `1.5f` and one entity. -/
def zone_block : BlockLayout :=
  { classname := [90, 79, 78, 69, 32, 32, 32, 32],
    skip := zeros 8,
    word0 := [64, 64, 0, 0],
    word1 := [63, 192, 0, 0],
    word2 := [63, 128, 0, 0],
    word3 := [0, 0, 0, 0],
    word4 := [0, 0, 0, 0],
    entities := [zone_entity],
    trailer := zeros 8 }

/-- The example plot stream with a block of the class `ZONE` before its
block of the class `WELL`. -/
def zone_class_stream : List Byte :=
  plot_stream (example_header 1) (zeros 8) (zeros 8) (zeros 8) [example_class]
    [zone_block, example_block]

/-! # Theorems -/

set_option maxRecDepth 100000

/-! ## Words -/

theorem host_word_lt (bs : List Byte) : host_word bs < 4294967296 := by
  unfold host_word
  have h0 := (bs.getD 0 0).isLt
  have h1 := (bs.getD 1 0).isLt
  have h2 := (bs.getD 2 0).isLt
  have h3 := (bs.getD 3 0).isLt
  omega

theorem be32_lt (bs : List Byte) : be32 bs < 4294967296 := by
  unfold be32
  have h0 := (bs.getD 0 0).isLt
  have h1 := (bs.getD 1 0).isLt
  have h2 := (bs.getD 2 0).isLt
  have h3 := (bs.getD 3 0).isLt
  omega

/-- On the little-endian host, `ntoh` of a word loaded from memory is the
big-endian value of its four bytes. -/
theorem ntoh_host_word (bs : List Byte) : ntoh (host_word bs) = be32 bs := by
  unfold ntoh host_word be32
  have h0 := (bs.getD 0 0).isLt
  have h1 := (bs.getD 1 0).isLt
  have h2 := (bs.getD 2 0).isLt
  have h3 := (bs.getD 3 0).isLt
  omega

theorem word_at_eq (buf : List Byte) (k : Nat) :
    word_at buf k = to_int32 (be32 (buf.drop (4 * k))) := by
  unfold word_at; rw [ntoh_host_word]

theorem to_int32_of_lt {w : Nat} (h : w < 2147483648) : to_int32 w = (w : Int) := by
  unfold to_int32
  have : w % 4294967296 = w := Nat.mod_eq_of_lt (by omega)
  rw [this, if_pos h]

theorem to_int32_neg_iff {w : Nat} (h : w < 4294967296) :
    to_int32 w < 0 ↔ 2147483648 ≤ w := by
  unfold to_int32
  have : w % 4294967296 = w := Nat.mod_eq_of_lt h
  rw [this]
  split <;> omega

theorem to_uint32_to_int32 {w : Nat} (h : w < 4294967296) :
    to_uint32 (to_int32 w) = w := by
  unfold to_uint32 to_int32
  have : w % 4294967296 = w := Nat.mod_eq_of_lt h
  rw [this]
  split <;> omega

theorem be32_take (l : List Byte) (n : Nat) (h : 4 ≤ n) : be32 (l.take n) = be32 l := by
  unfold be32
  have e : ∀ i, i < 4 → (l.take n).getD i 0 = l.getD i 0 := by
    intro i hi
    simp only [List.getD_eq_getElem?_getD]
    rw [List.getElem?_take_of_lt (by omega)]
  rw [e 0 (by omega), e 1 (by omega), e 2 (by omega), e 3 (by omega)]

/-- The `k`-th word of a buffer filled with the `n` bytes found at offset `p`
of `l`. -/
theorem word_at_take_drop (l : List Byte) (p n k : Nat) (h : 4 * k + 4 ≤ n) :
    word_at ((l.drop p).take n) k = to_int32 (be32 (l.drop (p + 4 * k))) := by
  rw [word_at_eq, List.drop_take, be32_take _ _ (by omega), List.drop_drop]

theorem uninit_length (junk : Nat → Byte) (n : Nat) : (uninit junk n).length = n := by
  simp [uninit]

theorem zeros_length (n : Nat) : (zeros n).length = n := by simp [zeros]

theorem drop_uninit (junk : Nat → Byte) (n : Nat) : (uninit junk n).drop n = [] := by
  apply List.drop_eq_nil_of_le; simp [uninit]

theorem drop_zeros (n : Nat) : (zeros n).drop n = [] := by
  apply List.drop_eq_nil_of_le; simp [zeros]

/-! ## The stream operations -/

namespace Stream

theorem seekg_to_ok (s : Stream) (t : Nat) (hf : s.failbit = false)
    (ht : t ≤ s.data.length) : s.seekg_to t = { s with eofbit := false, pos := t } := by
  unfold seekg_to
  simp [hf, Nat.not_lt.mpr ht]

theorem read_ok (s : Stream) (b : List Byte) (n : Nat) (hg : s.good = true)
    (hn : n ≤ s.data.length - s.pos) :
    s.read b n = ((s.data.drop s.pos).take n ++ b.drop n, { s with pos := s.pos + n }) := by
  unfold read
  have hl : ((s.data.drop s.pos).take n).length = n := by
    rw [List.length_take, List.length_drop]; omega
  simp [hg, hl]

@[simp] theorem moved_data (s : Stream) (p : Nat) : (s.moved p).data = s.data := rfl
@[simp] theorem moved_pos (s : Stream) (p : Nat) : (s.moved p).pos = p := rfl
@[simp] theorem moved_failbit (s : Stream) (p : Nat) : (s.moved p).failbit = s.failbit := rfl
@[simp] theorem moved_eofbit (s : Stream) (p : Nat) : (s.moved p).eofbit = false := rfl
@[simp] theorem moved_seek_past_end (s : Stream) (p : Nat) :
    (s.moved p).seek_past_end = s.seek_past_end := rfl
@[simp] theorem moved_exceptions (s : Stream) (p : Nat) :
    (s.moved p).exceptions = s.exceptions := rfl
@[simp] theorem moved_moved (s : Stream) (p q : Nat) : (s.moved p).moved q = s.moved q := rfl

theorem moved_good (s : Stream) (p : Nat) (hf : s.failbit = false) :
    (s.moved p).good = true := by simp [good, hf]

theorem moved_self (s : Stream) (hg : s.good = true) : s.moved s.pos = s := by
  simp only [good, Bool.and_eq_true, Bool.not_eq_true'] at hg
  cases s
  simp_all [moved]

theorem seekg_beg_moved (s : Stream) (t : Nat) (hf : s.failbit = false)
    (ht : t ≤ s.data.length) : s.seekg_beg t = s.moved t :=
  seekg_to_ok s t hf ht

theorem seekg_cur_moved (s : Stream) (p n : Nat) (hf : s.failbit = false)
    (ht : p + n ≤ s.data.length) : (s.moved p).seekg_cur n = s.moved (p + n) := by
  unfold seekg_cur
  rw [seekg_to_ok _ _ (by simpa using hf) (by simpa using ht)]
  rfl

theorem read_moved (s : Stream) (p n : Nat) (b : List Byte) (hf : s.failbit = false)
    (ht : p + n ≤ s.data.length) :
    (s.moved p).read b n = ((s.data.drop p).take n ++ b.drop n, s.moved (p + n)) := by
  rw [read_ok _ _ _ (moved_good s p hf) (by simp only [moved_data, moved_pos]; omega)]
  rfl

end Stream

/-! ## `read_header` -/

/-- What `read_header` does on a stream that holds the 872 bytes of a header
with the signature and a unit-system code that `mk_unit` accepts. -/
theorem read_header_complete {U : Type} (mk_unit : List Byte → Option U) (junk : Nat → Byte)
    (s : Stream) (u : U)
    (hfail : s.failbit = false) (hlen : 872 ≤ s.data.length)
    (hsig : (s.data.drop 4).take 12 = th0)
    (hunit : mk_unit ((s.data.drop 40).take 6) = some u) :
    read_header mk_unit junk s =
      if (words ((s.data.drop 840).take 32) 8).any negative then
        (.error (.bad_header "Negative value, corrupted file"), s.moved 872)
      else
        (.ok { unit_system := u,
               num_classes := word_at ((s.data.drop 840).take 32) 0,
               counter1 := word_at ((s.data.drop 840).take 32) 1,
               counter2 := word_at ((s.data.drop 840).take 32) 2,
               counter3 := word_at ((s.data.drop 840).take 32) 3,
               counter4 := word_at ((s.data.drop 840).take 32) 4,
               counter5 := word_at ((s.data.drop 840).take 32) 5,
               counter6 := word_at ((s.data.drop 840).take 32) 6,
               counter7 := word_at ((s.data.drop 840).take 32) 7 }, s.moved 872) := by
  unfold read_header read_str
  rw [Stream.seekg_beg_moved s 4 hfail (by omega)]
  dsimp only
  rw [Stream.read_moved s 4 12 _ hfail (by omega)]
  simp only [hsig, drop_uninit, List.append_nil, Stream.moved_good _ _ hfail, decide_True,
    Bool.not_true, Bool.or_self, Bool.false_eq_true, if_false]
  rw [Stream.seekg_cur_moved s _ 6 hfail (by omega), Stream.seekg_cur_moved s _ 6 hfail (by omega),
    Stream.seekg_cur_moved s _ 6 hfail (by omega), Stream.seekg_cur_moved s _ 6 hfail (by omega)]
  rw [Stream.read_moved s _ 6 _ hfail (by omega)]
  simp only [drop_uninit, List.append_nil, Stream.moved_good _ _ hfail,
    Bool.not_true, Bool.false_eq_true, if_false, hunit]
  rw [Stream.seekg_cur_moved s _ _ hfail (by omega)]
  rw [Stream.read_moved s _ 32 _ hfail (by omega)]
  simp only [drop_zeros, List.append_nil, Stream.moved_good _ _ hfail,
    Bool.not_true, Bool.false_eq_true, if_false]

/-- The words of the header counters, read off the stream. -/
theorem header_word (l : List Byte) (k : Nat) (hk : k < 8) :
    word_at ((l.drop 840).take 32) k = to_int32 (be32 (l.drop (840 + 4 * k))) :=
  word_at_take_drop l 840 32 k (by omega)

theorem any_negative_words (buf : List Byte) (n : Nat) :
    (words buf n).any negative = true ↔ ∃ k, k < n ∧ word_at buf k < 0 := by
  simp [words, negative, List.any_eq_true]

theorem any_negative_words_false (buf : List Byte) (n : Nat) :
    (words buf n).any negative = false ↔ ∀ k, k < n → 0 ≤ word_at buf k := by
  rw [← Bool.not_eq_true, any_negative_words]
  push_neg
  rfl

/-- A header that `read_header` returns has no negative counter. -/
theorem read_header_nonneg {U : Type} (mk_unit : List Byte → Option U) (junk : Nat → Byte)
    (s s' : Stream) (h : NexusHeader U) (hr : read_header mk_unit junk s = (.ok h, s')) :
    0 ≤ h.num_classes ∧ 0 ≤ h.counter1 ∧ 0 ≤ h.counter2 ∧ 0 ≤ h.counter3 ∧ 0 ≤ h.counter4
      ∧ 0 ≤ h.counter5 ∧ 0 ≤ h.counter6 ∧ 0 ≤ h.counter7 := by
  unfold read_header at hr
  dsimp only at hr
  split at hr
  · simp at hr
  · split at hr
    · simp at hr
    · split at hr
      · simp at hr
      · split at hr
        · simp at hr
        · split at hr
          · simp at hr
          · rename_i hany
            rw [Bool.not_eq_true, any_negative_words_false] at hany
            simp only [Prod.mk.injEq, Except.ok.injEq] at hr
            obtain ⟨rfl, -⟩ := hr
            exact ⟨hany 0 (by omega), hany 1 (by omega), hany 2 (by omega), hany 3 (by omega),
              hany 4 (by omega), hany 5 (by omega), hany 6 (by omega), hany 7 (by omega)⟩

namespace Stream

@[simp] theorem read_data (s : Stream) (b : List Byte) (n : Nat) :
    (s.read b n).2.data = s.data := by
  unfold read; dsimp only; split <;> [split; skip] <;> rfl

@[simp] theorem read_seek_past_end (s : Stream) (b : List Byte) (n : Nat) :
    (s.read b n).2.seek_past_end = s.seek_past_end := by
  unfold read; dsimp only; split <;> [split; skip] <;> rfl

@[simp] theorem read_exceptions (s : Stream) (b : List Byte) (n : Nat) :
    (s.read b n).2.exceptions = s.exceptions := by
  unfold read; dsimp only; split <;> [split; skip] <;> rfl

@[simp] theorem seekg_to_data (s : Stream) (t : Nat) : (s.seekg_to t).data = s.data := by
  unfold seekg_to; split <;> [skip; split] <;> rfl

@[simp] theorem seekg_to_seek_past_end (s : Stream) (t : Nat) :
    (s.seekg_to t).seek_past_end = s.seek_past_end := by
  unfold seekg_to; split <;> [skip; split] <;> rfl

@[simp] theorem seekg_to_exceptions (s : Stream) (t : Nat) :
    (s.seekg_to t).exceptions = s.exceptions := by
  unfold seekg_to; split <;> [skip; split] <;> rfl

@[simp] theorem seekg_to_eofbit (s : Stream) (t : Nat) : (s.seekg_to t).eofbit = false := by
  unfold seekg_to; split <;> [skip; split] <;> rfl

@[simp] theorem seekg_cur_data (s : Stream) (n : Nat) : (s.seekg_cur n).data = s.data :=
  seekg_to_data s _

@[simp] theorem seekg_cur_seek_past_end (s : Stream) (n : Nat) :
    (s.seekg_cur n).seek_past_end = s.seek_past_end := seekg_to_seek_past_end s _

@[simp] theorem seekg_cur_exceptions (s : Stream) (n : Nat) :
    (s.seekg_cur n).exceptions = s.exceptions := seekg_to_exceptions s _

@[simp] theorem seekg_cur_eofbit (s : Stream) (n : Nat) : (s.seekg_cur n).eofbit = false :=
  seekg_to_eofbit s _

theorem good_iff (s : Stream) : s.good = true ↔ s.eofbit = false ∧ s.failbit = false := by
  simp [good]

theorem failbit_of_good {s : Stream} (h : s.good = true) : s.failbit = false :=
  ((good_iff s).mp h).2

theorem not_good_of_failbit {s : Stream} (h : s.failbit = true) : s.good = false := by
  simp [good, h]

/-- A failed stream stays failed under `read`, and the destination is left as
it was. -/
theorem read_of_not_good (s : Stream) (b : List Byte) (n : Nat) (h : s.good = false) :
    s.read b n = (b, { s with failbit := true }) := by
  unfold read; simp [h]

theorem read_failbit (s : Stream) (b : List Byte) (n : Nat) (h : s.failbit = true) :
    (s.read b n).2.failbit = true := by
  rw [read_of_not_good s b n (not_good_of_failbit h)]

theorem read_fst_of_failbit (s : Stream) (b : List Byte) (n : Nat) (h : s.failbit = true) :
    (s.read b n).1 = b := by
  rw [read_of_not_good s b n (not_good_of_failbit h)]

theorem seekg_to_failbit (s : Stream) (t : Nat) (h : s.failbit = true) :
    (s.seekg_to t).failbit = true := by
  unfold seekg_to; simp [h]

theorem seekg_cur_failbit (s : Stream) (n : Nat) (h : s.failbit = true) :
    (s.seekg_cur n).failbit = true := seekg_to_failbit s _ h

/-- A `read` that leaves the stream good found it good and got all its
bytes. -/
theorem read_good_inv (s : Stream) (b : List Byte) (n : Nat)
    (h : (s.read b n).2.good = true) :
    s.good = true ∧ n ≤ s.data.length - s.pos := by
  unfold read at h
  dsimp only at h
  split at h
  · rename_i hg
    split at h
    · rename_i hl
      rw [List.length_take, List.length_drop] at hl
      exact ⟨hg, by omega⟩
    · simp [good] at h
  · simp [good] at h

/-- A `read` that found the stream good leaves its failbit clear exactly
when it got all its bytes. -/
theorem read_failbit_inv (s : Stream) (b : List Byte) (n : Nat)
    (h : (s.read b n).2.failbit = false) :
    s.good = true ∧ n ≤ s.data.length - s.pos := by
  unfold read at h
  dsimp only at h
  split at h
  · rename_i hg
    split at h
    · rename_i hl
      rw [List.length_take, List.length_drop] at hl
      exact ⟨hg, by omega⟩
    · simp at h
  · simp at h

/-- A `read` that comes up short leaves the stream failed. -/
theorem read_short (s : Stream) (b : List Byte) (n : Nat) (h : s.data.length - s.pos < n) :
    (s.read b n).2.failbit = true := by
  cases hf : (s.read b n).2.failbit
  · have := (read_failbit_inv s b n hf).2; omega
  · rfl

/-- A `seekg` that leaves failbit clear found it clear, was accepted by the
buffer, and moved the cursor. -/
theorem seekg_to_inv (s : Stream) (t : Nat) (h : (s.seekg_to t).failbit = false) :
    s.failbit = false ∧ s.seekg_to t = s.moved t
      ∧ (s.seek_past_end = true ∨ t ≤ s.data.length) := by
  have hf : s.failbit = false := by
    cases hf : s.failbit
    · rfl
    · rw [seekg_to_failbit s t hf] at h; exact absurd h (by simp)
  have hc : s.seek_past_end = true ∨ t ≤ s.data.length := by
    by_contra hc
    push_neg at hc
    have : (s.seekg_to t).failbit = true := by
      unfold seekg_to; simp [hf, hc.1, hc.2]
    rw [this] at h
    simp at h
  refine ⟨hf, ?_, hc⟩
  unfold seekg_to moved
  rcases hc with hc | hc
  · simp [hf, hc]
  · simp [hf, Nat.not_lt.mpr hc]

theorem seekg_cur_inv (s : Stream) (n : Nat) (h : (s.seekg_cur n).failbit = false) :
    s.failbit = false ∧ s.seekg_cur n = s.moved (s.pos + n)
      ∧ (s.seek_past_end = true ∨ s.pos + n ≤ s.data.length) :=
  seekg_to_inv s _ h

/-- The cursor after a `seekg` on a stream that is not failed: at the target,
unless the buffer refuses it. -/
theorem seekg_to_cases (s : Stream) (t : Nat) :
    (s.seekg_to t).failbit = true ∨ s.seekg_to t = s.moved t := by
  cases h : (s.seekg_to t).failbit
  · exact Or.inr (seekg_to_inv s t h).2.1
  · exact Or.inl rfl

theorem good_of_failbit_seekg_to (s : Stream) (t : Nat) :
    (s.seekg_to t).good = !(s.seekg_to t).failbit := by
  simp [good]

end Stream

/-! ## `read_header`, every case -/

/-- The first check of `read_header` passes exactly when the stream is not
failed and holds the signature at offsets 4 to 15; the cursor is then at
offset 16. -/
theorem read_header_signature (junk : Nat → Byte) (s : Stream) :
    (decide ((read_str junk 12 (s.seekg_beg 4)).1 = th0)
        && (read_str junk 12 (s.seekg_beg 4)).2.good) = true
      ↔ (s.failbit = false ∧ 16 ≤ s.data.length ∧ (s.data.drop 4).take 12 = th0) := by
  constructor
  · intro h
    simp only [Bool.and_eq_true, decide_eq_true_eq] at h
    obtain ⟨h1, h2⟩ := h
    unfold read_str at h1 h2
    obtain ⟨hg, hn⟩ := Stream.read_good_inv _ _ _ h2
    obtain ⟨hf, hm, -⟩ := Stream.seekg_to_inv s 4 (Stream.failbit_of_good hg)
    unfold Stream.seekg_beg at h1 hn
    rw [hm] at h1 hn
    simp only [Stream.moved_data, Stream.moved_pos] at hn
    rw [Stream.read_moved s 4 12 _ hf (by omega), drop_uninit, List.append_nil] at h1
    exact ⟨hf, by omega, h1⟩
  · rintro ⟨hf, hl, hs⟩
    unfold read_str
    rw [Stream.seekg_beg_moved s 4 hf (by omega), Stream.read_moved s 4 12 _ hf (by omega),
      drop_uninit, List.append_nil]
    simp [hs, Stream.moved_good _ _ hf]

theorem seekg_cur_chain_inv (s : Stream) (p a b c d n : Nat) (buf : List Byte)
    (h : ((((((s.moved p).seekg_cur a).seekg_cur b).seekg_cur c).seekg_cur d).read buf n).2.good
      = true) (hn : 0 < n) :
    p + a + b + c + d + n ≤ s.data.length := by
  obtain ⟨hg, hle⟩ := Stream.read_good_inv _ _ _ h
  obtain ⟨h4, e4, -⟩ := Stream.seekg_cur_inv _ _ (Stream.failbit_of_good hg)
  obtain ⟨h3, e3, -⟩ := Stream.seekg_cur_inv _ _ h4
  obtain ⟨h2, e2, -⟩ := Stream.seekg_cur_inv _ _ h3
  obtain ⟨h1, e1, -⟩ := Stream.seekg_cur_inv _ _ h2
  simp only [Stream.moved_pos, Stream.moved_moved] at e1
  rw [e1] at e2 e3 e4 hle
  simp only [Stream.moved_pos, Stream.moved_moved] at e2
  rw [e2] at e3 e4 hle
  simp only [Stream.moved_pos, Stream.moved_moved] at e3
  rw [e3] at e4 hle
  simp only [Stream.moved_pos, Stream.moved_moved] at e4
  rw [e4] at hle
  simp only [Stream.moved_pos, Stream.moved_data] at hle
  omega

/-- The result of `read_header`, in every case. -/
theorem read_header_fst {U : Type} (mk_unit : List Byte → Option U) (junk : Nat → Byte)
    (s : Stream) :
    (read_header mk_unit junk s).1 =
      if s.failbit = false ∧ 16 ≤ s.data.length ∧ (s.data.drop 4).take 12 = th0 then
        if 46 ≤ s.data.length then
          match mk_unit ((s.data.drop 40).take 6) with
          | none => .error .unit_system
          | some u =>
            if 872 ≤ s.data.length then
              if (words ((s.data.drop 840).take 32) 8).any negative then
                .error (.bad_header "Negative value, corrupted file")
              else
                .ok { unit_system := u,
                      num_classes := word_at ((s.data.drop 840).take 32) 0,
                      counter1 := word_at ((s.data.drop 840).take 32) 1,
                      counter2 := word_at ((s.data.drop 840).take 32) 2,
                      counter3 := word_at ((s.data.drop 840).take 32) 3,
                      counter4 := word_at ((s.data.drop 840).take 32) 4,
                      counter5 := word_at ((s.data.drop 840).take 32) 5,
                      counter6 := word_at ((s.data.drop 840).take 32) 6,
                      counter7 := word_at ((s.data.drop 840).take 32) 7 }
            else .error (.unexpected_eof "")
        else .error (.unexpected_eof "File has no content")
      else .error (.bad_header "Could not verify file type") := by
  by_cases hsig : s.failbit = false ∧ 16 ≤ s.data.length ∧ (s.data.drop 4).take 12 = th0
  · rw [if_pos hsig]
    have hsig' := (read_header_signature junk s).mpr hsig
    simp only [Bool.and_eq_true, decide_eq_true_eq] at hsig'
    obtain ⟨hf, hl, hs⟩ := hsig
    have e1 : read_str junk 12 (s.seekg_beg 4) = (th0, s.moved 16) := by
      unfold read_str
      rw [Stream.seekg_beg_moved s 4 hf (by omega), Stream.read_moved s 4 12 _ hf (by omega),
        hs, drop_uninit, List.append_nil]
    unfold read_header
    simp only [e1, decide_True, Bool.not_true, Stream.moved_good _ _ hf, Bool.or_self,
      Bool.false_eq_true, if_false]
    by_cases h46 : 46 ≤ s.data.length
    · rw [if_pos h46]
      unfold read_str
      rw [Stream.seekg_cur_moved s _ 6 hf (by omega), Stream.seekg_cur_moved s _ 6 hf (by omega),
        Stream.seekg_cur_moved s _ 6 hf (by omega), Stream.seekg_cur_moved s _ 6 hf (by omega),
        Stream.read_moved s _ 6 _ hf (by omega)]
      simp only [drop_uninit, List.append_nil, Stream.moved_good _ _ hf, Bool.not_true,
        Bool.false_eq_true, if_false]
      cases hu : mk_unit ((s.data.drop 40).take 6) with
      | none => simp only [Nat.reduceAdd, hu]
      | some u =>
        simp only [Nat.reduceAdd, hu]
        by_cases h872 : 872 ≤ s.data.length
        · rw [if_pos h872]
          rw [Stream.seekg_cur_moved s _ _ hf (by omega),
            Stream.read_moved s _ 32 _ hf (by omega)]
          simp only [drop_zeros, List.append_nil, Stream.moved_good _ _ hf, Bool.not_true,
            Bool.false_eq_true, if_false, Nat.reduceAdd]
          split <;> rfl
        · rw [if_neg h872]
          have hng : (((s.moved 46).seekg_cur 794).read (zeros 32) 32).2.good = false := by
            cases hg : (((s.moved 46).seekg_cur 794).read (zeros 32) 32).2.good
            · rfl
            · exfalso
              obtain ⟨hg', hle⟩ := Stream.read_good_inv _ _ _ hg
              obtain ⟨-, e, -⟩ := Stream.seekg_cur_inv _ _ (Stream.failbit_of_good hg')
              rw [e] at hle
              simp only [Stream.moved_pos, Stream.moved_data] at hle
              omega
          simp only [hng, Bool.not_false, if_true]
    · rw [if_neg h46]
      have hng : (read_str junk 6 ((((s.moved 16).seekg_cur 6).seekg_cur 6).seekg_cur
          6 |>.seekg_cur 6)).2.good = false := by
        cases hg : (read_str junk 6 ((((s.moved 16).seekg_cur 6).seekg_cur 6).seekg_cur
          6 |>.seekg_cur 6)).2.good
        · rfl
        · exfalso
          have := seekg_cur_chain_inv s 16 6 6 6 6 6 _ hg (by omega)
          omega
      simp only [hng, Bool.not_false, if_true]
  · rw [if_neg hsig]
    have hsig' := (read_header_signature junk s).not.mpr hsig
    simp only [Bool.and_eq_true, decide_eq_true_eq, not_and, Bool.not_eq_true] at hsig'
    unfold read_header
    dsimp only
    rw [if_pos]
    by_cases h1 : (read_str junk 12 (s.seekg_beg 4)).1 = th0
    · simp [hsig' h1]
    · simp [h1]

/-- The stream that a successful `read_header` leaves: not failed, with the
cursor at offset 872. -/
theorem read_header_snd {U : Type} (mk_unit : List Byte → Option U) (junk : Nat → Byte)
    (s s' : Stream) (h : NexusHeader U) (hr : read_header mk_unit junk s = (.ok h, s')) :
    s' = s.moved 872 ∧ s.failbit = false ∧ 872 ≤ s.data.length := by
  have h1 := read_header_fst mk_unit junk s
  rw [hr] at h1
  dsimp only at h1
  split at h1
  · rename_i hsig
    split at h1
    · split at h1
      · simp at h1
      · rename_i u hu
        split at h1
        · rename_i h872
          have hc := read_header_complete mk_unit junk s u hsig.1 h872 hsig.2.2 hu
          rw [hr] at hc
          split at hc
          · simp at hc
          · simp only [Prod.mk.injEq] at hc
            exact ⟨hc.2, hsig.1, h872⟩
        · simp at h1
    · simp at h1
  · simp at h1

/-! ## Reading bytes that the stream holds -/

namespace Stream

theorem Holds.advance {s : Stream} {p : Nat} {x l : List Byte} (h : s.Holds p (x ++ l)) :
    s.Holds (p + x.length) l := by
  obtain ⟨hf, hp, hd⟩ := h
  have hlen : s.data.length - p = x.length + l.length := by
    rw [← List.length_drop, hd, List.length_append]
  refine ⟨hf, by omega, ?_⟩
  rw [← List.drop_drop, hd, List.drop_left]

theorem Holds.length_le {s : Stream} {p : Nat} {x l : List Byte} (h : s.Holds p (x ++ l)) :
    p + x.length ≤ s.data.length := h.advance.2.1

theorem Holds.take {s : Stream} {p : Nat} {x l : List Byte} (h : s.Holds p (x ++ l)) :
    (s.data.drop p).take x.length = x := by
  rw [h.2.2, List.take_left]

/-- Reading bytes that the stream holds returns them and moves past them. -/
theorem Holds.read {s : Stream} {p : Nat} {x l : List Byte} (h : s.Holds p (x ++ l))
    (b : List Byte) :
    (s.moved p).read b x.length = (x ++ b.drop x.length, s.moved (p + x.length)) := by
  rw [read_moved s p _ b h.1 h.length_le, h.take]

/-- Seeking over bytes that the stream holds moves past them. -/
theorem Holds.seekg_cur {s : Stream} {p : Nat} {x l : List Byte} (h : s.Holds p (x ++ l)) :
    (s.moved p).seekg_cur x.length = s.moved (p + x.length) :=
  seekg_cur_moved s p _ h.1 h.length_le

theorem holds_of_good {s : Stream} (hg : s.good = true) (hp : s.pos ≤ s.data.length) :
    s.Holds s.pos (s.data.drop s.pos) := by
  simp only [good, Bool.and_eq_true, Bool.not_eq_true'] at hg
  exact ⟨hg.2, hp, rfl⟩

end Stream

/-! ## The variable map -/

namespace VarMap

theorem get_assign_self (m : VarMap) (k : List Byte) (v : List (List Byte)) :
    (m.assign k v).get k = v := by
  induction m with
  | nil => simp [assign, get]
  | cons p m ih =>
    obtain ⟨k', v'⟩ := p
    by_cases h : k' = k
    · simp [assign, get, h]
    · simp [assign, get, h, ih]

theorem get_assign_other (m : VarMap) (k k' : List Byte) (v : List (List Byte))
    (h : k ≠ k') : (m.assign k v).get k' = m.get k' := by
  induction m with
  | nil => simp [assign, get, h]
  | cons p m ih =>
    obtain ⟨k0, v0⟩ := p
    by_cases h0 : k0 = k
    · subst h0; simp [assign, get, h]
    · by_cases h1 : k0 = k'
      · subst h1; simp [assign, get, h0]
      · simp [assign, get, h0, h1, ih]

theorem assign_assign (m : VarMap) (k : List Byte) (v w : List (List Byte)) :
    (m.assign k v).assign k w = m.assign k w := by
  induction m with
  | nil => simp [assign]
  | cons p m ih =>
    obtain ⟨k0, v0⟩ := p
    by_cases h0 : k0 = k
    · simp [assign, h0]
    · simp [assign, h0, ih]

theorem assign_of_not_mem (m : VarMap) (k : List Byte) (v : List (List Byte))
    (h : k ∉ m.keys) : m.assign k v = m ++ [(k, v)] := by
  induction m with
  | nil => simp [assign]
  | cons p m ih =>
    obtain ⟨k0, v0⟩ := p
    simp only [keys, List.map_cons, List.mem_cons, not_or] at h
    have h0 : k0 ≠ k := fun e => h.1 e.symm
    simp only [assign, h0, if_false, List.cons_append, List.cons.injEq, true_and]
    exact ih h.2

theorem keys_assign_of_mem (m : VarMap) (k : List Byte) (v : List (List Byte))
    (h : k ∈ m.keys) : (m.assign k v).keys = m.keys := by
  induction m with
  | nil => simp [keys] at h
  | cons p m ih =>
    obtain ⟨k0, v0⟩ := p
    by_cases h0 : k0 = k
    · simp [assign, keys, h0]
    · simp only [keys, List.map_cons, List.mem_cons] at h
      have hm : k ∈ keys m := by
        rcases h with h | h
        · exact absurd h.symm h0
        · exact h
      simp only [assign, h0, if_false, keys, List.map_cons, List.cons.injEq, true_and]
      exact ih hm

theorem keys_assign_of_not_mem (m : VarMap) (k : List Byte) (v : List (List Byte))
    (h : k ∉ m.keys) : (m.assign k v).keys = m.keys ++ [k] := by
  rw [assign_of_not_mem m k v h]; simp [keys]

theorem mem_keys_assign (m : VarMap) (k : List Byte) (v : List (List Byte)) :
    k ∈ (m.assign k v).keys := by
  by_cases h : k ∈ m.keys
  · rw [keys_assign_of_mem m k v h]; exact h
  · rw [keys_assign_of_not_mem m k v h]; simp

/-- Pushing names one by one onto the vector of `k` appends them. -/
theorem foldl_push_back (xs : List (List Byte)) (m : VarMap) (k : List Byte)
    (v : List (List Byte)) :
    xs.foldl (fun m x => m.push_back k x) (m.assign k v) = m.assign k (v ++ xs) := by
  induction xs generalizing v with
  | nil => simp
  | cons x xs ih =>
    have e : (m.assign k v).push_back k x = m.assign k (v ++ [x]) := by
      simp only [push_back, get_assign_self, assign_assign]
    rw [List.foldl_cons, e, ih]
    simp

/-- Evaluating `m[k]` leaves the vector of `k` as it is. -/
theorem get_touch (m : VarMap) (k k' : List Byte) : (m.touch k).get k' = m.get k' := by
  unfold touch
  by_cases h : k = k'
  · subst h; rw [get_assign_self]
  · rw [get_assign_other _ _ _ _ h]

end VarMap

/-! ## Tables of words and of names -/

theorem be32_append (x l : List Byte) (h : x.length = 4) : be32 (x ++ l) = be32 x := by
  unfold be32
  have e : ∀ i, i < 4 → (x ++ l).getD i 0 = x.getD i 0 := by
    intro i hi
    simp only [List.getD_eq_getElem?_getD]
    rw [List.getElem?_append_left (by omega)]
  rw [e 0 (by omega), e 1 (by omega), e 2 (by omega), e 3 (by omega)]

theorem words_cons (x l : List Byte) (n : Nat) (h : x.length = 4) :
    words (x ++ l) (n + 1) = to_int32 (be32 x) :: words l n := by
  have h0 : word_at (x ++ l) 0 = to_int32 (be32 x) := by
    rw [word_at_eq, Nat.mul_zero, List.drop_zero, be32_append x l h]
  have hs : ∀ k, word_at (x ++ l) (k + 1) = word_at l k := by
    intro k
    rw [word_at_eq, word_at_eq, show 4 * (k + 1) = x.length + 4 * k by omega,
      ← List.drop_drop, List.drop_left]
  unfold words
  rw [List.range_succ_eq_map, List.map_cons, List.map_map, h0, List.cons.injEq]
  refine ⟨rfl, List.map_congr_left ?_⟩
  intro k _
  exact hs k

theorem words_flatten (ws : List (List Byte)) (l : List Byte)
    (h : ∀ w ∈ ws, w.length = 4) :
    words (ws.flatten ++ l) ws.length = ws.map (fun w => to_int32 (be32 w)) := by
  induction ws with
  | nil => simp [words]
  | cons w ws ih =>
    rw [List.flatten_cons, List.append_assoc, List.length_cons,
      words_cons _ _ _ (h w (List.mem_cons_self _ _)), List.map_cons,
      ih (fun w' hw' => h w' (List.mem_cons_of_mem _ hw'))]

theorem split_names_cons (x l : List Byte) (n : Nat) (h : x.length = 4) :
    split_names (x ++ l) (n + 1) = x :: split_names l n := by
  unfold split_names
  rw [List.range_succ_eq_map, List.map_cons, List.map_map, List.cons.injEq]
  constructor
  · rw [Nat.zero_mul, List.drop_zero, ← h, List.take_left]
  · apply List.map_congr_left
    intro k _
    simp only [Function.comp]
    rw [show (k + 1) * 4 = x.length + k * 4 by omega, ← List.drop_drop, List.drop_left]

theorem split_names_flatten (vs : List (List Byte)) (l : List Byte)
    (h : ∀ v ∈ vs, v.length = 4) : split_names (vs.flatten ++ l) vs.length = vs := by
  induction vs with
  | nil => simp [split_names]
  | cons v vs ih =>
    rw [List.flatten_cons, List.append_assoc, List.length_cons,
      split_names_cons _ _ _ (h v (List.mem_cons_self _ _)),
      ih (fun w' hw' => h w' (List.mem_cons_of_mem _ hw'))]

theorem length_flatten_of_forall (ws : List (List Byte)) (n : Nat)
    (h : ∀ w ∈ ws, w.length = n) : ws.flatten.length = n * ws.length := by
  induction ws with
  | nil => simp
  | cons w ws ih =>
    rw [List.flatten_cons, List.length_append, h w (List.mem_cons_self _ _),
      ih (fun w' hw' => h w' (List.mem_cons_of_mem _ hw')), List.length_cons]
    ring

/-! ## `read_varnames` on a complete catalog section -/

theorem read_classnames_holds (s : Stream) (names : List (List Byte))
    (hn : ∀ x ∈ names, x.length = 8) :
    ∀ (p : Nat) (b l : List Byte), b.length = 8 → s.Holds p (names.flatten ++ l) →
      read_classnames names.length b (s.moved p)
        = (names, s.moved (p + names.flatten.length)) := by
  induction names with
  | nil => intro p b l _ _; simp [read_classnames]
  | cons x xs ih =>
    intro p b l hb h
    have hx : x.length = 8 := hn x (List.mem_cons_self _ _)
    rw [List.flatten_cons, List.append_assoc] at h
    have hr := h.read b
    rw [hx, List.drop_eq_nil_of_le (by omega), List.append_nil] at hr
    have ha := h.advance
    rw [hx] at ha
    simp only [List.length_cons, read_classnames, hr,
      ih (fun y hy => hn y (List.mem_cons_of_mem _ hy)) (p + 8) x l hx ha,
      List.flatten_cons, List.length_append, hx, Nat.add_assoc]

theorem read_class_holds (s : Stream) (c : ClassLayout) (hc : c.complete)
    (hv : c.vars.length < 536870912) (m : VarMap) (p : Nat) (l : List Byte)
    (h : s.Holds p (c.block ++ l)) :
    read_class c.name (c.vars.length : Int) m (s.moved p)
      = (.ok (m.assign c.name c.vars), s.moved (p + c.block.length)) := by
  obtain ⟨-, -, ht, hvs, htr, -⟩ := hc
  have hfl : c.vars.flatten.length = 4 * c.vars.length := length_flatten_of_forall _ 4 hvs
  unfold ClassLayout.block at h
  rw [List.append_assoc, List.append_assoc] at h
  have h1 := h.seekg_cur
  have a1 := h.advance
  have h2 := a1.read (zeros (4 * c.vars.length))
  have a2 := a1.advance
  have h3 := a2.seekg_cur
  simp only [ht, hfl, htr, drop_zeros, List.append_nil] at h1 h2 h3
  have e1 : ((c.vars.length : Int) * 4).toNat = 4 * c.vars.length := by omega
  have e2 : ¬ (2147483648 : Int) ≤ (c.vars.length : Int) * 4 := by omega
  unfold read_class
  simp only [h1, e1, e2, if_false, h2, Int.toNat_ofNat, h3]
  have e3 : split_names c.vars.flatten c.vars.length = c.vars := by
    have := split_names_flatten c.vars [] hvs
    rwa [List.append_nil] at this
  rw [e3, VarMap.foldl_push_back, List.nil_append]
  simp only [ClassLayout.block, List.length_append, ht, hfl, htr, Nat.add_assoc]

theorem read_classes_holds (s : Stream) (cs : List ClassLayout)
    (hc : ∀ c ∈ cs, c.complete) (hv : ∀ c ∈ cs, c.vars.length < 536870912) :
    ∀ (m : VarMap) (p : Nat) (l : List Byte), s.Holds p ((cs.map (·.block)).flatten ++ l) →
      read_classes (cs.map (fun c => (c.name, (c.vars.length : Int)))) m (s.moved p)
        = (.ok (cs.foldl (fun m c => m.assign c.name c.vars) m),
            s.moved (p + (cs.map (·.block)).flatten.length)) := by
  induction cs with
  | nil => intro m p l _; simp [read_classes]
  | cons c cs ih =>
    intro m p l h
    rw [List.map_cons, List.flatten_cons, List.append_assoc] at h
    have h1 := read_class_holds s c (hc c (List.mem_cons_self _ _))
      (hv c (List.mem_cons_self _ _)) m p _ h
    simp only [List.map_cons, read_classes, h1, List.foldl_cons,
      ih (fun y hy => hc y (List.mem_cons_of_mem _ hy))
        (fun y hy => hv y (List.mem_cons_of_mem _ hy)) _ _ l h.advance,
      List.flatten_cons, List.length_append, Nat.add_assoc]

theorem catalog_section_length (skip1 skip2 skip3 : List Byte) (cs : List ClassLayout) :
    (catalog_section skip1 skip2 skip3 cs).length = skip1.length
      + ((cs.map (·.name)).flatten.length + (skip2.length + ((cs.map (·.count)).flatten.length
      + (skip3.length + (cs.map (·.block)).flatten.length)))) := by
  simp only [catalog_section, List.length_append]

/-- On a stream that holds a complete catalog section, `read_varnames`
returns the catalog of its classes and leaves the cursor behind the
section. -/
theorem read_varnames_holds (junk : Nat → Byte) (s : Stream) (p : Nat)
    (skip1 skip2 skip3 rest : List Byte) (cs : List ClassLayout)
    (h : s.Holds p (catalog_section skip1 skip2 skip3 cs ++ rest))
    (h1 : skip1.length = 8) (h2 : skip2.length = 8) (h3 : skip3.length = 8)
    (hc : ∀ c ∈ cs, c.complete) (hn : cs.length < 536870912)
    (hv : ∀ c ∈ cs, c.vars.length < 536870912) :
    read_varnames junk (s.moved p) (cs.length : Int)
      = (.ok (catalog_of cs),
          s.moved (p + (catalog_section skip1 skip2 skip3 cs).length)) := by
  have hnames : ∀ x ∈ cs.map (·.name), x.length = 8 := by
    intro x hx
    obtain ⟨c, hcm, rfl⟩ := List.mem_map.mp hx
    exact (hc c hcm).1
  have hcounts : ∀ x ∈ cs.map (·.count), x.length = 4 := by
    intro x hx
    obtain ⟨c, hcm, rfl⟩ := List.mem_map.mp hx
    exact (hc c hcm).2.1
  have hnl : (cs.map (·.name)).flatten.length = 8 * cs.length := by
    rw [length_flatten_of_forall _ 8 hnames, List.length_map]
  have hcl : (cs.map (·.count)).flatten.length = 4 * cs.length := by
    rw [length_flatten_of_forall _ 4 hcounts, List.length_map]
  unfold catalog_section at h
  simp only [List.append_assoc] at h
  have s1 := h.seekg_cur
  have a1 := h.advance
  have s2 := read_classnames_holds s (cs.map (·.name)) hnames _ (uninit junk 8) _
    (uninit_length junk 8) a1
  have a2 := a1.advance
  have s3 := a2.seekg_cur
  have a3 := a2.advance
  have s4 := a3.read (zeros (4 * cs.length))
  have a4 := a3.advance
  have s5 := a4.seekg_cur
  have a5 := a4.advance
  have s6 := read_classes_holds s cs hc hv [] _ rest a5
  simp only [h1, h2, h3, hnl, hcl, List.length_map, drop_zeros, List.append_nil]
    at s1 s2 s3 s4 s5 s6
  have e0 : ¬ ((cs.length : Int) < 0) := by omega
  have e1 : ((cs.length : Int)).toNat = cs.length := by omega
  have e2 : ¬ (2147483648 : Int) ≤ (cs.length : Int) * 4 := by omega
  have e3 : ((cs.length : Int) * 4).toNat = 4 * cs.length := by omega
  have hw : words (cs.map (·.count)).flatten cs.length
      = cs.map (fun c => (c.vars.length : Int)) := by
    have := words_flatten (cs.map (·.count)) [] hcounts
    rw [List.append_nil, List.length_map, List.map_map] at this
    rw [this]
    apply List.map_congr_left
    intro c hcm
    simp only [Function.comp]
    rw [(hc c hcm).2.2.2.2.2]
    exact to_int32_of_lt (by have := hv c hcm; omega)
  have hneg : (cs.map (fun c => (c.vars.length : Int))).any negative = false := by
    rw [List.any_eq_false]
    intro x hx
    obtain ⟨c, -, rfl⟩ := List.mem_map.mp hx
    simp [negative]
  have hzip : (cs.map (·.name)).zip (cs.map (fun c => (c.vars.length : Int)))
      = cs.map (fun c => (c.name, (c.vars.length : Int))) := by
    rw [List.zip_map']
  unfold read_varnames
  simp only [e0, if_false, s1, e1, s2, s3, e2, e3, s4, hw, hneg,
    Bool.false_eq_true, s5, hzip, s6, catalog_of, Stream.moved_eofbit,
    Stream.moved_good _ _ h.1, Bool.not_true, Bool.or_self]
  simp only [catalog_section_length, h1, h2, h3, hnl, hcl, List.length_map, Nat.add_assoc]

/-! ## `read_varnames`, whatever the stream holds -/

theorem read_classnames_length (n : Nat) (b : List Byte) (s : Stream) :
    (read_classnames n b s).1.length = n := by
  induction n generalizing b s with
  | zero => rfl
  | succ n ih => simp only [read_classnames, List.length_cons, ih]

@[simp] theorem read_classnames_data (n : Nat) (b : List Byte) (s : Stream) :
    (read_classnames n b s).2.data = s.data := by
  induction n generalizing b s with
  | zero => rfl
  | succ n ih => simp only [read_classnames, ih, Stream.read_data]

theorem read_classnames_failbit (n : Nat) (b : List Byte) (s : Stream)
    (h : s.failbit = true) : (read_classnames n b s).2.failbit = true := by
  induction n generalizing b s with
  | zero => exact h
  | succ n ih =>
    simp only [read_classnames]
    exact ih _ _ (Stream.read_failbit s b 8 h)

/-- The class-name table that `n` reads of 8 bytes find at offset `p`. -/
theorem read_classnames_moved (s : Stream) (hf : s.failbit = false) (n : Nat) :
    ∀ (p : Nat) (b : List Byte), b.length = 8 → p + 8 * n ≤ s.data.length →
      read_classnames n b (s.moved p)
        = ((List.range n).map (fun i => (s.data.drop (p + 8 * i)).take 8),
            s.moved (p + 8 * n)) := by
  induction n with
  | zero => intro p b _ _; simp [read_classnames]
  | succ n ih =>
    intro p b hb hle
    have hb' : b.drop 8 = [] := List.drop_eq_nil_of_le (by omega)
    have hr := Stream.read_moved s p 8 b hf (by omega)
    rw [hb', List.append_nil] at hr
    have hl : ((s.data.drop p).take 8).length = 8 := by
      rw [List.length_take, List.length_drop]; omega
    simp only [read_classnames, hr, ih (p + 8) _ hl (by omega), List.range_succ_eq_map,
      List.map_cons, List.map_map, Nat.mul_zero, Nat.add_zero, Prod.mk.injEq, List.cons.injEq,
      true_and]
    constructor
    · apply List.map_congr_left
      intro i _
      simp only [Function.comp]
      congr 2
      omega
    · congr 1
      omega

/-- When the class-name loop leaves the stream not failed, the stream held
the whole table. -/
theorem read_classnames_inv (n : Nat) (b : List Byte) (s : Stream)
    (h : (read_classnames n b s).2.failbit = false) (hn : 0 < n) :
    s.good = true ∧ s.pos + 8 * n ≤ s.data.length := by
  induction n generalizing b s with
  | zero => omega
  | succ n ih =>
    simp only [read_classnames] at h
    have h1 : (s.read b 8).2.failbit = false := by
      cases hf : (s.read b 8).2.failbit
      · rfl
      · rw [read_classnames_failbit n _ _ hf] at h; exact absurd h (by simp)
    obtain ⟨hg, hle⟩ := Stream.read_failbit_inv s b 8 h1
    refine ⟨hg, ?_⟩
    rcases Nat.eq_zero_or_pos n with h0 | h0
    · subst h0; omega
    · have := (ih _ _ h h0).2
      rw [Stream.read_ok s b 8 hg hle] at this
      simp only at this
      omega

@[simp] theorem read_class_data (k : List Byte) (c : Int) (m : VarMap) (s : Stream) :
    (read_class k c m s).2.data = s.data := by
  unfold read_class
  dsimp only
  split <;> simp

theorem read_class_failbit (k : List Byte) (c : Int) (m : VarMap) (s : Stream)
    (h : s.failbit = true) : (read_class k c m s).2.failbit = true := by
  unfold read_class
  dsimp only
  split
  · exact Stream.seekg_cur_failbit s 4 h
  · exact Stream.seekg_cur_failbit _ 8
      (Stream.read_failbit _ _ _ (Stream.seekg_cur_failbit s 4 h))

@[simp] theorem read_classes_data (ps : List (List Byte × Int)) (m : VarMap) (s : Stream) :
    (read_classes ps m s).2.data = s.data := by
  induction ps generalizing m s with
  | nil => rfl
  | cons p ps ih =>
    obtain ⟨k, c⟩ := p
    simp only [read_classes]
    split
    · rename_i m' s' he
      rw [ih, ← read_class_data k c m s, he]
    · rename_i e s' he
      rw [← read_class_data k c m s, he]

theorem read_classes_failbit (ps : List (List Byte × Int)) (m : VarMap) (s : Stream)
    (h : s.failbit = true) : (read_classes ps m s).2.failbit = true := by
  induction ps generalizing m s with
  | nil => exact h
  | cons p ps ih =>
    obtain ⟨k, c⟩ := p
    have hc := read_class_failbit k c m s h
    simp only [read_classes]
    split
    · rename_i m' s' he
      rw [he] at hc
      exact ih _ _ hc
    · rename_i e s' he
      rw [he] at hc
      exact hc

/-- The map after one iteration of the second loop: the class name is a key,
with the names that the iteration pushed. -/
theorem read_class_fst (k : List Byte) (c : Int) (m m' : VarMap) (s s' : Stream)
    (h : read_class k c m s = (.ok m', s')) : ∃ v, m' = m.assign k v := by
  unfold read_class at h
  dsimp only at h
  split at h
  · simp at h
  · simp only [Prod.mk.injEq, Except.ok.injEq] at h
    rw [VarMap.foldl_push_back] at h
    exact ⟨_, h.1.symm⟩

namespace VarMap

theorem mem_keys_assign_iff (m : VarMap) (k k' : List Byte) (v : List (List Byte)) :
    k' ∈ (m.assign k v).keys ↔ k' = k ∨ k' ∈ m.keys := by
  by_cases h : k ∈ m.keys
  · rw [keys_assign_of_mem m k v h]
    constructor
    · exact Or.inr
    · rintro (rfl | h')
      · exact h
      · exact h'
  · rw [keys_assign_of_not_mem m k v h]
    simp only [List.mem_append, List.mem_singleton]
    tauto

theorem keys_nodup_assign (m : VarMap) (k : List Byte) (v : List (List Byte))
    (hm : m.keys.Nodup) : (m.assign k v).keys.Nodup := by
  by_cases h : k ∈ m.keys
  · rw [keys_assign_of_mem m k v h]; exact hm
  · rw [keys_assign_of_not_mem m k v h]
    rw [List.nodup_append]
    refine ⟨hm, List.nodup_singleton k, ?_⟩
    intro a ha hb
    rw [List.mem_singleton] at hb
    subst hb
    exact h ha

theorem size_eq_length_keys (m : VarMap) : m.size = m.keys.length := by
  simp [size, keys]

end VarMap

/-- The keys of the map that the second loop returns: those it started with
and the class names of the loop. -/
theorem read_classes_keys (ps : List (List Byte × Int)) (m m' : VarMap) (s s' : Stream)
    (h : read_classes ps m s = (.ok m', s')) :
    (m.keys.Nodup → m'.keys.Nodup) ∧ ∀ k, k ∈ m'.keys ↔ k ∈ m.keys ∨ k ∈ ps.map Prod.fst := by
  induction ps generalizing m s with
  | nil =>
    simp only [read_classes, Prod.mk.injEq, Except.ok.injEq] at h
    obtain ⟨rfl, -⟩ := h
    simp
  | cons p ps ih =>
    obtain ⟨k, c⟩ := p
    simp only [read_classes] at h
    split at h
    · rename_i m1 s1 he
      obtain ⟨v, rfl⟩ := read_class_fst k c m m1 s s1 he
      obtain ⟨i1, i2⟩ := ih _ _ h
      refine ⟨fun hm => i1 (VarMap.keys_nodup_assign m k v hm), ?_⟩
      intro k'
      rw [i2 k', VarMap.mem_keys_assign_iff]
      simp only [List.map_cons, List.mem_cons]
      tauto
    · simp at h

theorem length_words (buf : List Byte) (n : Nat) : (words buf n).length = n := by
  simp [words]

/-- The number of keys of the catalog that `read_varnames` returns is the
number of distinct names in the class-name table at the cursor. -/
theorem read_varnames_size (junk : Nat → Byte) (s s' : Stream) (hf : s.failbit = false)
    (p : Nat) (n : Int) (m : VarMap)
    (h : read_varnames junk (s.moved p) n = (.ok m, s')) :
    0 ≤ n ∧ m.size
      = ((List.range n.toNat).map (fun i => (s.data.drop (p + 8 + 8 * i)).take 8)).dedup.length
      := by
  unfold read_varnames at h
  dsimp only at h
  split at h
  · simp at h
  rename_i hn0
  split at h
  · simp at h
  split at h
  · simp at h
  split at h
  · simp at h
  rename_i m1 s1 he
  split at h
  · simp at h
  rename_i hgood
  simp only [Prod.mk.injEq, Except.ok.injEq] at h
  obtain ⟨rfl, rfl⟩ := h
  simp only [Bool.or_eq_true, Bool.not_eq_true', not_or, Bool.not_eq_true,
    Bool.not_eq_false] at hgood
  have hf1 : s1.failbit = false := Stream.failbit_of_good hgood.2
  -- failbit was clear all the way
  have hf2 : (read_classnames n.toNat (uninit junk 8) ((s.moved p).seekg_cur 8)).2.failbit
      = false := by
    cases hc : (read_classnames n.toNat (uninit junk 8) ((s.moved p).seekg_cur 8)).2.failbit
    · rfl
    · have h3 := Stream.seekg_cur_failbit _ 8
        (Stream.read_failbit _ (zeros (4 * n.toNat)) (n * 4).toNat
          (Stream.seekg_cur_failbit _ 8 hc))
      have h4 := read_classes_failbit ((read_classnames n.toNat (uninit junk 8)
        ((s.moved p).seekg_cur 8)).1.zip (words
          (((read_classnames n.toNat (uninit junk 8) ((s.moved p).seekg_cur 8)).2.seekg_cur
            8).read (zeros (4 * n.toNat)) (n * 4).toNat).1 n.toNat)) [] _ h3
      rw [he] at h4
      rw [hf1] at h4
      exact absurd h4 (by simp)
  obtain ⟨hk1, hk2⟩ := read_classes_keys _ _ _ _ _ he
  have hnd : m1.keys.Nodup := hk1 (by simp [VarMap.keys])
  refine ⟨by omega, ?_⟩
  have hnames : (read_classnames n.toNat (uninit junk 8) ((s.moved p).seekg_cur 8)).1
      = (List.range n.toNat).map (fun i => (s.data.drop (p + 8 + 8 * i)).take 8) := by
    rcases Nat.eq_zero_or_pos n.toNat with h0 | h0
    · rw [h0]; rfl
    · obtain ⟨hg, hle⟩ := read_classnames_inv _ _ _ hf2 h0
      obtain ⟨-, e, -⟩ := Stream.seekg_cur_inv _ _ (Stream.failbit_of_good hg)
      rw [e] at hle ⊢
      simp only [Stream.moved_pos, Stream.moved_moved, Stream.moved_data] at hle ⊢
      rw [read_classnames_moved s hf _ _ _ (uninit_length junk 8) hle]
  rw [VarMap.size_eq_length_keys, ← List.toFinset_card_of_nodup hnd, ← List.card_toFinset]
  congr 1
  ext k
  rw [List.mem_toFinset, List.mem_toFinset, hk2 k, List.map_fst_zip, hnames]
  · simp [VarMap.keys]
  · rw [read_classnames_length, length_words]

theorem be32_drop_of_le (l : List Byte) (q : Nat) (h : l.length ≤ q) : be32 (l.drop q) = 0 := by
  rw [List.drop_eq_nil_of_le h]; rfl

/-- A byte of a zero-initialised buffer after a `read` of its whole size: the
byte of the stream at that offset from the cursor, zero beyond the end of the
stream. -/
theorem read_zeros_getD (s : Stream) (n i : Nat) (hg : s.good = true) (hi : i < n) :
    ((s.read (zeros n) n).1).getD i 0 = s.data.getD (s.pos + i) 0 := by
  have key : ∀ j, j ≤ n → ((s.data.drop s.pos).take n).length = j →
      (((s.data.drop s.pos).take n) ++ (zeros n).drop j).getD i 0
        = s.data.getD (s.pos + i) 0 := by
    intro j hj hlen
    simp only [List.getD_eq_getElem?_getD]
    by_cases hij : i < j
    · rw [List.getElem?_append_left (by omega), List.getElem?_take_of_lt hi,
        List.getElem?_drop]
    · rw [List.getElem?_append_right (by omega)]
      have h1 : s.data.length ≤ s.pos + i := by
        rw [List.length_take, List.length_drop] at hlen
        omega
      rw [List.getElem?_eq_none h1]
      simp only [zeros, List.drop_replicate, Option.getD_none, List.getElem?_replicate]
      split <;> rfl
  unfold Stream.read
  simp only [hg, if_true]
  split
  · rename_i hl
    exact key n (Nat.le_refl n) hl
  · exact key _ (by rw [List.length_take]; omega) rfl

theorem be32_congr (a b : List Byte) (h : ∀ i, i < 4 → a.getD i 0 = b.getD i 0) :
    be32 a = be32 b := by
  unfold be32
  rw [h 0 (by omega), h 1 (by omega), h 2 (by omega), h 3 (by omega)]

theorem getD_drop (l : List Byte) (q i : Nat) : (l.drop q).getD i 0 = l.getD (q + i) 0 := by
  simp only [List.getD_eq_getElem?_getD, List.getElem?_drop]

/-- The `k`-th word of a zero-initialised buffer of `n` words after a `read`
of its whole size. -/
theorem read_zeros_word (s : Stream) (n k : Nat) (hg : s.good = true) (hk : k < n) :
    word_at (s.read (zeros (4 * n)) (4 * n)).1 k
      = to_int32 (be32 (s.data.drop (s.pos + 4 * k))) := by
  rw [word_at_eq]
  congr 1
  apply be32_congr
  intro i hi
  rw [getD_drop, getD_drop, read_zeros_getD s (4 * n) (4 * k + i) hg (by omega),
    Nat.add_assoc]

/-- A negative count in the count table makes `read_varnames` throw
`bad_header`, whatever follows the count. -/
theorem read_varnames_negative (junk : Nat → Byte) (s : Stream) (n k : Nat)
    (hgood : s.good = true) (hn : n < 536870912) (hk : k < n)
    (hneg : 2147483648 ≤ be32 (s.data.drop (s.pos + 8 + 8 * n + 8 + 4 * k))) :
    read_varnames junk s n
      = (.error (.bad_header "Negative value, corrupted file"),
          ((s.moved (s.pos + 8 + 8 * n + 8)).read (zeros (4 * n)) (4 * n)).2) := by
  have hq : s.pos + 8 + 8 * n + 8 + 4 * k < s.data.length := by
    by_contra hc
    rw [be32_drop_of_le _ _ (by omega)] at hneg
    omega
  have hf := Stream.failbit_of_good hgood
  have e0 : ¬ ((n : Int) < 0) := by omega
  have e1 : ((n : Int)).toNat = n := by omega
  have e2 : ¬ (2147483648 : Int) ≤ (n : Int) * 4 := by omega
  have e3 : ((n : Int) * 4).toNat = 4 * n := by omega
  have s1 : s.seekg_cur 8 = s.moved (s.pos + 8) := by
    have := Stream.seekg_cur_moved s s.pos 8 hf (by omega)
    rwa [Stream.moved_self s hgood] at this
  have s2 := read_classnames_moved s hf n (s.pos + 8) (uninit junk 8) (uninit_length junk 8)
    (by omega)
  have s3 := Stream.seekg_cur_moved s (s.pos + 8 + 8 * n) 8 hf (by omega)
  have hw := read_zeros_word (s.moved (s.pos + 8 + 8 * n + 8)) n k
    (Stream.moved_good _ _ hf) hk
  simp only [Stream.moved_data, Stream.moved_pos] at hw
  have hany : (words ((s.moved (s.pos + 8 + 8 * n + 8)).read (zeros (4 * n)) (4 * n)).1
      n).any negative = true := by
    rw [any_negative_words]
    refine ⟨k, hk, ?_⟩
    rw [hw, to_int32_neg_iff (be32_lt _)]
    exact hneg
  unfold read_varnames
  simp only [e0, if_false, s1, e1, s2, s3, e2, e3, hany, if_true]

/-! ## The catalog of classes with distinct names -/

theorem foldl_assign_append (cs : List ClassLayout) :
    ∀ m : VarMap, (∀ c ∈ cs, c.name ∉ m.keys) → (cs.map (·.name)).Nodup →
      cs.foldl (fun m c => m.assign c.name c.vars) m
        = m ++ cs.map (fun c => (c.name, c.vars)) := by
  induction cs with
  | nil => intro m _ _; simp
  | cons c cs ih =>
    intro m hm hnd
    rw [List.map_cons, List.nodup_cons] at hnd
    rw [List.foldl_cons, VarMap.assign_of_not_mem m _ _ (hm c (List.mem_cons_self _ _)),
      ih _ _ hnd.2]
    · simp
    · intro c' hc'
      simp only [VarMap.keys, List.map_append, List.map_cons, List.map_nil, List.mem_append,
        List.mem_singleton, not_or]
      refine ⟨hm c' (List.mem_cons_of_mem _ hc'), ?_⟩
      intro e
      apply hnd.1
      rw [← e]
      exact List.mem_map_of_mem _ hc'

theorem catalog_of_nodup (cs : List ClassLayout) (h : (cs.map (·.name)).Nodup) :
    catalog_of cs = cs.map (fun c => (c.name, c.vars)) := by
  unfold catalog_of
  rw [foldl_assign_append cs [] (by simp [VarMap.keys]) h, List.nil_append]

theorem get_map_of_nodup (cs : List ClassLayout) (h : (cs.map (·.name)).Nodup)
    (c : ClassLayout) (hc : c ∈ cs) :
    VarMap.get (cs.map (fun c => (c.name, c.vars))) c.name = c.vars := by
  induction cs with
  | nil => simp at hc
  | cons c0 cs ih =>
    rw [List.map_cons, List.nodup_cons] at h
    rw [List.map_cons]
    simp only [VarMap.get]
    rcases List.mem_cons.mp hc with rfl | hc'
    · simp
    · have hne : c0.name ≠ c.name := by
        intro e
        apply h.1
        rw [e]
        exact List.mem_map_of_mem _ hc'
      rw [if_neg hne]
      exact ih h.2 hc'

/-- On a stream that holds a header whose eight counters are non-negative,
`read_header` returns them, in the order of the stream. -/
theorem read_header_counters {U : Type} (mk_unit : List Byte → Option U) (junk : Nat → Byte)
    (s : Stream) (u : U)
    (hfail : s.failbit = false) (hlen : 872 ≤ s.data.length)
    (hsig : (s.data.drop 4).take 12 = th0)
    (hunit : mk_unit ((s.data.drop 40).take 6) = some u)
    (hcounters : ∀ k, k < 8 → 0 ≤ to_int32 (be32 (s.data.drop (840 + 4 * k)))) :
    read_header mk_unit junk s =
      (.ok { unit_system := u,
             num_classes := to_int32 (be32 (s.data.drop 840)),
             counter1 := to_int32 (be32 (s.data.drop 844)),
             counter2 := to_int32 (be32 (s.data.drop 848)),
             counter3 := to_int32 (be32 (s.data.drop 852)),
             counter4 := to_int32 (be32 (s.data.drop 856)),
             counter5 := to_int32 (be32 (s.data.drop 860)),
             counter6 := to_int32 (be32 (s.data.drop 864)),
             counter7 := to_int32 (be32 (s.data.drop 868)) },
       s.moved 872) := by
  rw [read_header_complete mk_unit junk s u hfail hlen hsig hunit]
  have hany : (words ((s.data.drop 840).take 32) 8).any negative = false := by
    rw [any_negative_words_false]
    intro k hk
    rw [header_word _ k hk]
    exact hcounters k hk
  rw [hany]
  simp only [Bool.false_eq_true, if_false]
  rw [header_word _ 0 (by omega), header_word _ 1 (by omega), header_word _ 2 (by omega),
    header_word _ 3 (by omega), header_word _ 4 (by omega), header_word _ 5 (by omega),
    header_word _ 6 (by omega), header_word _ 7 (by omega)]

/-! ## The claims on `read_header` and `read_varnames` -/

/-- C4: on a stream of at least 872 bytes that holds the signature
`"PLOT  BIN   "` at offsets 4 to 15, a unit-system code at offsets 40 to 45
that the constructor of `UnitSystem` accepts, and eight big-endian words at
offsets 840 to 871 that are non-negative as `int32_t`, `read_header` returns
the header with that unit system and exactly those eight integers, in the
order of the stream, the first being `num_classes`. -/
theorem read_header_ok {U : Type} (mk_unit : List Byte → Option U) (junk : Nat → Byte)
    (s : Stream) (u : U)
    (hfail : s.failbit = false) (hlen : 872 ≤ s.data.length)
    (hsig : (s.data.drop 4).take 12 = th0)
    (hunit : mk_unit ((s.data.drop 40).take 6) = some u)
    (hcounters : ∀ k, k < 8 → 0 ≤ to_int32 (be32 (s.data.drop (840 + 4 * k)))) :
    read_header mk_unit junk s =
      (.ok { unit_system := u,
             num_classes := to_int32 (be32 (s.data.drop 840)),
             counter1 := to_int32 (be32 (s.data.drop 844)),
             counter2 := to_int32 (be32 (s.data.drop 848)),
             counter3 := to_int32 (be32 (s.data.drop 852)),
             counter4 := to_int32 (be32 (s.data.drop 856)),
             counter5 := to_int32 (be32 (s.data.drop 860)),
             counter6 := to_int32 (be32 (s.data.drop 864)),
             counter7 := to_int32 (be32 (s.data.drop 868)) },
       s.moved 872) :=
  read_header_counters mk_unit junk s u hfail hlen hsig hunit hcounters

/-- Witness of C4: the example header with `num_classes = 1`. -/
theorem read_header_ok_witness :
    read_header metric_only zero_junk (Stream.fresh (example_header 1) true)
      = (.ok { unit_system := [77, 69, 84, 82, 73, 67], num_classes := 1, counter1 := 0,
               counter2 := 0, counter3 := 0, counter4 := 0, counter5 := 0, counter6 := 0,
               counter7 := 0 },
         (Stream.fresh (example_header 1) true).moved 872) :=
  (read_header_ok metric_only zero_junk (Stream.fresh (example_header 1) true)
    [77, 69, 84, 82, 73, 67] (by decide) (by decide) (by decide) (by decide)
    (by decide)).trans (by decide)

/-- C6: on a stream of at least 872 bytes with the signature and an accepted
unit-system code, a header counter that is negative as `int32_t` makes
`read_header` throw `bad_header`; and every header that `read_header` returns
has its eight counters non-negative. -/
theorem read_header_negative {U : Type} (mk_unit : List Byte → Option U) (junk : Nat → Byte)
    (s : Stream) (u : U) (k : Nat)
    (hfail : s.failbit = false) (hlen : 872 ≤ s.data.length)
    (hsig : (s.data.drop 4).take 12 = th0)
    (hunit : mk_unit ((s.data.drop 40).take 6) = some u)
    (hk : k < 8) (hneg : to_int32 (be32 (s.data.drop (840 + 4 * k))) < 0) :
    (read_header mk_unit junk s).1 = .error (.bad_header "Negative value, corrupted file")
      ∧ ∀ (s0 s1 : Stream) (h : NexusHeader U), read_header mk_unit junk s0 = (.ok h, s1) →
          0 ≤ h.num_classes ∧ 0 ≤ h.counter1 ∧ 0 ≤ h.counter2 ∧ 0 ≤ h.counter3
            ∧ 0 ≤ h.counter4 ∧ 0 ≤ h.counter5 ∧ 0 ≤ h.counter6 ∧ 0 ≤ h.counter7 := by
  refine ⟨?_, fun s0 s1 h hr => read_header_nonneg mk_unit junk s0 s1 h hr⟩
  rw [read_header_complete mk_unit junk s u hfail hlen hsig hunit]
  have hany : (words ((s.data.drop 840).take 32) 8).any negative = true := by
    rw [any_negative_words]
    exact ⟨k, hk, by rw [header_word _ k hk]; exact hneg⟩
  rw [hany]
  rfl

/-- Witness of C6: the example header with its last counter set to
`0x80000000`. -/
theorem read_header_negative_witness :
    (read_header metric_only zero_junk
        (Stream.fresh ((example_header 1).take 868 ++ [128, 0, 0, 0]) false)).1
      = .error (.bad_header "Negative value, corrupted file") :=
  (read_header_negative metric_only zero_junk
    (Stream.fresh ((example_header 1).take 868 ++ [128, 0, 0, 0]) false)
    [77, 69, 84, 82, 73, 67] 7 (by decide) (by decide) (by decide) (by decide) (by decide)
    (by decide)).1

/-- C7: on a stream that holds, from the cursor on, a complete catalog
section for `cs.length` classes with pairwise distinct names,
`read_varnames` returns the catalog that maps the name of each class to
exactly its variable names, in the order of the stream; for no class the
catalog is empty. Stated for fewer than `2^29` classes and fewer than `2^29`
variables in a class, so that the `int` products `num_classes * 4` and
`vars_in_class[i] * 4` do not overflow. -/
theorem read_varnames_catalog (junk : Nat → Byte) (s : Stream)
    (skip1 skip2 skip3 rest : List Byte) (cs : List ClassLayout)
    (hgood : s.good = true)
    (hdata : s.data.drop s.pos = catalog_section skip1 skip2 skip3 cs ++ rest)
    (h1 : skip1.length = 8) (h2 : skip2.length = 8) (h3 : skip3.length = 8)
    (hcs : ∀ c ∈ cs, c.complete) (hdistinct : (cs.map (·.name)).Nodup)
    (hn : cs.length < 536870912) (hv : ∀ c ∈ cs, c.vars.length < 536870912) :
    read_varnames junk s (cs.length : Int)
        = (.ok (cs.map (fun c => (c.name, c.vars))),
            s.moved (s.pos + (catalog_section skip1 skip2 skip3 cs).length))
      ∧ (∀ c ∈ cs, VarMap.get (cs.map (fun c => (c.name, c.vars))) c.name = c.vars)
      ∧ (cs.length = 0 → (read_varnames junk s (cs.length : Int)).1 = .ok []) := by
  have hpos : s.pos ≤ s.data.length := by
    by_contra hc
    have : s.data.drop s.pos = [] := List.drop_eq_nil_of_le (by omega)
    rw [this] at hdata
    have hl := congrArg List.length hdata
    simp only [List.length_nil, List.length_append, catalog_section_length, h1] at hl
    omega
  have hh : s.Holds s.pos (catalog_section skip1 skip2 skip3 cs ++ rest) :=
    ⟨Stream.failbit_of_good hgood, hpos, hdata⟩
  have hr := read_varnames_holds junk s s.pos skip1 skip2 skip3 rest cs hh h1 h2 h3 hcs hn hv
  rw [Stream.moved_self s hgood, catalog_of_nodup cs hdistinct] at hr
  refine ⟨hr, fun c hc => get_map_of_nodup cs hdistinct c hc, ?_⟩
  intro h0
  rw [hr, List.length_eq_zero.mp h0]
  rfl

/-- Witness of C7: the catalog section with the one class `WELL` and its
variables `WOPR` and `WWPR`. -/
theorem read_varnames_catalog_witness :
    read_varnames zero_junk (Stream.fresh example_catalog true) 1
      = (.ok [([87, 69, 76, 76, 32, 32, 32, 32], [[87, 79, 80, 82], [87, 87, 80, 82]])],
          (Stream.fresh example_catalog true).moved 56) :=
  (read_varnames_catalog zero_junk (Stream.fresh example_catalog true)
    (zeros 8) (zeros 8) (zeros 8) [] [example_class] (by decide) (by decide) (by decide)
    (by decide) (by decide) (by decide) (by decide) (by decide) (by decide)).1

/-- Counterexample to C8: the header says two classes, both entries of the
class-name table are `WELL`, `read_header` and `read_varnames` succeed, and
the catalog has one key. -/
theorem catalog_size_counterexample :
    ¬ ∀ (s s1 s2 : Stream) (h : NexusHeader (List Byte)) (m : VarMap),
        read_header metric_only zero_junk s = (.ok h, s1) →
        read_varnames zero_junk s1 h.num_classes = (.ok m, s2) →
        (m.size : Int) = h.num_classes := by
  intro hall
  have h := hall (Stream.fresh repeated_class_stream true)
    ((Stream.fresh repeated_class_stream true).moved 872)
    ((Stream.fresh repeated_class_stream true).moved 944)
    { unit_system := [77, 69, 84, 82, 73, 67], num_classes := 2, counter1 := 0,
      counter2 := 0, counter3 := 0, counter4 := 0, counter5 := 0, counter6 := 0,
      counter7 := 0 }
    [([87, 69, 76, 76, 32, 32, 32, 32], [])] (by decide) (by decide)
  exact absurd h (by decide)

/-- C8, amended: when `read_header` and `read_varnames` both succeed,
`num_classes` is not negative and the number of keys of the catalog is the
number of distinct names in the class-name table (the 8 bytes at offset
`880 + 8 * i` for `i < num_classes`); it is at most `num_classes`, and it is
`num_classes` when the names of the table are pairwise distinct. -/
theorem catalog_size {U : Type} (mk_unit : List Byte → Option U) (junk : Nat → Byte)
    (s s1 s2 : Stream) (h : NexusHeader U) (m : VarMap)
    (hh : read_header mk_unit junk s = (.ok h, s1))
    (hv : read_varnames junk s1 h.num_classes = (.ok m, s2)) :
    0 ≤ h.num_classes
      ∧ m.size = (class_table s.data h.num_classes.toNat).dedup.length
      ∧ (m.size : Int) ≤ h.num_classes
      ∧ ((class_table s.data h.num_classes.toNat).Nodup → (m.size : Int) = h.num_classes) := by
  obtain ⟨rfl, hf, -⟩ := read_header_snd mk_unit junk s s1 h hh
  obtain ⟨h0, hsz⟩ := read_varnames_size junk s s2 hf 872 h.num_classes m hv
  have hlen : (class_table s.data h.num_classes.toNat).length = h.num_classes.toNat := by
    simp [class_table]
  have hsz' : m.size = (class_table s.data h.num_classes.toNat).dedup.length := hsz
  refine ⟨h0, hsz', ?_, ?_⟩
  · have := List.Sublist.length_le (List.dedup_sublist (class_table s.data h.num_classes.toNat))
    rw [hsz']
    omega
  · intro hnd
    rw [hsz', List.Nodup.dedup hnd, hlen]
    omega

/-- Witness of C8, amended: the stream with the name `WELL` twice. -/
theorem catalog_size_witness :
    (VarMap.size [([87, 69, 76, 76, 32, 32, 32, 32], [])] : Int) ≤ 2 :=
  (catalog_size metric_only zero_junk (Stream.fresh repeated_class_stream true)
    ((Stream.fresh repeated_class_stream true).moved 872)
    ((Stream.fresh repeated_class_stream true).moved 944)
    { unit_system := [77, 69, 84, 82, 73, 67], num_classes := 2, counter1 := 0,
      counter2 := 0, counter3 := 0, counter4 := 0, counter5 := 0, counter6 := 0,
      counter7 := 0 }
    [([87, 69, 76, 76, 32, 32, 32, 32], [])] (by decide) (by decide)).2.2.1

/-- C9: when one of the `n` counts of the count table is negative as
`int32_t`, `read_varnames` throws `bad_header`, not `unexpected_eof`, also
on a stream that ends right after the count, where the variable names that
would follow are missing. Stated for `n < 2^29`, so that the `int` product
`num_classes * 4` does not overflow. -/
theorem read_varnames_negative_count (junk : Nat → Byte) (s : Stream) (n k : Nat)
    (hgood : s.good = true) (hn : n < 536870912) (hk : k < n)
    (hneg : to_int32 (be32 (s.data.drop (s.pos + 8 + 8 * n + 8 + 4 * k))) < 0) :
    (read_varnames junk s (n : Int)).1
      = .error (.bad_header "Negative value, corrupted file") := by
  rw [to_int32_neg_iff (be32_lt _)] at hneg
  rw [read_varnames_negative junk s n k hgood hn hk hneg]

/-- Witness of C9: one class, the count `0xFFFFFFFF`, and nothing after
it. -/
theorem read_varnames_negative_count_witness :
    (read_varnames zero_junk (Stream.fresh negative_count_stream false) 1).1
      = .error (.bad_header "Negative value, corrupted file") :=
  read_varnames_negative_count zero_junk (Stream.fresh negative_count_stream false) 1 0
    (by decide) (by decide) (by decide) (by decide)

/-! ## The cursor never moves back, and the loop of `load` ends -/

namespace Stream

theorem read_pos_le (s : Stream) (b : List Byte) (n : Nat) : s.pos ≤ (s.read b n).2.pos := by
  unfold read
  dsimp only
  split <;> [split; skip] <;> simp

theorem seekg_cur_pos_le (s : Stream) (n : Nat) : s.pos ≤ (s.seekg_cur n).pos := by
  unfold seekg_cur seekg_to
  split <;> [skip; split] <;> simp

end Stream

@[simp] theorem read_vars_data (s : Stream) (d : List NexusData) (ts : Int) (t : F32)
    (mp : Int) (c i : List Byte) (v : List (List Byte)) :
    (read_vars s d ts t mp c i v).2.data = s.data := by
  simp [read_vars]

theorem read_vars_pos_le (s : Stream) (d : List NexusData) (ts : Int) (t : F32)
    (mp : Int) (c i : List Byte) (v : List (List Byte)) :
    s.pos ≤ (read_vars s d ts t mp c i v).2.pos := by
  simp only [read_vars]
  exact Stream.read_pos_le _ _ _

theorem read_vars_failbit (s : Stream) (d : List NexusData) (ts : Int) (t : F32)
    (mp : Int) (c i : List Byte) (v : List (List Byte)) (h : s.failbit = true) :
    (read_vars s d ts t mp c i v).2.failbit = true := by
  simp only [read_vars]
  exact Stream.read_failbit _ _ _ h

@[simp] theorem read_items_data (junk : Nat → Byte) (ts : Int) (t : F32) (mp : Int)
    (c : List Byte) (n : Nat) (m : VarMap) (d : List NexusData) (s : Stream) :
    (read_items junk ts t mp c n m d s).2.2.data = s.data := by
  induction n generalizing m d s with
  | zero => rfl
  | succ n ih => simp only [read_items, ih, read_vars_data, Stream.seekg_cur_data,
      Stream.read_data]

theorem read_items_pos_le (junk : Nat → Byte) (ts : Int) (t : F32) (mp : Int)
    (c : List Byte) (n : Nat) (m : VarMap) (d : List NexusData) (s : Stream) :
    s.pos ≤ (read_items junk ts t mp c n m d s).2.2.pos := by
  induction n generalizing m d s with
  | zero => exact Nat.le_refl _
  | succ n ih =>
    simp only [read_items]
    refine Nat.le_trans ?_ (ih _ _ _)
    refine Nat.le_trans ?_ (read_vars_pos_le _ _ _ _ _ _ _ _)
    refine Nat.le_trans ?_ (Stream.seekg_cur_pos_le _ _)
    refine Nat.le_trans ?_ (Stream.read_pos_le _ _ _)
    exact Stream.seekg_cur_pos_le _ _

theorem read_items_failbit (junk : Nat → Byte) (ts : Int) (t : F32) (mp : Int)
    (c : List Byte) (n : Nat) (m : VarMap) (d : List NexusData) (s : Stream)
    (h : s.failbit = true) : (read_items junk ts t mp c n m d s).2.2.failbit = true := by
  induction n generalizing m d s with
  | zero => exact h
  | succ n ih =>
    simp only [read_items]
    apply ih
    apply read_vars_failbit
    apply Stream.seekg_cur_failbit
    apply Stream.read_failbit
    exact Stream.seekg_cur_failbit _ _ h

/-- The lookups in the variable map are the same after the entities of a
block have been read. -/
theorem read_items_get (junk : Nat → Byte) (ts : Int) (t : F32) (mp : Int)
    (c : List Byte) (n : Nat) (m : VarMap) (d : List NexusData) (s : Stream) (k : List Byte) :
    (read_items junk ts t mp c n m d s).1.get k = m.get k := by
  induction n generalizing m d s with
  | zero => rfl
  | succ n ih =>
    simp only [read_items]
    rw [ih, VarMap.get_touch]

@[simp] theorem read_block_data (junk : Nat → Byte) (c : List Byte) (m : VarMap)
    (d : List NexusData) (s : Stream) : (read_block junk c m d s).2.data = s.data := by
  unfold read_block
  dsimp only
  split
  · simp
  · split <;> simp

/-- The errors of `read_block`. -/
theorem read_block_error (junk : Nat → Byte) (c : List Byte) (m : VarMap)
    (d : List NexusData) (s s' : Stream) (e : Error)
    (h : read_block junk c m d s = (.error e, s')) :
    e = .unexpected_eof "" ∨ e = .undefined := by
  unfold read_block at h
  dsimp only at h
  split at h
  · simp only [Prod.mk.injEq, Except.error.injEq] at h
    exact Or.inl h.1.symm
  · split at h
    · simp at h
    · simp only [Prod.mk.injEq, Except.error.injEq] at h
      exact Or.inr h.1.symm

/-- A block that is decoded moves the cursor forward, within the stream. -/
theorem read_block_ok_pos (junk : Nat → Byte) (c : List Byte) (m m' : VarMap)
    (d d' : List NexusData) (s s' : Stream)
    (h : read_block junk c m d s = (.ok (m', d'), s')) :
    s.pos + 20 ≤ s'.pos ∧ s.pos + 20 ≤ s.data.length := by
  unfold read_block at h
  dsimp only at h
  split at h
  · simp at h
  · rename_i hg
    simp only [Bool.not_eq_true, Bool.not_eq_false, Bool.not_eq_true'] at hg
    obtain ⟨hg0, hle⟩ := Stream.read_good_inv _ _ _ hg
    have hp0 := Stream.seekg_cur_pos_le s 8
    have hle' := hle
    simp only [Stream.seekg_cur_data] at hle' 
    split at h
    · simp only [Prod.mk.injEq, Except.ok.injEq] at h
      have h3 : ((s.seekg_cur 8).read (zeros 20) 20).2.pos = (s.seekg_cur 8).pos + 20 := by
        rw [Stream.read_ok _ _ _ hg0 hle]
      refine ⟨?_, by omega⟩
      rw [← h.2]
      refine Nat.le_trans ?_ (Stream.seekg_cur_pos_le _ _)
      refine Nat.le_trans ?_ (read_items_pos_le _ _ _ _ _ _ _ _ _)
      omega
    · simp at h

/-- More fuel does not change a result of the loop. -/
theorem load_loop_succ (junk : Nat → Byte) (fuel : Nat) (m : VarMap) (d : List NexusData)
    (s : Stream) (r : Except Error (List NexusData) × VarMap × Stream)
    (h : load_loop junk fuel m d s = some r) : load_loop junk (fuel + 1) m d s = some r := by
  induction fuel generalizing m d s with
  | zero => simp [load_loop] at h
  | succ fuel ih =>
    rw [load_loop] at h ⊢
    dsimp only at h ⊢
    split
    · rename_i hs; rw [if_pos hs] at h; exact h
    · rename_i hs
      rw [if_neg hs] at h
      split
      · rename_i e s' he; rw [he] at h; exact h
      · rename_i m' d' s' he
        rw [he] at h
        exact ih _ _ _ h

theorem load_loop_le (junk : Nat → Byte) (fuel fuel' : Nat) (hle : fuel ≤ fuel') (m : VarMap)
    (d : List NexusData) (s : Stream) (r : Except Error (List NexusData) × VarMap × Stream)
    (h : load_loop junk fuel m d s = some r) : load_loop junk fuel' m d s = some r := by
  induction hle with
  | refl => exact h
  | step _ ih => exact load_loop_succ junk _ m d s r ih

/-- The loop of `load` ends: one iteration more than the bytes left of the
cursor is enough fuel. -/
theorem load_loop_fuel (junk : Nat → Byte) (fuel : Nat) (m : VarMap) (d : List NexusData)
    (s : Stream) (h : s.data.length - s.pos < fuel) :
    ∃ r, load_loop junk fuel m d s = some r := by
  induction fuel generalizing m d s with
  | zero => omega
  | succ fuel ih =>
    rw [load_loop]
    dsimp only
    split
    · exact ⟨_, rfl⟩
    · split
      · exact ⟨_, rfl⟩
      · rename_i m' d' s' he
        apply ih
        have hp := read_block_ok_pos junk _ m m' d d' _ s' he
        have hd : s'.data = s.data := by
          have := read_block_data junk (read_str junk 8 s).1 m d (read_str junk 8 s).2
          rw [he] at this
          simpa [read_str] using this
        have h0 : s.pos ≤ (read_str junk 8 s).2.pos := Stream.read_pos_le _ _ _
        have h1 : (read_str junk 8 s).2.data = s.data := Stream.read_data _ _ _
        rw [h1] at hp
        rw [hd]
        omega

/-! ## The errors of `read_varnames` and of the loop of `load` -/

theorem read_class_error (k : List Byte) (c : Int) (m : VarMap) (s s' : Stream) (e : Error)
    (h : read_class k c m s = (.error e, s')) : e = .undefined := by
  unfold read_class at h
  dsimp only at h
  split at h
  · simp only [Prod.mk.injEq, Except.error.injEq] at h
    exact h.1.symm
  · simp at h

theorem read_classes_error (ps : List (List Byte × Int)) (m : VarMap) (s s' : Stream)
    (e : Error) (h : read_classes ps m s = (.error e, s')) : e = .undefined := by
  induction ps generalizing m s with
  | nil => simp [read_classes] at h
  | cons p ps ih =>
    obtain ⟨k, c⟩ := p
    simp only [read_classes] at h
    split at h
    · exact ih _ _ h
    · rename_i e' s'' he
      simp only [Prod.mk.injEq, Except.error.injEq] at h
      rw [← h.1]
      exact read_class_error k c m s s'' e' he

/-- The errors of `read_varnames`. -/
theorem read_varnames_error (junk : Nat → Byte) (s s' : Stream) (n : Int) (e : Error)
    (h : read_varnames junk s n = (.error e, s')) :
    e = .length_error ∨ e = .undefined
      ∨ e = .bad_header "Negative value, corrupted file" ∨ e = .unexpected_eof "" := by
  unfold read_varnames at h
  dsimp only at h
  split at h
  · simp only [Prod.mk.injEq, Except.error.injEq] at h
    exact Or.inl h.1.symm
  split at h
  · simp only [Prod.mk.injEq, Except.error.injEq] at h
    exact Or.inr (Or.inl h.1.symm)
  split at h
  · simp only [Prod.mk.injEq, Except.error.injEq] at h
    exact Or.inr (Or.inr (Or.inl h.1.symm))
  split at h
  · rename_i e' s'' he
    simp only [Prod.mk.injEq, Except.error.injEq] at h
    rw [← h.1]
    exact Or.inr (Or.inl (read_classes_error _ _ _ _ _ he))
  split at h
  · simp only [Prod.mk.injEq, Except.error.injEq] at h
    exact Or.inr (Or.inr (Or.inr h.1.symm))
  · simp at h

/-- The errors of the loop of `load`. -/
theorem load_loop_error (junk : Nat → Byte) (fuel : Nat) (m m' : VarMap)
    (d : List NexusData) (s s' : Stream) (e : Error)
    (h : load_loop junk fuel m d s = some (.error e, m', s')) :
    e = .unexpected_eof "" ∨ e = .undefined := by
  induction fuel generalizing m d s with
  | zero => simp [load_loop] at h
  | succ fuel ih =>
    rw [load_loop] at h
    dsimp only at h
    split at h
    · simp at h
    · split at h
      · rename_i e' s'' he
        simp only [Option.some.injEq, Prod.mk.injEq, Except.error.injEq] at h
        rw [← h.1]
        exact read_block_error _ _ _ _ _ _ _ he
      · exact ih _ _ _ h

/-! ## `load` -/

theorem load_body_header_error {U : Type} (mk_unit : List Byte → Option U) (junk : Nat → Byte)
    (s : Stream) (e : Error) (h : (read_header mk_unit junk s).1 = .error e) :
    load_body mk_unit junk s = (.error e, (read_header mk_unit junk s).2) := by
  unfold load_body
  rcases hr : read_header mk_unit junk s with ⟨r, st⟩
  rw [hr] at h
  simp only at h
  subst h
  rfl

/-- The loop in `load_body` never runs out of fuel. -/
theorem load_body_loop (junk : Nat → Byte) (m : VarMap) (s : Stream) :
    ∃ r, load_loop junk (s.data.length + 1) m [] s = some r :=
  load_loop_fuel junk _ m [] s (by omega)

/-- The errors of `load_body` after the header has been read. -/
theorem load_body_error {U : Type} (mk_unit : List Byte → Option U) (junk : Nat → Byte)
    (s s' : Stream) (e : Error) (h : load_body mk_unit junk s = (.error e, s')) :
    (read_header mk_unit junk s).1 = .error e ∨ e = .length_error ∨ e = .undefined
      ∨ e = .bad_header "Negative value, corrupted file" ∨ e = .unexpected_eof "" := by
  unfold load_body at h
  split at h
  · rename_i e' s1 he
    simp only [Prod.mk.injEq, Except.error.injEq] at h
    rw [he, ← h.1]
    exact Or.inl rfl
  · split at h
    · rename_i e' s2 he
      simp only [Prod.mk.injEq, Except.error.injEq] at h
      rw [← h.1]
      exact Or.inr (read_varnames_error _ _ _ _ _ he)
    · split at h
      · simp at h
      · rename_i e' m' s3 he
        simp only [Prod.mk.injEq, Except.error.injEq] at h
        rw [← h.1]
        rcases load_loop_error _ _ _ _ _ _ _ _ he with h1 | h1
        · exact Or.inr (Or.inr (Or.inr (Or.inr h1)))
        · exact Or.inr (Or.inr (Or.inl h1))
      · simp only [Prod.mk.injEq, Except.error.injEq] at h
        exact Or.inr (Or.inr (Or.inl h.1.symm))

/-- With the default exception mask, `load` returns or throws what its body
does. -/
theorem load_fst_of_mask {U : Type} (mk_unit : List Byte → Option U) (junk : Nat → Byte)
    (s : Stream) (hmask : s.exceptions = (false, false)) :
    (load mk_unit junk s).1 = (load_body mk_unit junk s).1 := by
  have hs : (s.set_exceptions (false, false)).2 = s := by
    cases s
    simp only [Stream.set_exceptions] at hmask ⊢
    simp only [Stream.mk.injEq, true_and]
    exact hmask.symm
  unfold load
  simp only [hs, hmask]
  simp only [Stream.set_exceptions, Bool.and_false, Bool.or_self, Bool.false_eq_true, if_false]

/-- When the body of `load` leaves the stream good, the destructor of
`stream_guard` does not throw and `load` returns or throws what its body
does. -/
theorem load_fst_of_good {U : Type} (mk_unit : List Byte → Option U) (junk : Nat → Byte)
    (s t : Stream) (r : Except Error (NexusPlot U))
    (h : load_body mk_unit junk (s.set_exceptions (false, false)).2 = (r, t))
    (hg : t.good = true) : (load mk_unit junk s).1 = r := by
  obtain ⟨he, hf⟩ := (Stream.good_iff t).mp hg
  unfold load
  dsimp only
  rw [h]
  simp only [Stream.set_exceptions, he, hf, Bool.false_and, Bool.or_self, Bool.false_eq_true,
    if_false]

/-- Whatever the exception mask, `load` returns what its body returns on the
stream with the mask cleared, unless the destructor of `stream_guard`
throws. -/
theorem load_fst {U : Type} (mk_unit : List Byte → Option U) (junk : Nat → Byte)
    (s : Stream) :
    (load mk_unit junk s).1 = .error .terminate
      ∨ (load mk_unit junk s).1 = (load_body mk_unit junk (s.set_exceptions (false, false)).2).1
      := by
  unfold load
  dsimp only
  split
  · exact Or.inl rfl
  · exact Or.inr rfl

/-- What `read_vars` appends when it finds the stream good: one record for
each variable name, whose value has the bits of the big-endian word at the
matching offset of the stream (zero bytes beyond its end). -/
theorem read_vars_good (s : Stream) (data : List NexusData) (timestep : Int) (time : F32)
    (max_perfs : Int) (classname instancename : List Byte) (varnames : List (List Byte))
    (hgood : s.good = true) :
    (read_vars s data timestep time max_perfs classname instancename varnames).1
      = data ++ (List.range varnames.length).map (fun k =>
          { timestep := timestep, time := time, max_perfs := max_perfs,
            classname := classname, instancename := instancename,
            varname := varnames.getD k [],
            value := ⟨be32 (s.data.drop (s.pos + 4 * k))⟩ }) := by
  simp only [read_vars]
  congr 1
  apply List.map_congr_left
  intro k hk
  rw [List.mem_range] at hk
  have hw := read_zeros_word s varnames.length k hgood hk
  rw [Nat.mul_comm 4 varnames.length] at hw
  rw [hw]
  simp only [interpret_float, to_uint32_to_int32 (be32_lt _)]

/-- C10: the value of the record that `read_vars` emits for slot `k` of the
values array is the float whose bit pattern is the big-endian word stored in
that slot, and `interpret_float` keeps all 32 bits of a word. -/
theorem read_vars_bit_exact (s : Stream) (data : List NexusData) (timestep : Int)
    (time : F32) (max_perfs : Int) (classname instancename : List Byte)
    (varnames : List (List Byte)) (hgood : s.good = true) :
    (read_vars s data timestep time max_perfs classname instancename varnames).1
        = data ++ (List.range varnames.length).map (fun k =>
            { timestep := timestep, time := time, max_perfs := max_perfs,
              classname := classname, instancename := instancename,
              varname := varnames.getD k [],
              value := ⟨be32 (s.data.drop (s.pos + 4 * k))⟩ })
      ∧ ∀ b, b < 4294967296 → (interpret_float (to_int32 b)).bits = b :=
  ⟨read_vars_good s data timestep time max_perfs classname instancename varnames hgood,
    fun _ hb => to_uint32_to_int32 hb⟩

/-- Witness of C10: the bytes `3F C0 00 00` give the float with the bits
`0x3FC00000`, which is 1.5 and not 1069547520. -/
theorem read_vars_bit_exact_witness :
    (read_vars (Stream.fresh [63, 192, 0, 0] true) [] 3 ⟨0⟩ 0 [] [] [[87, 79, 80, 82]]).1
        = [{ timestep := 3, time := ⟨0⟩, max_perfs := 0, classname := [], instancename := [],
             varname := [87, 79, 80, 82], value := ⟨1069547520⟩ }]
      ∧ (F32.mk 1069547520).toRat = 3 / 2 := by
  refine ⟨?_, ?_⟩
  · rw [(read_vars_bit_exact (Stream.fresh [63, 192, 0, 0] true) [] 3 ⟨0⟩ 0 [] []
      [[87, 79, 80, 82]] (by decide)).1]
    decide
  · norm_num [F32.toRat, F32.sign, F32.significand, F32.exponent, F32.fraction, F32.scale]

/-- When the loop of `load` returns records, the cursor is not before the
place where the loop found it. -/
theorem load_loop_ok_pos (junk : Nat → Byte) (fuel : Nat) (m m' : VarMap)
    (d d' : List NexusData) (s s' : Stream)
    (h : load_loop junk fuel m d s = some (.ok d', m', s')) : s.pos ≤ s'.pos := by
  induction fuel generalizing m d s with
  | zero => simp [load_loop] at h
  | succ fuel ih =>
    rw [load_loop] at h
    dsimp only at h
    have h0 : s.pos ≤ (read_str junk 8 s).2.pos := Stream.read_pos_le _ _ _
    split at h
    · simp only [Option.some.injEq, Prod.mk.injEq] at h
      rw [← h.2.2]
      exact h0
    · split at h
      · simp at h
      · rename_i m1 d1 s1 he
        have h1 := (read_block_ok_pos _ _ _ _ _ _ _ _ he).1
        have h2 := ih _ _ _ h
        omega

/-- C3: in the loop of `load`, on a good stream with at least 8 bytes left,
decoding ends at this class name with the records accumulated so far exactly
when its 8 bytes are `"STOP    "`; with any other 8 bytes the loop goes on
and decodes the bytes that follow as a data block. -/
theorem sentinel_exact (junk : Nat → Byte) (fuel : Nat) (varnames : VarMap)
    (data : List NexusData) (s : Stream)
    (hgood : s.good = true) (hlen : 8 ≤ s.data.length - s.pos) :
    (load_loop junk (fuel + 1) varnames data s
          = some (.ok data, varnames, { s with pos := s.pos + 8 })
        ↔ (s.data.drop s.pos).take 8 = stop)
      ∧ ((s.data.drop s.pos).take 8 ≠ stop →
          load_loop junk (fuel + 1) varnames data s =
            match read_block junk ((s.data.drop s.pos).take 8) varnames data
                { s with pos := s.pos + 8 } with
            | (.error e, stream) => some (.error e, varnames, stream)
            | (.ok (varnames, data), stream) => load_loop junk fuel varnames data stream) := by
  have hr : read_str junk 8 s = ((s.data.drop s.pos).take 8, { s with pos := s.pos + 8 }) := by
    unfold read_str
    rw [Stream.read_ok s _ 8 hgood hlen, drop_uninit, List.append_nil]
  have hne : (s.data.drop s.pos).take 8 ≠ stop →
      load_loop junk (fuel + 1) varnames data s =
        match read_block junk ((s.data.drop s.pos).take 8) varnames data
            { s with pos := s.pos + 8 } with
        | (.error e, stream) => some (.error e, varnames, stream)
        | (.ok (varnames, data), stream) => load_loop junk fuel varnames data stream := by
    intro hc
    rw [load_loop, hr]
    exact (if_neg hc).trans rfl
  refine ⟨⟨?_, ?_⟩, hne⟩
  · intro h
    by_contra hc
    rw [hne hc] at h
    split at h
    · simp at h
    · rename_i m1 d1 s1 he
      have h1 := (read_block_ok_pos _ _ _ _ _ _ _ _ he).1
      have h2 := load_loop_ok_pos _ _ _ _ _ _ _ _ h
      simp only at h1 h2
      omega
  · intro hc
    rw [load_loop, hr]
    simp only [hc, if_true]

/-- Witness of C3: the class name `STOPabcd` does not end the loop; its
block is decoded and the loop ends at the sentinel that follows, 52 bytes
into the stream. -/
theorem sentinel_exact_witness :
    load_loop zero_junk 3 [] [] (Stream.fresh similar_name_stream true)
      = some (.ok [], [], (Stream.fresh similar_name_stream true).moved 52) :=
  ((sentinel_exact zero_junk 2 [] [] (Stream.fresh similar_name_stream true) (by decide)
    (by decide)).2 (by decide)).trans rfl

/-- C5: a stream whose bytes 4 to 15 are not the signature `"PLOT  BIN   "`
makes `load` throw `bad_header`, whatever else it holds (stated for the
default exception mask); and a stream that is not failed and holds the
signature there never makes `load` throw the `bad_header` of the signature
check. -/
theorem load_bad_signature {U : Type} (mk_unit : List Byte → Option U) (junk : Nat → Byte)
    (s : Stream) :
    (s.exceptions = (false, false) → (s.data.drop 4).take 12 ≠ th0 →
        (load mk_unit junk s).1 = .error (.bad_header "Could not verify file type"))
      ∧ (s.failbit = false → (s.data.drop 4).take 12 = th0 →
          (load mk_unit junk s).1 ≠ .error (.bad_header "Could not verify file type")) := by
  constructor
  · intro hmask hsig
    have hh : (read_header mk_unit junk s).1
        = .error (.bad_header "Could not verify file type") := by
      rw [read_header_fst, if_neg]
      intro hc
      exact hsig hc.2.2
    rw [load_fst_of_mask mk_unit junk s hmask, load_body_header_error mk_unit junk s _ hh]
  · intro hf hsig
    rcases load_fst mk_unit junk s with h | h
    · rw [h]; simp
    · rw [h]
      have hf' : (s.set_exceptions (false, false)).2.failbit = false := hf
      have hd' : (s.set_exceptions (false, false)).2.data = s.data := rfl
      generalize (s.set_exceptions (false, false)).2 = t at hf' hd' ⊢
      have hlen : 16 ≤ t.data.length := by
        have := congrArg List.length hsig
        rw [List.length_take, List.length_drop, ← hd'] at this
        simp only [th0, List.length_cons, List.length_nil] at this
        omega
      rw [← hd'] at hsig
      intro hb
      rcases hlb : load_body mk_unit junk t with ⟨r, t'⟩
      rw [hlb] at hb
      simp only at hb
      subst hb
      rcases load_body_error mk_unit junk t t' _ hlb with h1 | h1 | h1 | h1 | h1
      · rw [read_header_fst, if_pos ⟨hf', hlen, hsig⟩] at h1
        split at h1
        · split at h1
          · simp at h1
          · split at h1
            · split at h1
              · simp only [Except.error.injEq, Error.bad_header.injEq] at h1
                exact absurd h1 (by decide)
              · simp at h1
            · simp at h1
        · simp at h1
      · simp at h1
      · simp at h1
      · simp only [Error.bad_header.injEq] at h1
        exact absurd h1 (by decide)
      · simp at h1

/-- Witness of C5: the example header with its first signature byte
changed. -/
theorem load_bad_signature_witness :
    (load metric_only zero_junk
        (Stream.fresh (zeros 4 ++ [81] ++ (example_header 1).drop 5) true)).1
      = .error (.bad_header "Could not verify file type") :=
  (load_bad_signature metric_only zero_junk
    (Stream.fresh (zeros 4 ++ [81] ++ (example_header 1).drop 5) true)).1 (by decide)
    (by decide)

/-! ## The loop of `load` on complete data blocks -/

theorem be32_drop_flatten (values : List (List Byte)) (l : List Byte)
    (h : ∀ v ∈ values, v.length = 4) :
    ∀ k, k < values.length →
      be32 ((values.flatten ++ l).drop (4 * k)) = be32 (values.getD k []) := by
  induction values with
  | nil => intro k hk; simp at hk
  | cons v vs ih =>
    intro k hk
    have hv : v.length = 4 := h v (List.mem_cons_self _ _)
    cases k with
    | zero =>
      rw [Nat.mul_zero, List.drop_zero, List.flatten_cons, List.append_assoc,
        be32_append _ _ hv]
      rfl
    | succ k =>
      rw [List.flatten_cons, List.append_assoc,
        show 4 * (k + 1) = v.length + 4 * k by omega, ← List.drop_drop, List.drop_left]
      rw [ih (fun w hw => h w (List.mem_cons_of_mem _ hw)) k
        (by simpa using hk)]
      simp

theorem read_vars_holds (s : Stream) (p : Nat) (values : List (List Byte)) (l : List Byte)
    (d : List NexusData) (ts : Int) (t : F32) (mp : Int) (c i : List Byte)
    (vars : List (List Byte)) (h : s.Holds p (values.flatten ++ l))
    (hn : values.length = vars.length) (hv : ∀ v ∈ values, v.length = 4) :
    read_vars (s.moved p) d ts t mp c i vars
      = (d ++ (List.range vars.length).map (fun k =>
            { timestep := ts, time := t, max_perfs := mp, classname := c, instancename := i,
              varname := vars.getD k [], value := ⟨be32 (values.getD k [])⟩ }),
          s.moved (p + values.flatten.length)) := by
  have hfl : values.flatten.length = vars.length * 4 := by
    rw [length_flatten_of_forall _ 4 hv, hn, Nat.mul_comm]
  have h1 := read_vars_good (s.moved p) d ts t mp c i vars (Stream.moved_good _ _ h.1)
  have h2 : (read_vars (s.moved p) d ts t mp c i vars).2
      = s.moved (p + values.flatten.length) := by
    have hr := h.read (zeros (vars.length * 4))
    rw [hfl] at hr
    simp only [read_vars, hr, hfl]
  rw [Prod.ext_iff]
  refine ⟨?_, h2⟩
  rw [h1]
  simp only [Stream.moved_data, Stream.moved_pos]
  congr 1
  apply List.map_congr_left
  intro k hk
  rw [List.mem_range] at hk
  rw [← List.drop_drop, h.2.2, be32_drop_flatten values l hv k (by omega)]

theorem entity_bytes_length (e : EntityLayout) :
    e.bytes.length = e.skip1.length + (e.name.length + (e.skip2.length
      + e.values.flatten.length)) := by
  simp only [EntityLayout.bytes, List.length_append]

theorem read_items_holds (junk : Nat → Byte) (s : Stream) (ts : Int) (t : F32) (mp : Int)
    (c : List Byte) (vars : List (List Byte)) (es : List EntityLayout)
    (hes : ∀ e ∈ es, e.complete vars.length) :
    ∀ (m : VarMap) (d : List NexusData) (p : Nat) (l : List Byte), m.get c = vars →
      s.Holds p ((es.map (·.bytes)).flatten ++ l) →
      (read_items junk ts t mp c es.length m d (s.moved p)).2
        = (d ++ entity_records ts t mp c vars es,
            s.moved (p + (es.map (·.bytes)).flatten.length)) := by
  induction es with
  | nil => intro m d p l _ _; simp [read_items, entity_records]
  | cons e es ih =>
    intro m d p l hm h
    obtain ⟨h1, h2, h3, h4, h5⟩ := hes e (List.mem_cons_self _ _)
    rw [List.map_cons, List.flatten_cons, List.append_assoc] at h
    have ha := h.advance
    have hbytes : e.bytes ++ ((es.map (·.bytes)).flatten ++ l)
        = e.skip1 ++ (e.name ++ (e.skip2 ++ (e.values.flatten
          ++ ((es.map (·.bytes)).flatten ++ l)))) := by
      simp only [EntityLayout.bytes, List.append_assoc]
    rw [hbytes] at h
    have s1 := h.seekg_cur
    have a1 := h.advance
    have s2 := a1.read (uninit junk 8)
    have a2 := a1.advance
    have s3 := a2.seekg_cur
    have a3 := a2.advance
    have hm' : (m.touch c).get c = vars := by rw [VarMap.get_touch]; exact hm
    have s4 := read_vars_holds s _ e.values _ d ts t mp c e.name vars a3 h4 h5
    simp only [h1, h2, h3, drop_uninit, List.append_nil] at s1 s2 s3 s4
    have hl : p + e.bytes.length = p + 8 + 8 + 64 + e.values.flatten.length := by
      rw [entity_bytes_length, h1, h2, h3]; omega
    rw [hl] at ha
    have hih := ih (fun e' he' => hes e' (List.mem_cons_of_mem _ he')) (m.touch c)
      (d ++ (List.range vars.length).map (fun k =>
        { timestep := ts, time := t, max_perfs := mp, classname := c, instancename := e.name,
          varname := vars.getD k [], value := ⟨be32 (e.values.getD k [])⟩ })) _ l hm' ha
    simp only [List.length_cons, read_items, s1, s2, s3, hm', s4]
    rw [hih]
    simp only [entity_records, List.map_cons, List.flatten_cons, List.append_assoc,
      List.length_append, entity_bytes_length, h1, h2, h3, Nat.add_assoc]

theorem word_at_head (x l : List Byte) (h : x.length = 4) :
    word_at (x ++ l) 0 = to_int32 (be32 x) := by
  rw [word_at_eq, Nat.mul_zero, List.drop_zero, be32_append x l h]

theorem word_at_tail (x l : List Byte) (k : Nat) (h : x.length = 4) :
    word_at (x ++ l) (k + 1) = word_at l k := by
  rw [word_at_eq, word_at_eq, show 4 * (k + 1) = x.length + 4 * k by omega,
    ← List.drop_drop, List.drop_left]

theorem interpret_float_be32 (x : List Byte) :
    interpret_float (to_int32 (be32 x)) = ⟨be32 x⟩ := by
  simp only [interpret_float, to_uint32_to_int32 (be32_lt _)]

theorem block_body_length (b : BlockLayout) :
    b.body.length = b.skip.length + ((b.word0.length + (b.word1.length + (b.word2.length
      + (b.word3.length + b.word4.length)))) + ((b.entities.map (·.bytes)).flatten.length
      + b.trailer.length)) := by
  simp only [BlockLayout.body, List.length_append]

/-- On a stream that holds the rest of a complete block, `read_block` appends
the records of the block, leaves the lookups in the variable map as they
were, and moves the cursor behind the block. -/
theorem read_block_holds (junk : Nat → Byte) (s : Stream) (b : BlockLayout) (m : VarMap)
    (d : List NexusData) (p : Nat) (l : List Byte)
    (hb : b.complete (m.get b.classname).length) (h : s.Holds p (b.body ++ l)) :
    ∃ m', read_block junk b.classname m d (s.moved p)
        = (.ok (m', d ++ b.records (m.get b.classname)), s.moved (p + b.body.length))
      ∧ ∀ k, m'.get k = m.get k := by
  obtain ⟨-, -, hs, h0, h1, h2, h3, h4, htr, hts, hmp, hni, hes⟩ := hb
  have hlen : b.body.length
      = 8 + (20 + ((b.entities.map (·.bytes)).flatten.length + 8)) := by
    rw [block_body_length, hs, h0, h1, h2, h3, h4, htr]
  have hbody : b.body ++ l = b.skip ++ ((b.word0 ++ (b.word1 ++ (b.word2 ++ (b.word3
      ++ b.word4)))) ++ ((b.entities.map (·.bytes)).flatten ++ (b.trailer ++ l))) := by
    simp only [BlockLayout.body, List.append_assoc]
  rw [hbody] at h
  have s1 := h.seekg_cur
  have a1 := h.advance
  have s2 := a1.read (zeros 20)
  have a2 := a1.advance
  have hwl : (b.word0 ++ (b.word1 ++ (b.word2 ++ (b.word3 ++ b.word4)))).length = 20 := by
    simp only [List.length_append, h0, h1, h2, h3, h4]
  simp only [hs, hwl, drop_zeros, List.append_nil] at s1 a1 s2 a2
  have w0 : word_at (b.word0 ++ (b.word1 ++ (b.word2 ++ (b.word3 ++ b.word4)))) 0
      = to_int32 (be32 b.word0) := word_at_head _ _ h0
  have w1 : word_at (b.word0 ++ (b.word1 ++ (b.word2 ++ (b.word3 ++ b.word4)))) 1
      = to_int32 (be32 b.word1) := by
    rw [word_at_tail _ _ 0 h0, word_at_head _ _ h1]
  have w2 : word_at (b.word0 ++ (b.word1 ++ (b.word2 ++ (b.word3 ++ b.word4)))) 2
      = to_int32 (be32 b.word2) := by
    rw [word_at_tail _ _ 1 h0, word_at_tail _ _ 0 h1, word_at_head _ _ h2]
  have w4 : word_at (b.word0 ++ (b.word1 ++ (b.word2 ++ (b.word3 ++ b.word4)))) 4
      = to_int32 (be32 b.word4) := by
    rw [word_at_tail _ _ 3 h0, word_at_tail _ _ 2 h1, word_at_tail _ _ 1 h2,
      word_at_tail _ _ 0 h3, word_at_eq, Nat.mul_zero, List.drop_zero]
  obtain ⟨ts, hts'⟩ := Option.isSome_iff_exists.mp hts
  obtain ⟨mp, hmp'⟩ := Option.isSome_iff_exists.mp hmp
  obtain ⟨ni, hni', hni''⟩ := Option.map_eq_some'.mp hni
  unfold BlockLayout.timestep at hts'
  unfold BlockLayout.max_perfs at hmp'
  unfold BlockLayout.num_items at hni'
  have s3 := read_items_holds junk s ts b.time mp b.classname (m.get b.classname) b.entities
    hes m d _ _ rfl a2
  have a3 := a2.advance
  have s4 := a3.seekg_cur
  rw [htr] at s4
  refine ⟨(read_items junk ts b.time mp b.classname ni.toNat m d (s.moved (p + 8 + 20))).1,
    ?_, fun k => read_items_get _ _ _ _ _ _ _ _ _ k⟩
  unfold read_block
  simp only [s1, s2, Stream.moved_good _ _ h.1, Bool.not_true, Bool.false_eq_true, if_false,
    w0, w1, w2, w4, interpret_float_be32, hts', hni', hmp', hni'']
  rw [Prod.ext_iff] at s3
  simp only [BlockLayout.time] at s3 ⊢
  rw [s3.2, s4, s3.1]
  simp only [BlockLayout.records, entity_records, BlockLayout.timestep, BlockLayout.max_perfs,
    BlockLayout.time, hts', hmp', Option.getD_some, hlen, Nat.add_assoc]

theorem block_bytes_length (b : BlockLayout) :
    b.bytes.length = b.classname.length + b.body.length := by
  simp only [BlockLayout.bytes, List.length_append]

/-- On a stream that holds complete blocks and then the sentinel, the loop of
`load` returns the records of the blocks, in their order, and leaves the
cursor behind the sentinel. -/
theorem load_loop_holds (junk : Nat → Byte) (s : Stream) (blocks : List BlockLayout) :
    ∀ (m : VarMap) (d : List NexusData) (p : Nat) (l : List Byte),
      (∀ b ∈ blocks, b.complete (m.get b.classname).length) →
      s.Holds p ((blocks.map (·.bytes)).flatten ++ (stop ++ l)) →
      ∃ m', load_loop junk (blocks.length + 1) m d (s.moved p)
          = some (.ok (d ++ records_of m blocks), m',
              s.moved (p + (blocks.map (·.bytes)).flatten.length + 8))
        ∧ ∀ k, m'.get k = m.get k := by
  induction blocks with
  | nil =>
    intro m d p l _ h
    rw [List.map_nil, List.flatten_nil, List.nil_append] at h
    have hr := h.read (uninit junk 8)
    rw [show stop.length = 8 from rfl, drop_uninit, List.append_nil] at hr
    refine ⟨m, ?_, fun _ => rfl⟩
    simp [load_loop, read_str, hr, records_of]
  | cons b bs ih =>
    intro m d p l hbs h
    have hb := hbs b (List.mem_cons_self _ _)
    rw [List.map_cons, List.flatten_cons, List.append_assoc] at h
    have ha := h.advance
    have hbytes : b.bytes ++ ((bs.map (·.bytes)).flatten ++ (stop ++ l))
        = b.classname ++ (b.body ++ ((bs.map (·.bytes)).flatten ++ (stop ++ l))) := by
      simp only [BlockLayout.bytes, List.append_assoc]
    rw [hbytes] at h
    have hr := h.read (uninit junk 8)
    have a1 := h.advance
    rw [hb.1, drop_uninit, List.append_nil] at hr
    rw [hb.1] at a1
    obtain ⟨m1, hrb, hm1⟩ := read_block_holds junk s b m d (p + 8) _ hb a1
    have hbs' : ∀ b' ∈ bs, b'.complete (m1.get b'.classname).length := by
      intro b' hb'
      rw [hm1]
      exact hbs b' (List.mem_cons_of_mem _ hb')
    have hl : p + b.bytes.length = p + 8 + b.body.length := by
      rw [block_bytes_length, hb.1]; omega
    rw [hl] at ha
    obtain ⟨m2, hl2, hm2⟩ := ih m1 (d ++ b.records (m.get b.classname)) _ l hbs' ha
    refine ⟨m2, ?_, fun k => by rw [hm2, hm1]⟩
    rw [List.length_cons, load_loop]
    simp only [read_str, hr, hb.2.1, if_false, hrb]
    have hrec : records_of m1 bs = records_of m bs := by
      unfold records_of
      congr 1
      apply List.map_congr_left
      intro b' _
      rw [hm1]
    rw [hl2, hrec]
    simp only [records_of, List.map_cons, List.flatten_cons, List.append_assoc,
      List.length_append, block_bytes_length, hb.1, Nat.add_assoc]

theorem be32_drop_append (h x : List Byte) (q : Nat) (hq : q + 4 ≤ h.length) :
    be32 ((h ++ x).drop q) = be32 (h.drop q) := by
  rw [List.drop_append_of_le_length (by omega)]
  apply be32_congr
  intro i hi
  simp only [List.getD_eq_getElem?_getD]
  rw [List.getElem?_append_left (by rw [List.length_drop]; omega)]

theorem length_le_flatten_bytes (blocks : List BlockLayout)
    (h : ∀ b ∈ blocks, b.classname.length = 8) :
    blocks.length ≤ (blocks.map (·.bytes)).flatten.length := by
  induction blocks with
  | nil => simp
  | cons b bs ih =>
    have := ih (fun b' hb' => h b' (List.mem_cons_of_mem _ hb'))
    have hb := h b (List.mem_cons_self _ _)
    simp only [List.map_cons, List.flatten_cons, List.length_append, List.length_cons,
      block_bytes_length, hb]
    omega

/-- The body of `load` on a well-formed plot stream. -/
theorem load_body_well_formed {U : Type} (mk_unit : List Byte → Option U) (junk : Nat → Byte)
    (s : Stream) (u : U) (header skip1 skip2 skip3 rest : List Byte) (cs : List ClassLayout)
    (blocks : List BlockLayout)
    (hfail : s.failbit = false)
    (hdata : s.data = plot_stream header skip1 skip2 skip3 cs blocks ++ rest)
    (hlen : header.length = 872)
    (hsig : (header.drop 4).take 12 = th0)
    (hunit : mk_unit ((header.drop 40).take 6) = some u)
    (hcounters : ∀ k, k < 8 → 0 ≤ to_int32 (be32 (header.drop (840 + 4 * k))))
    (hnum : to_int32 (be32 (header.drop 840)) = (cs.length : Int))
    (h1 : skip1.length = 8) (h2 : skip2.length = 8) (h3 : skip3.length = 8)
    (hcs : ∀ c ∈ cs, c.complete)
    (hn : cs.length < 536870912) (hv : ∀ c ∈ cs, c.vars.length < 536870912)
    (hblocks : ∀ b ∈ blocks, b.complete ((catalog_of cs).get b.classname).length) :
    load_body mk_unit junk s
      = (.ok { header :=
                { unit_system := u,
                  num_classes := (cs.length : Int),
                  counter1 := to_int32 (be32 (header.drop 844)),
                  counter2 := to_int32 (be32 (header.drop 848)),
                  counter3 := to_int32 (be32 (header.drop 852)),
                  counter4 := to_int32 (be32 (header.drop 856)),
                  counter5 := to_int32 (be32 (header.drop 860)),
                  counter6 := to_int32 (be32 (header.drop 864)),
                  counter7 := to_int32 (be32 (header.drop 868)) },
               data := records_of (catalog_of cs) blocks },
          s.moved (872 + (catalog_section skip1 skip2 skip3 cs).length
            + (blocks.map (·.bytes)).flatten.length + 8)) := by
  have hd : s.data = header ++ (catalog_section skip1 skip2 skip3 cs
      ++ ((blocks.map (·.bytes)).flatten ++ (stop ++ rest))) := by
    rw [hdata]; simp only [plot_stream, List.append_assoc]
  have hw : ∀ q, q + 4 ≤ 872 → be32 (s.data.drop q) = be32 (header.drop q) := by
    intro q hq
    rw [hd, be32_drop_append _ _ _ (by omega)]
  have hdl : 872 ≤ s.data.length := by
    rw [hd, List.length_append]; omega
  have hhdr := read_header_counters mk_unit junk s u hfail hdl
    (by rw [hd, List.drop_append_of_le_length (by omega),
      List.take_append_of_le_length (by rw [List.length_drop]; omega)]; exact hsig)
    (by rw [hd, List.drop_append_of_le_length (by omega),
      List.take_append_of_le_length (by rw [List.length_drop]; omega)]; exact hunit)
    (by intro k hk; rw [hw _ (by omega)]; exact hcounters k hk)
  rw [hw 840 (by omega), hw 844 (by omega), hw 848 (by omega), hw 852 (by omega),
    hw 856 (by omega), hw 860 (by omega), hw 864 (by omega), hw 868 (by omega), hnum] at hhdr
  have hh : s.Holds 872 (catalog_section skip1 skip2 skip3 cs
      ++ ((blocks.map (·.bytes)).flatten ++ (stop ++ rest))) := by
    refine ⟨hfail, hdl, ?_⟩
    rw [hd, ← hlen, List.drop_left]
  have hvn := read_varnames_holds junk s 872 skip1 skip2 skip3 _ cs hh h1 h2 h3 hcs hn hv
  have ha := hh.advance
  obtain ⟨m', hloop, -⟩ := load_loop_holds junk s blocks (catalog_of cs) [] _ rest hblocks ha
  have hfuel : blocks.length + 1 ≤ s.data.length + 1 := by
    have h8 := length_le_flatten_bytes blocks (fun b hb => (hblocks b hb).1)
    have : (blocks.map (·.bytes)).flatten.length ≤ s.data.length := by
      rw [hd]; simp only [List.length_append]; omega
    omega
  have hloop' := load_loop_le junk _ _ hfuel _ _ _ _ hloop
  unfold load_body
  simp only [hhdr, hvn, Stream.moved_data, hloop', List.nil_append]

/-- C1: on a well-formed stream (a header with the signature, an accepted
unit-system code and non-negative counters of which the first is the number
of classes; a catalog section whose class names are pairwise distinct;
complete data blocks; the sentinel `"STOP    "`), `load` succeeds and its
records are, over the blocks in the order of the stream, then over the
entities of the block, then over the variable names of the block's class in
the order of the catalog, one record with the block's timestep, time and
`max_perfs`, the class name, the instance name, the variable name and the
value with the bits of the matching word of the entity's values array.
Stated for fewer than `2^29` classes and variables in a class, where the `int`
products of the source do not overflow. -/
theorem load_well_formed {U : Type} (mk_unit : List Byte → Option U) (junk : Nat → Byte)
    (s : Stream) (u : U) (header skip1 skip2 skip3 rest : List Byte) (cs : List ClassLayout)
    (blocks : List BlockLayout)
    (hfail : s.failbit = false)
    (hdata : s.data = plot_stream header skip1 skip2 skip3 cs blocks ++ rest)
    (hlen : header.length = 872)
    (hsig : (header.drop 4).take 12 = th0)
    (hunit : mk_unit ((header.drop 40).take 6) = some u)
    (hcounters : ∀ k, k < 8 → 0 ≤ to_int32 (be32 (header.drop (840 + 4 * k))))
    (hnum : to_int32 (be32 (header.drop 840)) = (cs.length : Int))
    (h1 : skip1.length = 8) (h2 : skip2.length = 8) (h3 : skip3.length = 8)
    (hcs : ∀ c ∈ cs, c.complete) (hdistinct : (cs.map (·.name)).Nodup)
    (hn : cs.length < 536870912) (hv : ∀ c ∈ cs, c.vars.length < 536870912)
    (hblocks : ∀ b ∈ blocks,
      b.complete (VarMap.get (cs.map (fun c => (c.name, c.vars))) b.classname).length) :
    (load mk_unit junk s).1
      = .ok { header :=
                { unit_system := u,
                  num_classes := (cs.length : Int),
                  counter1 := to_int32 (be32 (header.drop 844)),
                  counter2 := to_int32 (be32 (header.drop 848)),
                  counter3 := to_int32 (be32 (header.drop 852)),
                  counter4 := to_int32 (be32 (header.drop 856)),
                  counter5 := to_int32 (be32 (header.drop 860)),
                  counter6 := to_int32 (be32 (header.drop 864)),
                  counter7 := to_int32 (be32 (header.drop 868)) },
              data := records_of (cs.map (fun c => (c.name, c.vars))) blocks } := by
  rw [← catalog_of_nodup cs hdistinct] at hblocks ⊢
  have hb := load_body_well_formed mk_unit junk (s.set_exceptions (false, false)).2 u header
    skip1 skip2 skip3 rest cs blocks hfail hdata hlen hsig hunit hcounters hnum h1 h2 h3 hcs
    hn hv hblocks
  exact load_fst_of_good mk_unit junk s _ _ hb (Stream.moved_good _ _ hfail)

/-- Witness of C1: the class `WELL` with the variables `WOPR` and `WWPR`,
one block with one entity and the values `100.0f` and `0.0f`: two records,
`WOPR` with the bits of `100.0f`, then `WWPR` with the bits of `0.0f`, with
the same timestep, time and instance name. -/
theorem load_well_formed_witness :
    (load metric_only zero_junk (Stream.fresh example_stream true)).1
      = .ok { header :=
                { unit_system := [77, 69, 84, 82, 73, 67], num_classes := 1, counter1 := 0,
                  counter2 := 0, counter3 := 0, counter4 := 0, counter5 := 0, counter6 := 0,
                  counter7 := 0 },
              data :=
                [{ timestep := 3, time := ⟨1069547520⟩, max_perfs := 0,
                   classname := [87, 69, 76, 76, 32, 32, 32, 32],
                   instancename := [87, 69, 76, 76, 45, 65, 48, 49],
                   varname := [87, 79, 80, 82], value := ⟨1120403456⟩ },
                 { timestep := 3, time := ⟨1069547520⟩, max_perfs := 0,
                   classname := [87, 69, 76, 76, 32, 32, 32, 32],
                   instancename := [87, 69, 76, 76, 45, 65, 48, 49],
                   varname := [87, 87, 80, 82], value := ⟨0⟩ }] }
      ∧ (F32.mk 1120403456).toRat = 100 ∧ (F32.mk 0).toRat = 0 := by
  refine ⟨?_, ?_, ?_⟩
  · exact (load_well_formed metric_only zero_junk (Stream.fresh example_stream true)
      [77, 69, 84, 82, 73, 67] (example_header 1) (zeros 8) (zeros 8) (zeros 8) []
      [example_class] [example_block] (by decide) (by decide) (by decide) (by decide)
      (by decide) (by decide) (by decide) (by decide) (by decide) (by decide) (by decide)
      (by decide) (by decide) (by decide) (by decide)).trans (by decide)
  · norm_num [F32.toRat, F32.sign, F32.significand, F32.exponent, F32.fraction, F32.scale]
  · norm_num [F32.toRat, F32.sign, F32.significand, F32.exponent, F32.fraction, F32.scale]

/-! ## A stream and one of its prefixes -/

namespace Stream

theorem Sim.of_good {n : Nat} {s t : Stream} (hd : t.data = s.data.take n)
    (hk : t.seek_past_end = s.seek_past_end) (hs : s.good = true) (ht : t.good = true)
    (hp : t.pos = s.pos) : Sim n s t :=
  ⟨hd, hk, Or.inr (Or.inr ⟨hs, ht, hp⟩)⟩

/-- When neither stream has failed, both are good and at the same offset. -/
theorem Sim.sync {n : Nat} {s t : Stream} (h : Sim n s t) (hs : s.failbit = false)
    (ht : t.failbit = false) : s.good = true ∧ t.good = true ∧ t.pos = s.pos := by
  rcases h.2.2 with h1 | h1 | h1
  · rw [hs] at h1; exact absurd h1 (by simp)
  · rw [ht] at h1; exact absurd h1 (by simp)
  · exact h1

theorem failbit_false_of_seekg_cur {s : Stream} {k : Nat}
    (h : (s.seekg_cur k).failbit = false) : s.failbit = false :=
  (seekg_cur_inv s k h).1

theorem failbit_false_of_read {s : Stream} {b : List Byte} {k : Nat}
    (h : (s.read b k).2.failbit = false) : s.failbit = false :=
  failbit_of_good (read_failbit_inv s b k h).1

theorem Sim.skip_sim {n : Nat} {s t : Stream} (h : Sim n s t) (k : Nat) :
    Sim n (s.seekg_cur k) (t.seekg_cur k) := by
  refine ⟨by rw [seekg_cur_data, seekg_cur_data]; exact h.1,
    by rw [seekg_cur_seek_past_end, seekg_cur_seek_past_end]; exact h.2.1, ?_⟩
  cases hs : (s.seekg_cur k).failbit
  · cases ht : (t.seekg_cur k).failbit
    · obtain ⟨hs0, es, -⟩ := seekg_cur_inv s k hs
      obtain ⟨ht0, et, -⟩ := seekg_cur_inv t k ht
      obtain ⟨-, -, hp⟩ := h.sync hs0 ht0
      refine Or.inr (Or.inr ⟨?_, ?_, ?_⟩)
      · rw [es]; exact moved_good _ _ hs0
      · rw [et]; exact moved_good _ _ ht0
      · rw [es, et, moved_pos, moved_pos, hp]
    · exact Or.inr (Or.inl rfl)
  · exact Or.inl rfl

theorem read_length (s : Stream) (b : List Byte) (k : Nat) (hb : b.length = k) :
    (s.read b k).1.length = k := by
  unfold read
  dsimp only
  split
  · split
    · rename_i hl
      rw [List.length_append, hl, List.length_drop]; omega
    · rw [List.length_append, List.length_drop]
      have : ((s.data.drop s.pos).take k).length ≤ k := by
        rw [List.length_take]; omega
      omega
  · exact hb

theorem Sim.read_sim {n : Nat} {s t : Stream} (h : Sim n s t) (bs bt : List Byte) (k : Nat) :
    Sim n (s.read bs k).2 (t.read bt k).2
      ∧ ((s.read bs k).2.failbit = false → (t.read bt k).2.failbit = false →
          bs.length = k → bt.length = k → (t.read bt k).1 = (s.read bs k).1) := by
  have hfr : Sim n (s.read bs k).2 (t.read bt k).2 := by
    refine ⟨by rw [read_data, read_data]; exact h.1,
      by rw [read_seek_past_end, read_seek_past_end]; exact h.2.1, ?_⟩
    cases hs : (s.read bs k).2.failbit
    · cases ht : (t.read bt k).2.failbit
      · obtain ⟨hsg, hsl⟩ := read_failbit_inv s bs k hs
        obtain ⟨htg, htl⟩ := read_failbit_inv t bt k ht
        obtain ⟨-, -, hp⟩ := h.sync (failbit_of_good hsg) (failbit_of_good htg)
        rw [read_ok s bs k hsg hsl, read_ok t bt k htg htl]
        refine Or.inr (Or.inr ⟨hsg, htg, ?_⟩)
        simp only [hp]
      · exact Or.inr (Or.inl rfl)
    · exact Or.inl rfl
  refine ⟨hfr, ?_⟩
  intro hs ht hbs hbt
  obtain ⟨hsg, hsl⟩ := read_failbit_inv s bs k hs
  obtain ⟨htg, htl⟩ := read_failbit_inv t bt k ht
  obtain ⟨-, -, hp⟩ := h.sync (failbit_of_good hsg) (failbit_of_good htg)
  rw [read_ok s bs k hsg hsl, read_ok t bt k htg htl]
  simp only
  have e1 : bs.drop k = [] := List.drop_eq_nil_of_le (by omega)
  have e2 : bt.drop k = [] := List.drop_eq_nil_of_le (by omega)
  rw [e1, e2, hp, h.1, List.append_nil, List.append_nil]
  rw [h.1, List.length_take, hp] at htl
  rw [List.drop_take, List.take_take]
  congr 1
  omega

/-- After a `read` into a zero-initialised buffer that the longer stream
completes, each byte that the shorter stream got is the byte of the longer
stream or zero. -/
theorem Sim.read_zeros {n : Nat} {s t : Stream} (h : Sim n s t) (k : Nat)
    (hs : (s.read (zeros k) k).2.failbit = false) (i : Nat) :
    (t.read (zeros k) k).1.getD i 0 = (s.read (zeros k) k).1.getD i 0
      ∨ (t.read (zeros k) k).1.getD i 0 = 0 := by
  obtain ⟨hsg, hsl⟩ := read_failbit_inv s (zeros k) k hs
  by_cases hi : i < k
  · cases htg : t.good
    · right
      rw [read_of_not_good t _ k htg]
      simp only [zeros, List.getD_eq_getElem?_getD, List.getElem?_replicate]
      split <;> rfl
    · rw [read_zeros_getD t k i htg hi, read_zeros_getD s k i hsg hi]
      obtain ⟨-, -, hp⟩ := h.sync (failbit_of_good hsg) (failbit_of_good htg)
      rw [hp, h.1]
      simp only [List.getD_eq_getElem?_getD, List.getElem?_take]
      split
      · exact Or.inl rfl
      · exact Or.inr rfl
  · right
    have hl := read_length t (zeros k) k (zeros_length k)
    rw [List.getD_eq_getElem?_getD, List.getElem?_eq_none (by omega)]
    rfl

end Stream

/-! ## `read_varnames` on a stream and on one of its prefixes -/

theorem failbit_false_of_read_classnames {N : Nat} {b : List Byte} {s : Stream}
    (h : (read_classnames N b s).2.failbit = false) : s.failbit = false := by
  cases hf : s.failbit
  · rfl
  · rw [read_classnames_failbit N b s hf] at h; exact absurd h (by simp)

theorem failbit_false_of_read_class {k : List Byte} {c : Int} {m : VarMap} {s : Stream}
    (h : (read_class k c m s).2.failbit = false) : s.failbit = false := by
  cases hf : s.failbit
  · rfl
  · rw [read_class_failbit k c m s hf] at h; exact absurd h (by simp)

theorem failbit_false_of_read_classes {ps : List (List Byte × Int)} {m : VarMap} {s : Stream}
    (h : (read_classes ps m s).2.failbit = false) : s.failbit = false := by
  cases hf : s.failbit
  · rfl
  · rw [read_classes_failbit ps m s hf] at h; exact absurd h (by simp)

theorem read_classnames_sim (n N : Nat) :
    ∀ (bs bt : List Byte) (s t : Stream), Stream.Sim n s t → bs.length = 8 → bt.length = 8 →
      Stream.Sim n (read_classnames N bs s).2 (read_classnames N bt t).2
        ∧ ((read_classnames N bs s).2.failbit = false →
            (read_classnames N bt t).2.failbit = false →
            (read_classnames N bt t).1 = (read_classnames N bs s).1) := by
  induction N with
  | zero => intro bs bt s t h _ _; exact ⟨h, fun _ _ => rfl⟩
  | succ N ih =>
    intro bs bt s t h hbs hbt
    obtain ⟨h1, e1⟩ := h.read_sim bs bt 8
    obtain ⟨h2, e2⟩ := ih (s.read bs 8).1 (t.read bt 8).1 _ _ h1
      (Stream.read_length s bs 8 hbs) (Stream.read_length t bt 8 hbt)
    simp only [read_classnames]
    refine ⟨h2, ?_⟩
    intro hs ht
    rw [e2 hs ht, e1 (failbit_false_of_read_classnames hs) (failbit_false_of_read_classnames ht)
      hbs hbt]

/-- Whether `read_class` returns depends on the count alone. -/
theorem read_class_fst_cases (k : List Byte) (c : Int) (m : VarMap) (s : Stream) :
    (2147483648 ≤ c * 4 ∧ (read_class k c m s).1 = .error .undefined)
      ∨ (c * 4 < 2147483648 ∧ ∃ m', (read_class k c m s).1 = .ok m') := by
  unfold read_class
  dsimp only
  split
  · rename_i h; exact Or.inl ⟨h, rfl⟩
  · rename_i h; exact Or.inr ⟨by omega, _, rfl⟩

theorem read_class_sim (n : Nat) (k : List Byte) (c : Int) (ms mt : VarMap) (s t : Stream)
    (h : Stream.Sim n s t) :
    Stream.Sim n (read_class k c ms s).2 (read_class k c mt t).2
      ∧ (ms = mt → (read_class k c ms s).2.failbit = false →
          (read_class k c mt t).2.failbit = false →
          (read_class k c mt t).1 = (read_class k c ms s).1) := by
  unfold read_class
  dsimp only
  split
  · exact ⟨h.skip_sim 4, fun _ _ _ => rfl⟩
  · obtain ⟨h1, e1⟩ := (h.skip_sim 4).read_sim (zeros (c * 4).toNat) (zeros (c * 4).toNat)
      (c * 4).toNat
    refine ⟨h1.skip_sim 8, ?_⟩
    intro hm hs ht
    subst hm
    rw [e1 (Stream.failbit_false_of_seekg_cur hs) (Stream.failbit_false_of_seekg_cur ht)
      (zeros_length _) (zeros_length _)]

theorem read_classes_sim (n : Nat) (ps : List (List Byte × Int)) :
    ∀ (ms mt : VarMap) (s t : Stream), Stream.Sim n s t →
      Stream.Sim n (read_classes ps ms s).2 (read_classes ps mt t).2
        ∧ (ms = mt → (read_classes ps ms s).2.failbit = false →
            (read_classes ps mt t).2.failbit = false →
            (read_classes ps mt t).1 = (read_classes ps ms s).1) := by
  induction ps with
  | nil => intro ms mt s t h; exact ⟨h, fun hm _ _ => by rw [hm]; rfl⟩
  | cons p ps ih =>
    intro ms mt s t h
    obtain ⟨k, c⟩ := p
    obtain ⟨h1, e1⟩ := read_class_sim n k c ms mt s t h
    rcases read_class_fst_cases k c ms s with ⟨hc, hs1⟩ | ⟨hc, ms', hs1⟩
    · rcases read_class_fst_cases k c mt t with ⟨-, ht1⟩ | ⟨hc', -⟩
      · have es : read_class k c ms s = (.error .undefined, (read_class k c ms s).2) :=
          Prod.ext hs1 rfl
        have et : read_class k c mt t = (.error .undefined, (read_class k c mt t).2) :=
          Prod.ext ht1 rfl
        simp only [read_classes]
        rw [es, et]
        exact ⟨h1, fun _ _ _ => rfl⟩
      · omega
    · rcases read_class_fst_cases k c mt t with ⟨hc', -⟩ | ⟨-, mt', ht1⟩
      · omega
      · have es : read_class k c ms s = (.ok ms', (read_class k c ms s).2) :=
          Prod.ext hs1 rfl
        have et : read_class k c mt t = (.ok mt', (read_class k c mt t).2) :=
          Prod.ext ht1 rfl
        obtain ⟨h2, e2⟩ := ih ms' mt' _ _ h1
        simp only [read_classes]
        rw [es, et]
        refine ⟨h2, ?_⟩
        intro hm hs ht
        have hs' := failbit_false_of_read_classes hs
        have ht' := failbit_false_of_read_classes ht
        have := e1 hm hs' ht'
        rw [hs1, ht1] at this
        exact e2 (Except.ok.inj this).symm hs ht

/-- The second loop of `read_varnames` returns a map when no product
`vars_in_class[i] * 4` overflows. -/
theorem read_classes_total (ps : List (List Byte × Int)) :
    ∀ (m : VarMap) (s : Stream), (∀ p ∈ ps, p.2 * 4 < 2147483648) →
      ∃ m', (read_classes ps m s).1 = .ok m' := by
  induction ps with
  | nil => intro m s _; exact ⟨m, rfl⟩
  | cons p ps ih =>
    intro m s hp
    obtain ⟨k, c⟩ := p
    rcases read_class_fst_cases k c m s with ⟨hc, -⟩ | ⟨-, m1, h1⟩
    · have := hp (k, c) (List.mem_cons_self _ _)
      simp only at this
      omega
    · have e1 : read_class k c m s = (.ok m1, (read_class k c m s).2) := Prod.ext h1 rfl
      simp only [read_classes]
      rw [e1]
      exact ih m1 _ (fun p' hp' => hp p' (List.mem_cons_of_mem _ hp'))

/-- When the second loop of `read_varnames` returns a map, no product
`vars_in_class[i] * 4` overflowed. -/
theorem read_classes_small (ps : List (List Byte × Int)) :
    ∀ (m m' : VarMap) (s s' : Stream), read_classes ps m s = (.ok m', s') →
      ∀ p ∈ ps, p.2 * 4 < 2147483648 := by
  induction ps with
  | nil => intro m m' s s' _ p hp; simp at hp
  | cons p ps ih =>
    intro m m' s s' h q hq
    obtain ⟨k, c⟩ := p
    rcases read_class_fst_cases k c m s with ⟨-, h1⟩ | ⟨hc, m1, h1⟩
    · have e1 : read_class k c m s = (.error .undefined, (read_class k c m s).2) :=
        Prod.ext h1 rfl
      simp only [read_classes] at h
      rw [e1] at h
      simp at h
    · have e1 : read_class k c m s = (.ok m1, (read_class k c m s).2) := Prod.ext h1 rfl
      simp only [read_classes] at h
      rw [e1] at h
      rcases List.mem_cons.mp hq with rfl | hq'
      · exact hc
      · exact ih _ _ _ _ h q hq'

theorem read_class_eofbit (k : List Byte) (c : Int) (m : VarMap) (s : Stream) :
    (read_class k c m s).2.eofbit = false := by
  unfold read_class
  dsimp only
  split <;> simp

theorem read_classes_eofbit (ps : List (List Byte × Int)) :
    ∀ (m : VarMap) (s : Stream), s.eofbit = false → (read_classes ps m s).2.eofbit = false := by
  induction ps with
  | nil => intro m s h; exact h
  | cons p ps ih =>
    intro m s _
    obtain ⟨k, c⟩ := p
    have he := read_class_eofbit k c m s
    simp only [read_classes]
    split
    · rename_i m1 s1 h1
      rw [h1] at he
      exact ih _ _ he
    · rename_i e s1 h1
      rw [h1] at he
      exact he

/-- A word whose bytes are those of another word or zero is not above
it. -/
theorem be32_le_of_bytes (a b : List Byte)
    (h : ∀ i, i < 4 → a.getD i 0 = b.getD i 0 ∨ a.getD i 0 = 0) : be32 a ≤ be32 b := by
  unfold be32
  have e : ∀ i, i < 4 → (a.getD i 0).val ≤ (b.getD i 0).val := by
    intro i hi
    rcases h i hi with h1 | h1
    · rw [h1]
    · rw [h1]; exact Nat.zero_le _
  have e0 := e 0 (by omega)
  have e1 := e 1 (by omega)
  have e2 := e 2 (by omega)
  have e3 := e 3 (by omega)
  omega

theorem word_at_le_of_bytes (a b : List Byte) (k : Nat)
    (h : ∀ i, a.getD i 0 = b.getD i 0 ∨ a.getD i 0 = 0) (hb : 0 ≤ word_at b k) :
    0 ≤ word_at a k ∧ word_at a k ≤ word_at b k := by
  have hle : be32 (a.drop (4 * k)) ≤ be32 (b.drop (4 * k)) := by
    apply be32_le_of_bytes
    intro i _
    rw [getD_drop, getD_drop]
    exact h _
  rw [word_at_eq] at hb ⊢
  rw [word_at_eq]
  have hb' : be32 (b.drop (4 * k)) < 2147483648 := by
    by_contra hc
    have := (to_int32_neg_iff (be32_lt (b.drop (4 * k)))).mpr (by omega)
    omega
  rw [to_int32_of_lt hb', to_int32_of_lt (by omega)]
  omega

theorem zip_snd_mem {α β : Type} (a : List α) (b : List β) (h : a.length = b.length)
    (v : β) (hv : v ∈ b) : ∃ p ∈ a.zip b, p.2 = v := by
  obtain ⟨i, hi, rfl⟩ := List.mem_iff_getElem.mp hv
  have hz : i < (a.zip b).length := by
    rw [List.length_zip]
    omega
  refine ⟨(a.zip b)[i], List.getElem_mem _, ?_⟩
  rw [List.getElem_zip]

theorem mem_words (buf : List Byte) (N : Nat) (v : Int) (h : v ∈ words buf N) :
    ∃ k, k < N ∧ v = word_at buf k := by
  simp only [words, List.mem_map, List.mem_range] at h
  obtain ⟨k, hk, rfl⟩ := h
  exact ⟨k, hk, rfl⟩

theorem word_at_mem_words (buf : List Byte) (N k : Nat) (hk : k < N) :
    word_at buf k ∈ words buf N := by
  simp only [words, List.mem_map, List.mem_range]
  exact ⟨k, hk, rfl⟩

/-- `read_varnames` on a stream and on a prefix of it: when it returns a
catalog on the stream, then on the prefix it returns the same catalog, with
the cursor at the same offset, or it throws `unexpected_eof`. -/
theorem read_varnames_sim (junk : Nat → Byte) (n : Nat) (s t s' : Stream) (N : Int)
    (m : VarMap) (h : Stream.Sim n s t) (hfull : read_varnames junk s N = (.ok m, s')) :
    (∃ t', read_varnames junk t N = (.ok m, t') ∧ Stream.Sim n s' t' ∧ s'.good = true
        ∧ t'.good = true)
      ∨ ∃ t', read_varnames junk t N = (.error (.unexpected_eof ""), t') := by
  have ek : (N * 4).toNat = 4 * N.toNat := by omega
  -- the run on the stream
  unfold read_varnames at hfull
  dsimp only at hfull
  rw [ek] at hfull
  set rs := read_classnames N.toNat (uninit junk 8) (s.seekg_cur 8) with hrs
  set ws := (rs.2.seekg_cur 8).read (zeros (4 * N.toNat)) (4 * N.toNat) with hws
  set ps := rs.1.zip (words ws.1 N.toNat) with hps
  split at hfull
  · simp at hfull
  rename_i hN0
  split at hfull
  · simp at hfull
  rename_i hN4
  split at hfull
  · simp at hfull
  rename_i hneg
  rw [Bool.not_eq_true, any_negative_words_false] at hneg
  split at hfull
  · simp at hfull
  rename_i ms s6 hcs
  split at hfull
  · simp at hfull
  rename_i hgood
  simp only [Prod.mk.injEq, Except.ok.injEq] at hfull
  obtain ⟨rfl, rfl⟩ := hfull
  simp only [Bool.or_eq_true, Bool.not_eq_true', not_or, Bool.not_eq_true,
    Bool.not_eq_false] at hgood
  have hs6 : s6 = (read_classes ps [] (ws.2.seekg_cur 8)).2 := by rw [hcs]
  have hms : (read_classes ps [] (ws.2.seekg_cur 8)).1 = Except.ok ms := by rw [hcs]
  have hsmall := read_classes_small _ _ _ _ _ hcs
  -- the run on the prefix
  unfold read_varnames
  dsimp only
  rw [if_neg hN0, if_neg hN4, ek]
  set rt := read_classnames N.toNat (uninit junk 8) (t.seekg_cur 8) with hrt
  set wt := (rt.2.seekg_cur 8).read (zeros (4 * N.toNat)) (4 * N.toNat) with hwt
  set pt := rt.1.zip (words wt.1 N.toNat) with hpt
  -- the streams of both runs, step by step
  have q1 := h.skip_sim 8
  obtain ⟨q2, e2⟩ := read_classnames_sim n N.toNat (uninit junk 8) (uninit junk 8) _ _ q1
    (uninit_length junk 8) (uninit_length junk 8)
  have q3 := q2.skip_sim 8
  obtain ⟨q4, e4⟩ := q3.read_sim (zeros (4 * N.toNat)) (zeros (4 * N.toNat)) (4 * N.toNat)
  have q5 := q4.skip_sim 8
  -- the stream did not fail
  have f6 : s6.failbit = false := Stream.failbit_of_good hgood.2
  rw [hs6] at f6
  have f5 := failbit_false_of_read_classes f6
  have f4 := Stream.failbit_false_of_seekg_cur f5
  have f3 := Stream.failbit_false_of_read f4
  have f2 := Stream.failbit_false_of_seekg_cur f3
  -- the counts that the run on the prefix reads
  have hbytes : ∀ i, wt.1.getD i 0 = ws.1.getD i 0 ∨ wt.1.getD i 0 = 0 :=
    fun i => q3.read_zeros (4 * N.toNat) f4 i
  have hcount : ∀ k, k < N.toNat →
      0 ≤ word_at wt.1 k ∧ word_at wt.1 k * 4 < 2147483648 := by
    intro k hk
    obtain ⟨c0, c1⟩ : 0 ≤ word_at wt.1 k ∧ word_at wt.1 k ≤ word_at ws.1 k :=
      word_at_le_of_bytes wt.1 ws.1 k hbytes (hneg k hk)
    refine ⟨c0, ?_⟩
    obtain ⟨p, hp, hp2⟩ : ∃ p ∈ ps, p.2 = word_at ws.1 k :=
      zip_snd_mem rs.1 (words ws.1 N.toNat)
        (by rw [read_classnames_length, length_words]) _
        (word_at_mem_words ws.1 N.toNat k hk)
    have hp3 : p.2 * 4 < 2147483648 := hsmall p hp
    rw [hp2] at hp3
    omega
  have hnegt : (words wt.1 N.toNat).any negative = false := by
    rw [any_negative_words_false]
    exact fun k hk => (hcount k hk).1
  obtain ⟨mt, hmt⟩ := read_classes_total pt [] (wt.2.seekg_cur 8)
    (by
      intro p hp
      obtain ⟨k, hk, hv⟩ := mem_words _ _ _ (List.of_mem_zip hp).2
      rw [hv]
      exact (hcount k hk).2)
  have hct : read_classes pt [] (wt.2.seekg_cur 8)
      = (.ok mt, (read_classes pt [] (wt.2.seekg_cur 8)).2) := Prod.ext hmt rfl
  have het := read_classes_eofbit pt [] (wt.2.seekg_cur 8) (Stream.seekg_cur_eofbit _ _)
  rw [hnegt]
  simp only [Bool.false_eq_true, if_false]
  rw [hct]
  dsimp only
  cases g6 : (read_classes pt [] (wt.2.seekg_cur 8)).2.failbit
  · -- the prefix was long enough: both runs read the same bytes
    left
    have g5 := failbit_false_of_read_classes g6
    have g4 := Stream.failbit_false_of_seekg_cur g5
    have g3 := Stream.failbit_false_of_read g4
    have g2 := Stream.failbit_false_of_seekg_cur g3
    have en : rt.1 = rs.1 := e2 f2 g2
    have er : wt.1 = ws.1 := e4 f4 g4 (zeros_length _) (zeros_length _)
    have epp : pt = ps := by rw [hpt, hps, en, er]
    obtain ⟨q6, e6⟩ := read_classes_sim n ps [] [] _ _ q5
    rw [← epp] at e6
    have em := e6 rfl (by rw [epp]; exact f6) g6
    rw [hmt, epp, hms] at em
    have hg : (read_classes pt [] (wt.2.seekg_cur 8)).2.good = true := by
      rw [Stream.good_iff]; exact ⟨het, g6⟩
    refine ⟨(read_classes pt [] (wt.2.seekg_cur 8)).2, ?_, ?_, hgood.2, hg⟩
    · simp only [het, hg, Bool.not_true, Bool.or_self, Bool.false_eq_true, if_false,
        Except.ok.inj em]
    · rw [hs6, epp]; exact q6
  · right
    refine ⟨(read_classes pt [] (wt.2.seekg_cur 8)).2, ?_⟩
    simp only [Stream.good, g6, Bool.not_true, Bool.and_false, Bool.not_false, Bool.or_true,
      if_true]

/-! ## The loop of `load` on a stream and on one of its prefixes -/

theorem failbit_false_of_read_vars {s : Stream} {d : List NexusData} {ts : Int} {t : F32}
    {mp : Int} {c i : List Byte} {v : List (List Byte)}
    (h : (read_vars s d ts t mp c i v).2.failbit = false) : s.failbit = false := by
  cases hf : s.failbit
  · rfl
  · rw [read_vars_failbit s d ts t mp c i v hf] at h; exact absurd h (by simp)

theorem failbit_false_of_read_items {junk : Nat → Byte} {ts : Int} {t : F32} {mp : Int}
    {c : List Byte} {n : Nat} {m : VarMap} {d : List NexusData} {s : Stream}
    (h : (read_items junk ts t mp c n m d s).2.2.failbit = false) : s.failbit = false := by
  cases hf : s.failbit
  · rfl
  · rw [read_items_failbit junk ts t mp c n m d s hf] at h; exact absurd h (by simp)

theorem read_vars_sim (n : Nat) (s t : Stream) (ds dt : List NexusData) (ts : Int) (tm : F32)
    (mp : Int) (c is it : List Byte) (v : List (List Byte)) (h : Stream.Sim n s t) :
    Stream.Sim n (read_vars s ds ts tm mp c is v).2 (read_vars t dt ts tm mp c it v).2
      ∧ (ds = dt → is = it → (read_vars s ds ts tm mp c is v).2.failbit = false →
          (read_vars t dt ts tm mp c it v).2.failbit = false →
          (read_vars t dt ts tm mp c it v).1 = (read_vars s ds ts tm mp c is v).1) := by
  obtain ⟨h1, e1⟩ := h.read_sim (zeros (v.length * 4)) (zeros (v.length * 4)) (v.length * 4)
  simp only [read_vars]
  refine ⟨h1, ?_⟩
  intro hd hi hs ht
  rw [hd, hi, e1 hs ht (zeros_length _) (zeros_length _)]

/-- The variable map after the entities of a block does not depend on the
stream. -/
theorem read_items_fst (junk : Nat → Byte) (ts : Int) (tm : F32) (mp : Int) (c : List Byte)
    (cnt : Nat) :
    ∀ (m : VarMap) (ds dt : List NexusData) (s t : Stream),
      (read_items junk ts tm mp c cnt m dt t).1 = (read_items junk ts tm mp c cnt m ds s).1 := by
  induction cnt with
  | zero => intro m ds dt s t; rfl
  | succ cnt ih =>
    intro m ds dt s t
    simp only [read_items]
    exact ih _ _ _ _ _

theorem read_items_sim (junk : Nat → Byte) (n : Nat) (ts : Int) (tm : F32) (mp : Int)
    (c : List Byte) (cnt : Nat) :
    ∀ (m : VarMap) (ds dt : List NexusData) (s t : Stream), Stream.Sim n s t →
      Stream.Sim n (read_items junk ts tm mp c cnt m ds s).2.2
          (read_items junk ts tm mp c cnt m dt t).2.2
        ∧ (ds = dt → (read_items junk ts tm mp c cnt m ds s).2.2.failbit = false →
            (read_items junk ts tm mp c cnt m dt t).2.2.failbit = false →
            (read_items junk ts tm mp c cnt m dt t).2.1
              = (read_items junk ts tm mp c cnt m ds s).2.1) := by
  induction cnt with
  | zero => intro m ds dt s t h; exact ⟨h, fun hd _ _ => hd.symm⟩
  | succ cnt ih =>
    intro m ds dt s t h
    obtain ⟨h2, e2⟩ := (h.skip_sim 8).read_sim (uninit junk 8) (uninit junk 8) 8
    have h3 := h2.skip_sim 64
    obtain ⟨h4, e4⟩ := read_vars_sim n _ _ ds dt ts tm mp c
      ((s.seekg_cur 8).read (uninit junk 8) 8).1 ((t.seekg_cur 8).read (uninit junk 8) 8).1
      ((m.touch c).get c) h3
    obtain ⟨h5, e5⟩ := ih (m.touch c)
      (read_vars (((s.seekg_cur 8).read (uninit junk 8) 8).2.seekg_cur 64) ds ts tm mp c
        ((s.seekg_cur 8).read (uninit junk 8) 8).1 ((m.touch c).get c)).1
      (read_vars (((t.seekg_cur 8).read (uninit junk 8) 8).2.seekg_cur 64) dt ts tm mp c
        ((t.seekg_cur 8).read (uninit junk 8) 8).1 ((m.touch c).get c)).1 _ _ h4
    simp only [read_items]
    refine ⟨h5, ?_⟩
    intro hd hs ht
    have hs4 := failbit_false_of_read_items hs
    have ht4 := failbit_false_of_read_items ht
    have hs2 := Stream.failbit_false_of_seekg_cur (failbit_false_of_read_vars hs4)
    have ht2 := Stream.failbit_false_of_seekg_cur (failbit_false_of_read_vars ht4)
    have en := e2 hs2 ht2 (uninit_length _ _) (uninit_length _ _)
    have ed := e4 hd en.symm hs4 ht4
    exact e5 ed.symm hs ht

theorem read_block_failbit (junk : Nat → Byte) (c : List Byte) (m : VarMap)
    (d : List NexusData) (s : Stream) (h : s.failbit = true) :
    (read_block junk c m d s).2.failbit = true := by
  have h1 := Stream.read_failbit _ (zeros 20) 20 (Stream.seekg_cur_failbit s 8 h)
  unfold read_block
  dsimp only
  split
  · exact h1
  · split
    · exact Stream.seekg_cur_failbit _ _ (read_items_failbit _ _ _ _ _ _ _ _ _ h1)
    · exact h1

/-- On a failed stream `read_block` throws `unexpected_eof`. -/
theorem read_block_failed (junk : Nat → Byte) (c : List Byte) (m : VarMap)
    (d : List NexusData) (s : Stream) (h : s.failbit = true) :
    read_block junk c m d s
      = (.error (.unexpected_eof ""), ((s.seekg_cur 8).read (zeros 20) 20).2) := by
  have h1 := Stream.read_failbit _ (zeros 20) 20 (Stream.seekg_cur_failbit s 8 h)
  unfold read_block
  simp only [Stream.not_good_of_failbit h1, Bool.not_false, if_true]

/-- A class name that a `read` could not complete is not the sentinel, when
the last byte of the uninitialised buffer is not a space. -/
theorem read_str_ne_stop (junk : Nat → Byte) (s : Stream) (hj : junk 7 ≠ 32)
    (h : (read_str junk 8 s).2.failbit = true) : (read_str junk 8 s).1 ≠ stop := by
  have key : ∀ got : List Byte, got.length < 8 →
      got ++ (uninit junk 8).drop got.length ≠ stop := by
    intro got hg hc
    have h7 := congrArg (fun l => l.getD 7 0) hc
    simp only [List.getD_eq_getElem?_getD] at h7
    rw [List.getElem?_append_right (by omega), List.getElem?_drop] at h7
    simp only [uninit, stop] at h7
    rw [show got.length + (7 - got.length) = 7 by omega] at h7
    simp at h7
    exact hj h7
  unfold read_str at h ⊢
  unfold Stream.read at h ⊢
  dsimp only at h ⊢
  split
  · rename_i hg
    rw [if_pos hg] at h
    split
    · rename_i hl
      rw [if_pos hl] at h
      simp only at h
      rw [Stream.failbit_of_good hg] at h
      exact absurd h (by simp)
    · rename_i hl
      apply key
      have : ((s.data.drop s.pos).take 8).length ≤ 8 := by
        rw [List.length_take]; omega
      omega
  · exact key [] (by simp)

/-- On a failed stream the loop of `load` throws `unexpected_eof`, when the
last byte of the uninitialised buffer is not a space. -/
theorem load_loop_failed (junk : Nat → Byte) (fuel : Nat) (m : VarMap) (d : List NexusData)
    (s : Stream) (hj : junk 7 ≠ 32) (h : s.failbit = true) :
    ∃ s', load_loop junk (fuel + 1) m d s = some (.error (.unexpected_eof ""), m, s') := by
  have h1 : (read_str junk 8 s).2.failbit = true := Stream.read_failbit _ _ _ h
  have hne := read_str_ne_stop junk s hj h1
  rw [load_loop]
  dsimp only
  rw [if_neg hne, read_block_failed junk _ m d _ h1]
  exact ⟨_, rfl⟩

/-- `read_block` on a stream and on a prefix of it, when the block is decoded
on the stream and leaves it not failed: on the prefix the same block is
decoded, or the stream of the prefix ends up failed, or `unexpected_eof` is
thrown. -/
theorem read_block_sim (junk : Nat → Byte) (n : Nat) (c : List Byte) (m m1 : VarMap)
    (d d1 : List NexusData) (s t s1 : Stream) (h : Stream.Sim n s t)
    (hfull : read_block junk c m d s = (.ok (m1, d1), s1)) (hs1 : s1.failbit = false) :
    (∃ t1, read_block junk c m d t = (.ok (m1, d1), t1) ∧ Stream.Sim n s1 t1
        ∧ t1.failbit = false)
      ∨ (∃ m' d' t1, read_block junk c m d t = (.ok (m', d'), t1) ∧ t1.failbit = true)
      ∨ ∃ t1, read_block junk c m d t = (.error (.unexpected_eof ""), t1) := by
  obtain ⟨q1, e1⟩ := (h.skip_sim 8).read_sim (zeros 20) (zeros 20) 20
  unfold read_block at hfull ⊢
  dsimp only at hfull ⊢
  set rs := (s.seekg_cur 8).read (zeros 20) 20 with hrs
  set rt := (t.seekg_cur 8).read (zeros 20) 20 with hrt
  split at hfull
  · simp at hfull
  rename_i hsg
  simp only [Bool.not_eq_true, Bool.not_eq_false, Bool.not_eq_true'] at hsg
  cases htg : rt.2.good
  · right; right
    exact ⟨rt.2, by simp⟩
  · have eb : rt.1 = rs.1 :=
      e1 (Stream.failbit_of_good hsg) (Stream.failbit_of_good htg) (zeros_length _)
        (zeros_length _)
    rw [eb]
    simp only [Bool.not_true, Bool.false_eq_true, if_false]
    split at hfull
    · rename_i ts ni mp h0 h2 h4
      simp only [Prod.mk.injEq, Except.ok.injEq] at hfull
      obtain ⟨⟨rfl, rfl⟩, rfl⟩ := hfull
      obtain ⟨q2, e2⟩ := read_items_sim junk n ts (interpret_float (word_at rs.1 1)) mp c
        ni.toNat m d d rs.2 rt.2 q1
      have q3 := q2.skip_sim 8
      cases ht1 : ((read_items junk ts (interpret_float (word_at rs.1 1)) mp c ni.toNat m d
          rt.2).2.2.seekg_cur 8).failbit
      · left
        refine ⟨_, ?_, q3, ht1⟩
        have ed := e2 rfl (Stream.failbit_false_of_seekg_cur hs1)
          (Stream.failbit_false_of_seekg_cur ht1)
        rw [ed, read_items_fst junk ts (interpret_float (word_at rs.1 1)) mp c ni.toNat m d d
          rs.2 rt.2]
      · right; left
        exact ⟨_, _, _, rfl, ht1⟩
    · simp at hfull

/-- The loop of `load` on a stream and on a prefix of it that ends before
the sentinel at which the loop ends on the stream: on the prefix the loop
throws `unexpected_eof`. -/
theorem load_loop_sim (junk : Nat → Byte) (n : Nat) (hj : junk 7 ≠ 32) (fuel : Nat) :
    ∀ (m m' : VarMap) (d d' : List NexusData) (s t s' : Stream), Stream.Sim n s t →
      s.failbit = false → t.failbit = false →
      load_loop junk fuel m d s = some (.ok d', m', s') → n + 8 ≤ s'.pos →
      ∃ mt t', load_loop junk fuel m d t = some (.error (.unexpected_eof ""), mt, t') := by
  induction fuel with
  | zero => intro m m' d d' s t s' _ _ _ hfull; simp [load_loop] at hfull
  | succ fuel ih =>
    intro m m' d d' s t s' h hs ht hfull hn
    obtain ⟨hsg, htg, hp⟩ := h.sync hs ht
    obtain ⟨q0, e0⟩ := h.read_sim (uninit junk 8) (uninit junk 8) 8
    rw [load_loop] at hfull ⊢
    dsimp only at hfull ⊢
    -- on the prefix, a class name that is cut off leads to `unexpected_eof`
    have hcut : (read_str junk 8 t).2.failbit = true →
        ∃ mt t', (if (read_str junk 8 t).1 = stop then
              some (Except.ok d, m, (read_str junk 8 t).2)
            else
              match read_block junk (read_str junk 8 t).1 m d (read_str junk 8 t).2 with
              | (.error e, stream) => some (.error e, m, stream)
              | (.ok (varnames, data), stream) => load_loop junk fuel varnames data stream)
          = some (.error (.unexpected_eof ""), mt, t') := by
      intro hf
      rw [if_neg (read_str_ne_stop junk t hj hf), read_block_failed junk _ m d _ hf]
      exact ⟨_, _, rfl⟩
    split at hfull
    · -- the sentinel
      rename_i hstop
      simp only [Option.some.injEq, Prod.mk.injEq] at hfull
      obtain ⟨-, -, rfl⟩ := hfull
      apply hcut
      have hs0 : (read_str junk 8 s).2.failbit = false := by
        cases hc : (read_str junk 8 s).2.failbit
        · rfl
        · exact absurd hstop (read_str_ne_stop junk s hj hc)
      obtain ⟨-, hle⟩ := Stream.read_failbit_inv s _ 8 hs0
      have hpos : (read_str junk 8 s).2.pos = s.pos + 8 := by
        unfold read_str
        rw [Stream.read_ok s _ 8 hsg hle]
      apply Stream.read_short
      rw [h.1, List.length_take, hp]
      omega
    · rename_i hstop
      cases ht0 : (read_str junk 8 t).2.failbit
      · split at hfull
        · simp at hfull
        · rename_i m1 d1 s1 hb
          -- the stream is not failed after the block
          have hs1 : s1.failbit = false := by
            cases hc : s1.failbit
            · rfl
            · cases fuel with
              | zero => simp [load_loop] at hfull
              | succ fuel =>
                obtain ⟨x, hx⟩ := load_loop_failed junk fuel m1 d1 s1 hj hc
                rw [hx] at hfull
                simp at hfull
          have hs0 : (read_str junk 8 s).2.failbit = false := by
            cases hc : (read_str junk 8 s).2.failbit
            · rfl
            · have := read_block_failbit junk (read_str junk 8 s).1 m d _ hc
              rw [hb] at this
              rw [hs1] at this
              exact absurd this (by simp)
          have en : (read_str junk 8 t).1 = (read_str junk 8 s).1 :=
            e0 hs0 ht0 (uninit_length _ _) (uninit_length _ _)
          rw [en, if_neg hstop]
          rcases read_block_sim junk n _ m m1 d d1 _ _ s1 q0 hb hs1 with
            ⟨t1, hb1, q1, ht1⟩ | ⟨mx, dx, t1, hb1, ht1⟩ | ⟨t1, hb1⟩
          · unfold read_str at hb1 ⊢
            rw [hb1]
            exact ih _ _ _ _ _ _ _ q1 hs1 ht1 hfull hn
          · unfold read_str at hb1 ⊢
            rw [hb1]
            cases fuel with
            | zero => simp [load_loop] at hfull
            | succ fuel =>
              obtain ⟨x, hx⟩ := load_loop_failed junk fuel mx dx t1 hj ht1
              exact ⟨_, _, hx⟩
          · unfold read_str at hb1 ⊢
            rw [hb1]
            exact ⟨_, _, rfl⟩
      · exact hcut ht0

theorem take_drop_take (l : List Byte) (n p k : Nat) (h : p + k ≤ n) :
    ((l.take n).drop p).take k = (l.drop p).take k := by
  rw [List.drop_take, List.take_take, Nat.min_eq_left (by omega)]

/-- The body of `load` on a prefix that ends before the sentinel at which
`load` ends on the whole stream. -/
theorem load_body_truncated {U : Type} (mk_unit : List Byte → Option U) (junk : Nat → Byte)
    (s sb : Stream) (plt : NexusPlot U) (n : Nat) (hjunk : junk 7 ≠ 32)
    (hfull : load_body mk_unit junk s = (.ok plt, sb)) (hn : n + 8 ≤ sb.pos) :
    (16 ≤ n → ∃ what,
        (load_body mk_unit junk { s with data := s.data.take n }).1
          = .error (.unexpected_eof what))
      ∧ (n < 16 →
          (load_body mk_unit junk { s with data := s.data.take n }).1
            = .error (.bad_header "Could not verify file type")) := by
  -- the run on the whole stream
  unfold load_body at hfull
  split at hfull
  · simp at hfull
  rename_i hdr s1 hh
  split at hfull
  · simp at hfull
  rename_i vm s2 hv
  split at hfull
  rotate_left
  · simp at hfull
  · simp at hfull
  rename_i data vm' s3 hl
  simp only [Prod.mk.injEq, Except.ok.injEq] at hfull
  obtain ⟨-, rfl⟩ := hfull
  obtain ⟨rfl, hf, hlen⟩ := read_header_snd mk_unit junk s s1 hdr hh
  have hfst := read_header_fst mk_unit junk s
  rw [hh] at hfst
  -- the prefix
  set t : Stream := { s with data := s.data.take n } with ht
  have htd : t.data = s.data.take n := rfl
  have htf : t.failbit = false := hf
  have htl : t.data.length = min n s.data.length := by rw [htd, List.length_take]
  constructor
  swap
  · intro h16
    apply congrArg Prod.fst (load_body_header_error mk_unit junk t _ _)
    rw [read_header_fst, if_neg]
    intro hc
    omega
  intro h16
  dsimp only at hfst
  split at hfst
  rotate_left
  · simp at hfst
  rename_i hsig
  rw [if_pos (by omega)] at hfst
  have hsigt : t.failbit = false ∧ 16 ≤ t.data.length ∧ (t.data.drop 4).take 12 = th0 := by
    refine ⟨htf, by omega, ?_⟩
    rw [htd, take_drop_take _ _ _ _ (by omega)]
    exact hsig.2.2
  by_cases h46 : 46 ≤ n
  swap
  · refine ⟨_, congrArg Prod.fst (load_body_header_error mk_unit junk t
      (.unexpected_eof "File has no content") ?_)⟩
    rw [read_header_fst, if_pos hsigt, if_neg (by omega)]
  split at hfst
  · simp at hfst
  rename_i u hu
  have hut : mk_unit ((t.data.drop 40).take 6) = some u := by
    rw [htd, take_drop_take _ _ _ _ (by omega)]
    exact hu
  by_cases h872 : 872 ≤ n
  swap
  · refine ⟨_, congrArg Prod.fst (load_body_header_error mk_unit junk t
      (.unexpected_eof "") ?_)⟩
    have h46t : 46 ≤ t.data.length := by
      rw [htl]
      omega
    have h872t : ¬ 872 ≤ t.data.length := by
      rw [htl]
      omega
    rw [read_header_fst, if_pos hsigt, if_pos h46t]
    simp only [hut]
    rw [if_neg h872t]
  split at hfst
  · simp at hfst
  rename_i hneg
  have hraw : (t.data.drop 840).take 32 = (s.data.drop 840).take 32 := by
    rw [htd, take_drop_take _ _ _ _ (by omega)]
  have hht := read_header_complete mk_unit junk t u htf (by omega) hsigt.2.2 hut
  rw [hraw, if_neg hneg] at hht
  have hhdr := Except.ok.inj hfst
  rw [← hhdr] at hht
  -- the catalog
  have q1 : Stream.Sim n (s.moved 872) (t.moved 872) :=
    Stream.Sim.of_good rfl rfl (Stream.moved_good _ _ hf) (Stream.moved_good _ _ htf) rfl
  unfold load_body
  rw [hht]
  dsimp only
  rcases read_varnames_sim junk n _ _ s2 _ vm q1 hv with ⟨t2, hvt, q2, hs2, ht2⟩ | ⟨t2, hvt⟩
  swap
  · rw [hvt]
    exact ⟨_, rfl⟩
  rw [hvt]
  dsimp only
  -- the data blocks
  obtain ⟨mt, t3, hlt⟩ := load_loop_sim junk n hjunk _ vm vm' [] data s2 t2 s3 q2
    (Stream.failbit_of_good hs2) (Stream.failbit_of_good ht2) hl hn
  obtain ⟨r, hr⟩ := load_loop_fuel junk (t2.data.length + 1) vm [] t2 (by omega)
  have hle : t2.data.length + 1 ≤ s2.data.length + 1 := by
    rw [q2.1, List.length_take]
    omega
  have := load_loop_le junk _ _ hle vm [] t2 r hr
  rw [hlt] at this
  rw [hr, ← Option.some.inj this]
  exact ⟨_, rfl⟩

/-- When `load` succeeds on a stream, then on every prefix of the stream that
ends before the first byte of the sentinel and has at least 16 bytes, `load`
throws `unexpected_eof`, and on the prefixes of fewer than 16 bytes it throws
`bad_header`, under two conditions: the exception mask is empty, and the byte
at index 7 of the uninitialised memory is not a space, so that a class name
that was not read completely is not the sentinel. -/
theorem load_truncated {U : Type} (mk_unit : List Byte → Option U) (junk : Nat → Byte)
    (s s' : Stream) (plt : NexusPlot U) (n : Nat)
    (hmask : s.exceptions = (false, false)) (hjunk : junk 7 ≠ 32)
    (hfull : load mk_unit junk s = (.ok plt, s')) (hn : n + 8 ≤ s'.pos) :
    (16 ≤ n → ∃ what,
        (load mk_unit junk { s with data := s.data.take n }).1
          = .error (.unexpected_eof what))
      ∧ (n < 16 →
          (load mk_unit junk { s with data := s.data.take n }).1
            = .error (.bad_header "Could not verify file type")) := by
  have hs0 : (s.set_exceptions (false, false)).2 = s := by
    cases s
    simp only [Stream.set_exceptions] at hmask ⊢
    simp only [Stream.mk.injEq, true_and]
    exact hmask.symm
  have hb : ∃ sb, load_body mk_unit junk s = (.ok plt, sb) ∧ s'.pos = sb.pos := by
    unfold load at hfull
    dsimp only at hfull
    rw [hs0] at hfull
    split at hfull
    · simp at hfull
    · simp only [Prod.mk.injEq] at hfull
      refine ⟨(load_body mk_unit junk s).2, Prod.ext hfull.1 rfl, ?_⟩
      rw [← hfull.2]
      rfl
  obtain ⟨sb, hbody, hpos⟩ := hb
  rw [hpos] at hn
  have ht := load_fst_of_mask mk_unit junk { s with data := s.data.take n } hmask
  rw [ht]
  exact load_body_truncated mk_unit junk s sb plt n hjunk hbody hn

/-! ## Blocks of a class that the catalog does not have -/

theorem VarMap.get_of_not_mem_keys (m : VarMap) (k : List Byte) (h : k ∉ m.keys) :
    m.get k = [] := by
  induction m with
  | nil => rfl
  | cons p m ih =>
    obtain ⟨k', v'⟩ := p
    simp only [VarMap.keys, List.map_cons, List.mem_cons, not_or] at h
    simp only [VarMap.get]
    rw [if_neg (fun e => h.1 e.symm)]
    exact ih h.2

theorem BlockLayout.records_nil (b : BlockLayout) : b.records [] = [] := by
  simp [BlockLayout.records]

theorem records_of_append (m : VarMap) (xs ys : List BlockLayout) :
    records_of m (xs ++ ys) = records_of m xs ++ records_of m ys := by
  simp [records_of]

theorem records_of_cons (m : VarMap) (b : BlockLayout) (bs : List BlockLayout) :
    records_of m (b :: bs) = b.records (m.get b.classname) ++ records_of m bs := by
  simp [records_of]

/-- The result of `load` on a well-formed plot stream, for a catalog section
whose class names may repeat. -/
theorem load_fst_well_formed {U : Type} (mk_unit : List Byte → Option U) (junk : Nat → Byte)
    (s : Stream) (u : U) (header skip1 skip2 skip3 rest : List Byte) (cs : List ClassLayout)
    (blocks : List BlockLayout)
    (hfail : s.failbit = false)
    (hdata : s.data = plot_stream header skip1 skip2 skip3 cs blocks ++ rest)
    (hlen : header.length = 872)
    (hsig : (header.drop 4).take 12 = th0)
    (hunit : mk_unit ((header.drop 40).take 6) = some u)
    (hcounters : ∀ k, k < 8 → 0 ≤ to_int32 (be32 (header.drop (840 + 4 * k))))
    (hnum : to_int32 (be32 (header.drop 840)) = (cs.length : Int))
    (h1 : skip1.length = 8) (h2 : skip2.length = 8) (h3 : skip3.length = 8)
    (hcs : ∀ c ∈ cs, c.complete)
    (hn : cs.length < 536870912) (hv : ∀ c ∈ cs, c.vars.length < 536870912)
    (hblocks : ∀ b ∈ blocks, b.complete ((catalog_of cs).get b.classname).length) :
    (load mk_unit junk s).1
      = .ok { header :=
                { unit_system := u,
                  num_classes := (cs.length : Int),
                  counter1 := to_int32 (be32 (header.drop 844)),
                  counter2 := to_int32 (be32 (header.drop 848)),
                  counter3 := to_int32 (be32 (header.drop 852)),
                  counter4 := to_int32 (be32 (header.drop 856)),
                  counter5 := to_int32 (be32 (header.drop 860)),
                  counter6 := to_int32 (be32 (header.drop 864)),
                  counter7 := to_int32 (be32 (header.drop 868)) },
              data := records_of (catalog_of cs) blocks } := by
  have hb := load_body_well_formed mk_unit junk (s.set_exceptions (false, false)).2 u header
    skip1 skip2 skip3 rest cs blocks hfail hdata hlen hsig hunit hcounters hnum h1 h2 h3 hcs
    hn hv hblocks
  exact load_fst_of_good mk_unit junk s _ _ hb (Stream.moved_good _ _ hfail)

/-- C11: on a stream that is well formed but for one complete data block
whose class name is not a key of the catalog (and is not the sentinel),
`load` succeeds; the block gives no record, whatever the number of its
entities, each of which takes 80 bytes (8 skipped, the name, 64 skipped, no
value); and the result is the result of `load` on the stream without that
block. Stated for fewer than `2^29` classes and variables in a class. -/
theorem load_unknown_class {U : Type} (mk_unit : List Byte → Option U) (junk : Nat → Byte)
    (s t : Stream) (u : U) (header skip1 skip2 skip3 rest : List Byte) (cs : List ClassLayout)
    (pre post : List BlockLayout) (b : BlockLayout)
    (hs : s.failbit = false) (ht : t.failbit = false)
    (hsdata : s.data = plot_stream header skip1 skip2 skip3 cs (pre ++ b :: post) ++ rest)
    (htdata : t.data = plot_stream header skip1 skip2 skip3 cs (pre ++ post) ++ rest)
    (hlen : header.length = 872)
    (hsig : (header.drop 4).take 12 = th0)
    (hunit : mk_unit ((header.drop 40).take 6) = some u)
    (hcounters : ∀ k, k < 8 → 0 ≤ to_int32 (be32 (header.drop (840 + 4 * k))))
    (hnum : to_int32 (be32 (header.drop 840)) = (cs.length : Int))
    (h1 : skip1.length = 8) (h2 : skip2.length = 8) (h3 : skip3.length = 8)
    (hcs : ∀ c ∈ cs, c.complete)
    (hn : cs.length < 536870912) (hv : ∀ c ∈ cs, c.vars.length < 536870912)
    (hblocks : ∀ b' ∈ pre ++ post, b'.complete ((catalog_of cs).get b'.classname).length)
    (hkey : b.classname ∉ (catalog_of cs).keys) (hb : b.complete 0) :
    (load mk_unit junk s).1
        = .ok { header :=
                  { unit_system := u,
                    num_classes := (cs.length : Int),
                    counter1 := to_int32 (be32 (header.drop 844)),
                    counter2 := to_int32 (be32 (header.drop 848)),
                    counter3 := to_int32 (be32 (header.drop 852)),
                    counter4 := to_int32 (be32 (header.drop 856)),
                    counter5 := to_int32 (be32 (header.drop 860)),
                    counter6 := to_int32 (be32 (header.drop 864)),
                    counter7 := to_int32 (be32 (header.drop 868)) },
                data := records_of (catalog_of cs) (pre ++ post) }
      ∧ (load mk_unit junk s).1 = (load mk_unit junk t).1
      ∧ ∀ e ∈ b.entities, e.bytes.length = 80 := by
  have hget : (catalog_of cs).get b.classname = [] :=
    VarMap.get_of_not_mem_keys _ _ hkey
  have hall : ∀ b' ∈ pre ++ b :: post,
      b'.complete ((catalog_of cs).get b'.classname).length := by
    intro b' hb'
    rcases List.mem_append.mp hb' with h | h
    · exact hblocks b' (List.mem_append_left _ h)
    · rcases List.mem_cons.mp h with h | h
      · rw [h, hget]
        exact hb
      · exact hblocks b' (List.mem_append_right _ h)
  have hS := load_fst_well_formed mk_unit junk s u header skip1 skip2 skip3 rest cs
    (pre ++ b :: post) hs hsdata hlen hsig hunit hcounters hnum h1 h2 h3 hcs hn hv hall
  have hT := load_fst_well_formed mk_unit junk t u header skip1 skip2 skip3 rest cs
    (pre ++ post) ht htdata hlen hsig hunit hcounters hnum h1 h2 h3 hcs hn hv hblocks
  have hrec : records_of (catalog_of cs) (pre ++ b :: post)
      = records_of (catalog_of cs) (pre ++ post) := by
    rw [records_of_append, records_of_cons, hget, BlockLayout.records_nil, List.nil_append,
      records_of_append]
  rw [hrec] at hS
  refine ⟨hS, hS.trans hT.symm, ?_⟩
  intro e he
  obtain ⟨e1, e2, e3, e4, -⟩ := hb.2.2.2.2.2.2.2.2.2.2.2.2 e he
  rw [entity_bytes_length, e1, e2, e3, List.length_eq_zero.mp e4]
  rfl

/-- Witness of C11: the example stream with a block of the class `FIELD`
before its block of the class `WELL` gives the records of the example
stream. -/
theorem load_unknown_class_witness :
    (load metric_only zero_junk (Stream.fresh unknown_class_stream true)).1
      = (load metric_only zero_junk (Stream.fresh example_stream true)).1 :=
  (load_unknown_class metric_only zero_junk (Stream.fresh unknown_class_stream true)
    (Stream.fresh example_stream true) [77, 69, 84, 82, 73, 67] (example_header 1)
    (zeros 8) (zeros 8) (zeros 8) [] [example_class] [] [example_block] unknown_block
    rfl rfl (by simp [Stream.fresh, unknown_class_stream])
    (by simp [Stream.fresh, example_stream]) (by decide) (by decide) (by decide) (by decide)
    (by decide) (by decide) (by decide) (by decide) (by decide) (by decide) (by decide)
    (by decide) (by decide) (by decide)).2.1

/-! ## A stream that ends inside a values array -/

theorem load_loop_unique (junk : Nat → Byte) (f1 f2 : Nat) (m : VarMap) (d : List NexusData)
    (s : Stream) (r1 r2 : Except Error (List NexusData) × VarMap × Stream)
    (h1 : load_loop junk f1 m d s = some r1) (h2 : load_loop junk f2 m d s = some r2) :
    r1 = r2 := by
  rcases Nat.le_total f1 f2 with h | h
  · have := load_loop_le junk f1 f2 h m d s r1 h1
    rw [h2] at this
    exact (Option.some.inj this).symm
  · have := load_loop_le junk f2 f1 h m d s r2 h2
    rw [h1] at this
    exact Option.some.inj this

theorem Stream.Holds.length_eq {s : Stream} {p : Nat} {l : List Byte} (h : s.Holds p l) :
    s.data.length = p + l.length := by
  have := congrArg List.length h.2.2
  rw [List.length_drop] at this
  have := h.2.1
  omega

/-- On a stream that holds complete blocks, the loop of `load` decodes them
and goes on behind them with their records. -/
theorem load_loop_blocks (junk : Nat → Byte) (s : Stream) (blocks : List BlockLayout)
    (fuel : Nat) :
    ∀ (m : VarMap) (d : List NexusData) (p : Nat) (l : List Byte),
      (∀ b ∈ blocks, b.complete (m.get b.classname).length) →
      s.Holds p ((blocks.map (·.bytes)).flatten ++ l) →
      ∃ m', (∀ k, m'.get k = m.get k)
        ∧ load_loop junk (blocks.length + fuel) m d (s.moved p)
          = load_loop junk fuel m' (d ++ records_of m blocks)
              (s.moved (p + (blocks.map (·.bytes)).flatten.length)) := by
  induction blocks with
  | nil =>
    intro m d p l _ _
    refine ⟨m, fun _ => rfl, ?_⟩
    simp [records_of]
  | cons b bs ih =>
    intro m d p l hbs h
    have hb := hbs b (List.mem_cons_self _ _)
    rw [List.map_cons, List.flatten_cons, List.append_assoc] at h
    have ha := h.advance
    have hbytes : b.bytes ++ ((bs.map (·.bytes)).flatten ++ l)
        = b.classname ++ (b.body ++ ((bs.map (·.bytes)).flatten ++ l)) := by
      simp only [BlockLayout.bytes, List.append_assoc]
    rw [hbytes] at h
    have hr := h.read (uninit junk 8)
    have a1 := h.advance
    rw [hb.1, drop_uninit, List.append_nil] at hr
    rw [hb.1] at a1
    obtain ⟨m1, hrb, hm1⟩ := read_block_holds junk s b m d (p + 8) _ hb a1
    have hbs' : ∀ b' ∈ bs, b'.complete (m1.get b'.classname).length := by
      intro b' hb'
      rw [hm1]
      exact hbs b' (List.mem_cons_of_mem _ hb')
    have hl : p + b.bytes.length = p + 8 + b.body.length := by
      rw [block_bytes_length, hb.1]; omega
    rw [hl] at ha
    obtain ⟨m2, hm2, hl2⟩ := ih m1 (d ++ b.records (m.get b.classname)) _ l hbs' ha
    refine ⟨m2, fun k => by rw [hm2, hm1], ?_⟩
    rw [List.length_cons, show bs.length + 1 + fuel = (bs.length + fuel) + 1 by omega,
      load_loop]
    simp only [read_str, hr, hb.2.1, if_false, hrb]
    have hrec : records_of m1 bs = records_of m bs := by
      unfold records_of
      congr 1
      apply List.map_congr_left
      intro b' _
      rw [hm1]
    rw [hl2, hrec]
    simp only [records_of, List.map_cons, List.flatten_cons, List.append_assoc,
      List.length_append, block_bytes_length, hb.1, Nat.add_assoc]

theorem read_items_add (junk : Nat → Byte) (ts : Int) (t : F32) (mp : Int) (c : List Byte)
    (a b : Nat) :
    ∀ (m : VarMap) (d : List NexusData) (s : Stream),
      read_items junk ts t mp c (a + b) m d s
        = read_items junk ts t mp c b (read_items junk ts t mp c a m d s).1
            (read_items junk ts t mp c a m d s).2.1 (read_items junk ts t mp c a m d s).2.2 := by
  induction a with
  | zero =>
    intro m d s
    simp [read_items]
  | succ a ih =>
    intro m d s
    rw [show a + 1 + b = (a + b) + 1 by omega]
    simp only [read_items]
    rw [ih]

/-- Reading an entity whose values array is cut off leaves the stream
failed. -/
theorem read_items_short (junk : Nat → Byte) (s : Stream) (ts : Int) (t : F32) (mp : Int)
    (c : List Byte) (k : Nat) (m : VarMap) (d : List NexusData) (p : Nat) (e : EntityLayout)
    (tail : List Byte) (h : s.Holds p (e.skip1 ++ (e.name ++ (e.skip2 ++ tail))))
    (h1 : e.skip1.length = 8) (h2 : e.name.length = 8) (h3 : e.skip2.length = 64)
    (ht : tail.length < 4 * (m.get c).length) :
    (read_items junk ts t mp c (k + 1) m d (s.moved p)).2.2.failbit = true := by
  have hlen := h.length_eq
  simp only [List.length_append, h1, h2, h3] at hlen
  have s1 := h.seekg_cur
  have a1 := h.advance
  have s2 := a1.read (uninit junk 8)
  have a2 := a1.advance
  have s3 := a2.seekg_cur
  simp only [h1, h2, h3, drop_uninit, List.append_nil] at s1 s2 s3
  simp only [read_items, s1, s2, s3]
  apply read_items_failbit
  unfold read_vars
  dsimp only
  apply Stream.read_short
  rw [VarMap.get_touch, Stream.moved_data, Stream.moved_pos]
  omega

/-- On a failed stream the loop of `load` throws `unexpected_eof`, when the
uninitialised buffer of the class name does not hold the sentinel. -/
theorem load_loop_failed_uninit (junk : Nat → Byte) (fuel : Nat) (m : VarMap)
    (d : List NexusData) (s : Stream) (hj : uninit junk 8 ≠ stop) (h : s.failbit = true) :
    ∃ s', load_loop junk (fuel + 1) m d s = some (.error (.unexpected_eof ""), m, s') := by
  have h1 : (read_str junk 8 s).2.failbit = true := Stream.read_failbit _ _ _ h
  have hne : (read_str junk 8 s).1 ≠ stop := by
    unfold read_str
    rw [Stream.read_fst_of_failbit s _ 8 h]
    exact hj
  rw [load_loop]
  dsimp only
  rw [if_neg hne, read_block_failed junk _ m d _ h1]
  exact ⟨_, rfl⟩

/-- On a block one of whose entities is cut off in its values array,
`read_block` returns and leaves the stream failed. -/
theorem read_block_short (junk : Nat → Byte) (s : Stream) (b : BlockLayout)
    (e : EntityLayout) (tail : List Byte) (m : VarMap) (d : List NexusData) (p : Nat)
    (ni : Int)
    (hs : b.skip.length = 8) (h0 : b.word0.length = 4) (h1 : b.word1.length = 4)
    (h2 : b.word2.length = 4) (h3 : b.word3.length = 4) (h4 : b.word4.length = 4)
    (hts : b.timestep.isSome) (hmp : b.max_perfs.isSome)
    (hni : b.num_items = some ni) (hcount : b.entities.length < ni.toNat)
    (hes : ∀ e' ∈ b.entities, e'.complete (m.get b.classname).length)
    (e1 : e.skip1.length = 8) (e2 : e.name.length = 8) (e3 : e.skip2.length = 64)
    (ht : tail.length < 4 * (m.get b.classname).length)
    (h : s.Holds p (b.skip ++ ((b.word0 ++ (b.word1 ++ (b.word2 ++ (b.word3 ++ b.word4))))
      ++ ((b.entities.map (·.bytes)).flatten ++ (e.skip1 ++ (e.name ++ (e.skip2 ++ tail))))))) :
    ∃ m' d' s', read_block junk b.classname m d (s.moved p) = (.ok (m', d'), s')
      ∧ s'.failbit = true := by
  have s1 := h.seekg_cur
  have a1 := h.advance
  have s2 := a1.read (zeros 20)
  have a2 := a1.advance
  have hwl : (b.word0 ++ (b.word1 ++ (b.word2 ++ (b.word3 ++ b.word4)))).length = 20 := by
    simp only [List.length_append, h0, h1, h2, h3, h4]
  simp only [hs, hwl, drop_zeros, List.append_nil] at s1 a1 s2 a2
  have w0 : word_at (b.word0 ++ (b.word1 ++ (b.word2 ++ (b.word3 ++ b.word4)))) 0
      = to_int32 (be32 b.word0) := word_at_head _ _ h0
  have w1 : word_at (b.word0 ++ (b.word1 ++ (b.word2 ++ (b.word3 ++ b.word4)))) 1
      = to_int32 (be32 b.word1) := by
    rw [word_at_tail _ _ 0 h0, word_at_head _ _ h1]
  have w2 : word_at (b.word0 ++ (b.word1 ++ (b.word2 ++ (b.word3 ++ b.word4)))) 2
      = to_int32 (be32 b.word2) := by
    rw [word_at_tail _ _ 1 h0, word_at_tail _ _ 0 h1, word_at_head _ _ h2]
  have w4 : word_at (b.word0 ++ (b.word1 ++ (b.word2 ++ (b.word3 ++ b.word4)))) 4
      = to_int32 (be32 b.word4) := by
    rw [word_at_tail _ _ 3 h0, word_at_tail _ _ 2 h1, word_at_tail _ _ 1 h2,
      word_at_tail _ _ 0 h3, word_at_eq, Nat.mul_zero, List.drop_zero]
  obtain ⟨ts, hts'⟩ := Option.isSome_iff_exists.mp hts
  obtain ⟨mp, hmp'⟩ := Option.isSome_iff_exists.mp hmp
  unfold BlockLayout.timestep at hts'
  unfold BlockLayout.max_perfs at hmp'
  unfold BlockLayout.num_items at hni
  have hrb : read_block junk b.classname m d (s.moved p)
      = (.ok ((read_items junk ts ⟨be32 b.word1⟩ mp b.classname ni.toNat m d
                (s.moved (p + 8 + 20))).1,
              (read_items junk ts ⟨be32 b.word1⟩ mp b.classname ni.toNat m d
                (s.moved (p + 8 + 20))).2.1),
          (read_items junk ts ⟨be32 b.word1⟩ mp b.classname ni.toNat m d
                (s.moved (p + 8 + 20))).2.2.seekg_cur 8) := by
    unfold read_block
    simp only [s1, s2, Stream.moved_good _ _ h.1, Bool.not_true, Bool.false_eq_true, if_false,
      w0, w1, w2, w4, interpret_float_be32, hts', hni, hmp']
  refine ⟨_, _, _, hrb, ?_⟩
  apply Stream.seekg_cur_failbit
  obtain ⟨k, hk⟩ : ∃ k, ni.toNat = b.entities.length + (k + 1) :=
    ⟨ni.toNat - b.entities.length - 1, by omega⟩
  rw [hk, read_items_add]
  have s3 := read_items_holds junk s ts ⟨be32 b.word1⟩ mp b.classname (m.get b.classname)
    b.entities hes m d _ _ rfl a2
  have a3 := a2.advance
  rw [Prod.ext_iff] at s3
  rw [s3.2]
  dsimp only
  apply read_items_short junk s ts _ mp b.classname k _ _ _ e tail a3 e1 e2 e3
  rw [read_items_get]
  exact ht

/-- On a stream that is well formed up to the start of the values array of
an entity and that has fewer than four bytes for each variable of the class
left there, `load` throws `unexpected_eof`, under two conditions: the
exception mask is empty, and the uninitialised class-name buffer does not
hold the sentinel. -/
theorem load_short_values {U : Type} (mk_unit : List Byte → Option U) (junk : Nat → Byte)
    (s : Stream) (u : U) (header skip1 skip2 skip3 : List Byte) (cs : List ClassLayout)
    (pre : List BlockLayout) (b : BlockLayout) (e : EntityLayout) (tail : List Byte)
    (ni : Int)
    (hmask : s.exceptions = (false, false)) (hjunk : uninit junk 8 ≠ stop)
    (hfail : s.failbit = false)
    (hdata : s.data = cut_stream header skip1 skip2 skip3 cs pre b e tail)
    (hlen : header.length = 872)
    (hsig : (header.drop 4).take 12 = th0)
    (hunit : mk_unit ((header.drop 40).take 6) = some u)
    (hcounters : ∀ k, k < 8 → 0 ≤ to_int32 (be32 (header.drop (840 + 4 * k))))
    (hnum : to_int32 (be32 (header.drop 840)) = (cs.length : Int))
    (h1 : skip1.length = 8) (h2 : skip2.length = 8) (h3 : skip3.length = 8)
    (hcs : ∀ c ∈ cs, c.complete)
    (hn : cs.length < 536870912) (hv : ∀ c ∈ cs, c.vars.length < 536870912)
    (hpre : ∀ b' ∈ pre, b'.complete ((catalog_of cs).get b'.classname).length)
    (hc : b.classname.length = 8) (hstop : b.classname ≠ stop)
    (hs : b.skip.length = 8) (hw0 : b.word0.length = 4) (hw1 : b.word1.length = 4)
    (hw2 : b.word2.length = 4) (hw3 : b.word3.length = 4) (hw4 : b.word4.length = 4)
    (hts : b.timestep.isSome) (hmp : b.max_perfs.isSome)
    (hni : b.num_items = some ni) (hcount : b.entities.length < ni.toNat)
    (hes : ∀ e' ∈ b.entities, e'.complete ((catalog_of cs).get b.classname).length)
    (e1 : e.skip1.length = 8) (e2 : e.name.length = 8) (e3 : e.skip2.length = 64)
    (ht : tail.length < 4 * ((catalog_of cs).get b.classname).length) :
    (load mk_unit junk s).1 = .error (.unexpected_eof "") := by
  rw [load_fst_of_mask mk_unit junk s hmask]
  have hw : ∀ q, q + 4 ≤ 872 → be32 (s.data.drop q) = be32 (header.drop q) := by
    intro q hq
    rw [hdata, cut_stream, be32_drop_append _ _ _ (by omega)]
  have hdl : 872 ≤ s.data.length := by
    rw [hdata, cut_stream, List.length_append]; omega
  have hhdr := read_header_counters mk_unit junk s u hfail hdl
    (by rw [hdata, cut_stream, List.drop_append_of_le_length (by omega),
      List.take_append_of_le_length (by rw [List.length_drop]; omega)]; exact hsig)
    (by rw [hdata, cut_stream, List.drop_append_of_le_length (by omega),
      List.take_append_of_le_length (by rw [List.length_drop]; omega)]; exact hunit)
    (by intro k hk; rw [hw _ (by omega)]; exact hcounters k hk)
  rw [hw 840 (by omega), hnum] at hhdr
  have hh : s.Holds 872 (catalog_section skip1 skip2 skip3 cs
      ++ ((pre.map (·.bytes)).flatten ++ (b.classname ++ (b.skip
      ++ ((b.word0 ++ (b.word1 ++ (b.word2 ++ (b.word3 ++ b.word4))))
      ++ ((b.entities.map (·.bytes)).flatten
      ++ (e.skip1 ++ (e.name ++ (e.skip2 ++ tail))))))))) := by
    refine ⟨hfail, hdl, ?_⟩
    rw [hdata, cut_stream, ← hlen, List.drop_left]
  have hvn := read_varnames_holds junk s 872 skip1 skip2 skip3 _ cs hh h1 h2 h3 hcs hn hv
  have ha := hh.advance
  obtain ⟨m1, hm1, hloop⟩ := load_loop_blocks junk s pre 2 (catalog_of cs) [] _ _ hpre ha
  have hb := ha.advance
  have hr := hb.read (uninit junk 8)
  have hb1 := hb.advance
  rw [hc, drop_uninit, List.append_nil] at hr
  rw [hc] at hb1
  obtain ⟨m2, d2, s2, hrb, hf2⟩ := read_block_short junk s b e tail m1
    ([] ++ records_of (catalog_of cs) pre) _ ni hs hw0 hw1 hw2 hw3 hw4 hts hmp hni hcount
    (by rw [hm1]; exact hes) e1 e2 e3 (by rw [hm1]; exact ht) hb1
  obtain ⟨s3, hfl⟩ := load_loop_failed_uninit junk 0 m2 d2 s2 hjunk hf2
  have hstep : load_loop junk 2 m1 ([] ++ records_of (catalog_of cs) pre)
      (s.moved (872 + (catalog_section skip1 skip2 skip3 cs).length
        + (pre.map (·.bytes)).flatten.length))
      = some (.error (.unexpected_eof ""), m2, s3) := by
    rw [load_loop]
    simp only [read_str, hr, hstop, if_false, hrb]
    exact hfl
  rw [hstep] at hloop
  obtain ⟨r, hr'⟩ := load_body_loop junk (catalog_of cs)
    (s.moved (872 + (catalog_section skip1 skip2 skip3 cs).length))
  have hu := load_loop_unique junk _ _ _ _ _ _ _ hr' hloop
  subst hu
  unfold load_body
  simp only [hhdr, hvn, hr']

/-! ## What the decoder leaves unchanged in the stream -/

namespace Stream

@[simp] theorem read_frame (s : Stream) (b : List Byte) (n : Nat) :
    (s.read b n).2.frame = s.frame := by
  simp [frame]

@[simp] theorem seekg_to_frame (s : Stream) (t : Nat) : (s.seekg_to t).frame = s.frame := by
  simp [frame]

@[simp] theorem seekg_cur_frame (s : Stream) (n : Nat) : (s.seekg_cur n).frame = s.frame := by
  simp [frame]

@[simp] theorem seekg_beg_frame (s : Stream) (n : Nat) : (s.seekg_beg n).frame = s.frame := by
  simp [seekg_beg]

theorem exceptions_of_frame {s t : Stream} (h : t.frame = s.frame) :
    t.exceptions = s.exceptions :=
  congrArg (fun x => x.2.2) h

theorem data_of_frame {s t : Stream} (h : t.frame = s.frame) : t.data = s.data :=
  congrArg (fun x => x.1) h

theorem seek_past_end_of_frame {s t : Stream} (h : t.frame = s.frame) :
    t.seek_past_end = s.seek_past_end :=
  congrArg (fun x => x.2.1) h

end Stream

@[simp] theorem read_str_frame (junk : Nat → Byte) (N : Nat) (s : Stream) :
    (read_str junk N s).2.frame = s.frame := by
  simp [read_str]

@[simp] theorem read_header_frame {U : Type} (mk_unit : List Byte → Option U)
    (junk : Nat → Byte) (s : Stream) : (read_header mk_unit junk s).2.frame = s.frame := by
  unfold read_header
  dsimp only
  split
  · simp
  · split
    · simp
    · split
      · simp
      · split
        · simp
        · split <;> simp

@[simp] theorem read_classnames_frame (n : Nat) (b : List Byte) (s : Stream) :
    (read_classnames n b s).2.frame = s.frame := by
  induction n generalizing b s with
  | zero => rfl
  | succ n ih => simp only [read_classnames, ih, Stream.read_frame]

@[simp] theorem read_class_frame (k : List Byte) (c : Int) (m : VarMap) (s : Stream) :
    (read_class k c m s).2.frame = s.frame := by
  unfold read_class
  dsimp only
  split <;> simp

@[simp] theorem read_classes_frame (ps : List (List Byte × Int)) (m : VarMap) (s : Stream) :
    (read_classes ps m s).2.frame = s.frame := by
  induction ps generalizing m s with
  | nil => rfl
  | cons p ps ih =>
    obtain ⟨k, c⟩ := p
    simp only [read_classes]
    split
    · rename_i m' s' he
      rw [ih, ← read_class_frame k c m s, he]
    · rename_i e s' he
      rw [← read_class_frame k c m s, he]

@[simp] theorem read_varnames_frame (junk : Nat → Byte) (s : Stream) (n : Int) :
    (read_varnames junk s n).2.frame = s.frame := by
  unfold read_varnames
  dsimp only
  split
  · rfl
  · split
    · simp
    · split
      · simp
      · split
        · rename_i e s' he
          have := read_classes_frame
            ((read_classnames n.toNat (uninit junk 8) (s.seekg_cur 8)).1.zip
              (words (((read_classnames n.toNat (uninit junk 8) (s.seekg_cur 8)).2.seekg_cur
                8).read (zeros (4 * n.toNat)) (n * 4).toNat).1 n.toNat)) []
            ((((read_classnames n.toNat (uninit junk 8) (s.seekg_cur 8)).2.seekg_cur
                8).read (zeros (4 * n.toNat)) (n * 4).toNat).2.seekg_cur 8)
          rw [he] at this
          simpa using this
        · rename_i m' s' he
          have := read_classes_frame
            ((read_classnames n.toNat (uninit junk 8) (s.seekg_cur 8)).1.zip
              (words (((read_classnames n.toNat (uninit junk 8) (s.seekg_cur 8)).2.seekg_cur
                8).read (zeros (4 * n.toNat)) (n * 4).toNat).1 n.toNat)) []
            ((((read_classnames n.toNat (uninit junk 8) (s.seekg_cur 8)).2.seekg_cur
                8).read (zeros (4 * n.toNat)) (n * 4).toNat).2.seekg_cur 8)
          rw [he] at this
          split <;> simpa using this

@[simp] theorem read_vars_frame (s : Stream) (d : List NexusData) (ts : Int) (t : F32)
    (mp : Int) (c i : List Byte) (v : List (List Byte)) :
    (read_vars s d ts t mp c i v).2.frame = s.frame := by
  simp [read_vars]

@[simp] theorem read_items_frame (junk : Nat → Byte) (ts : Int) (t : F32) (mp : Int)
    (c : List Byte) (n : Nat) (m : VarMap) (d : List NexusData) (s : Stream) :
    (read_items junk ts t mp c n m d s).2.2.frame = s.frame := by
  induction n generalizing m d s with
  | zero => rfl
  | succ n ih => simp only [read_items, ih, read_vars_frame, Stream.seekg_cur_frame,
      Stream.read_frame]

@[simp] theorem read_block_frame (junk : Nat → Byte) (c : List Byte) (m : VarMap)
    (d : List NexusData) (s : Stream) : (read_block junk c m d s).2.frame = s.frame := by
  unfold read_block
  dsimp only
  split
  · simp
  · split <;> simp

theorem load_loop_frame (junk : Nat → Byte) (fuel : Nat) :
    ∀ (m : VarMap) (d : List NexusData) (s : Stream)
      (r : Except Error (List NexusData) × VarMap × Stream),
      load_loop junk fuel m d s = some r → r.2.2.frame = s.frame := by
  induction fuel with
  | zero => intro m d s r h; simp [load_loop] at h
  | succ fuel ih =>
    intro m d s r h
    rw [load_loop] at h
    dsimp only at h
    split at h
    · simp only [Option.some.injEq] at h
      rw [← h]
      exact read_str_frame junk 8 s
    · split at h
      · rename_i e s' he
        simp only [Option.some.injEq] at h
        rw [← h]
        have := read_block_frame junk (read_str junk 8 s).1 m d (read_str junk 8 s).2
        rw [he] at this
        simpa using this
      · rename_i m' d' s' he
        have := read_block_frame junk (read_str junk 8 s).1 m d (read_str junk 8 s).2
        rw [he] at this
        rw [ih _ _ _ _ h]
        simpa using this

theorem load_body_frame {U : Type} (mk_unit : List Byte → Option U) (junk : Nat → Byte)
    (s : Stream) : (load_body mk_unit junk s).2.frame = s.frame := by
  unfold load_body
  split
  · rename_i e s1 h1
    have := read_header_frame mk_unit junk s
    rw [h1] at this
    exact this
  · rename_i hdr s1 h1
    have f1 := read_header_frame mk_unit junk s
    rw [h1] at f1
    dsimp only at f1 ⊢
    split
    · rename_i e s2 h2
      have := read_varnames_frame junk s1 hdr.num_classes
      rw [h2] at this
      exact this.trans f1
    · rename_i vm s2 h2
      have f2 := read_varnames_frame junk s1 hdr.num_classes
      rw [h2] at f2
      dsimp only at f2 ⊢
      split
      · rename_i dd mm s3 h3
        exact ((load_loop_frame junk _ _ _ _ _ h3).trans f2).trans f1
      · rename_i e mm s3 h3
        exact ((load_loop_frame junk _ _ _ _ _ h3).trans f2).trans f1
      · exact f2.trans f1

/-- C13: whatever the stream and its exception mask, and on every way out of
`load` (a plot or any failure), the stream that `load` leaves has the
exception mask it had when `load` was called; and the stream that the body
of `load` leaves has the empty mask that `load` sets before the body runs. -/
theorem load_restores_mask {U : Type} (mk_unit : List Byte → Option U) (junk : Nat → Byte)
    (s : Stream) :
    (load mk_unit junk s).2.exceptions = s.exceptions
      ∧ (load_body mk_unit junk (s.set_exceptions (false, false)).2).2.exceptions
          = (false, false) := by
  constructor
  · unfold load
    dsimp only
    split <;> rfl
  · exact Stream.exceptions_of_frame (load_body_frame mk_unit junk _)

/-! ## Decoding a stream again -/

/-- When the loop of `load` returns records, it leaves a stream that is not
failed, provided the byte at index 7 of the uninitialised memory is not a
space. -/
theorem load_loop_ok_failbit (junk : Nat → Byte) (hj : junk 7 ≠ 32) (fuel : Nat) :
    ∀ (m m' : VarMap) (d d' : List NexusData) (s s' : Stream),
      load_loop junk fuel m d s = some (.ok d', m', s') → s'.failbit = false := by
  induction fuel with
  | zero => intro m m' d d' s s' h; simp [load_loop] at h
  | succ fuel ih =>
    intro m m' d d' s s' h
    rw [load_loop] at h
    dsimp only at h
    split at h
    · rename_i hstop
      simp only [Option.some.injEq, Prod.mk.injEq] at h
      rw [← h.2.2]
      cases hf : (read_str junk 8 s).2.failbit
      · rfl
      · exact absurd hstop (read_str_ne_stop junk s hj hf)
    · split at h
      · simp at h
      · exact ih _ _ _ _ _ _ h

theorem load_ok_inv {U : Type} (mk_unit : List Byte → Option U) (junk : Nat → Byte)
    (s s' : Stream) (plt : NexusPlot U) (h : load mk_unit junk s = (.ok plt, s')) :
    ∃ sb, load_body mk_unit junk (s.set_exceptions (false, false)).2 = (.ok plt, sb)
      ∧ s' = (sb.set_exceptions s.exceptions).2 := by
  unfold load at h
  dsimp only at h
  split at h
  · simp at h
  · simp only [Prod.mk.injEq] at h
    exact ⟨_, Prod.ext h.1 rfl, h.2.symm⟩

theorem load_body_ok_header {U : Type} (mk_unit : List Byte → Option U) (junk : Nat → Byte)
    (s sb : Stream) (plt : NexusPlot U)
    (h : load_body mk_unit junk s = (.ok plt, sb)) :
    s.failbit = false ∧ 872 ≤ s.data.length := by
  unfold load_body at h
  split at h
  · simp at h
  rename_i hdr s1 hh
  obtain ⟨-, hf, hlen⟩ := read_header_snd mk_unit junk s s1 hdr hh
  exact ⟨hf, hlen⟩

theorem load_body_ok_inv {U : Type} (mk_unit : List Byte → Option U) (junk : Nat → Byte)
    (hj : junk 7 ≠ 32) (s sb : Stream) (plt : NexusPlot U)
    (h : load_body mk_unit junk s = (.ok plt, sb)) :
    s.failbit = false ∧ 872 ≤ s.data.length ∧ sb.failbit = false := by
  unfold load_body at h
  split at h
  · simp at h
  rename_i hdr s1 hh
  obtain ⟨-, hf, hlen⟩ := read_header_snd mk_unit junk s s1 hdr hh
  split at h
  · simp at h
  split at h
  rotate_left
  · simp at h
  · simp at h
  rename_i data vm' s3 hl
  simp only [Prod.mk.injEq] at h
  rw [← h.2]
  exact ⟨hf, hlen, load_loop_ok_failbit junk hj _ _ _ _ _ _ _ hl⟩

theorem read_header_congr {U : Type} (mk_unit : List Byte → Option U) (junk : Nat → Byte)
    (s t : Stream) (h : t.seekg_beg 4 = s.seekg_beg 4) :
    read_header mk_unit junk t = read_header mk_unit junk s := by
  unfold read_header
  rw [h]

theorem load_body_congr {U : Type} (mk_unit : List Byte → Option U) (junk : Nat → Byte)
    (s t : Stream) (h : t.seekg_beg 4 = s.seekg_beg 4) :
    load_body mk_unit junk t = load_body mk_unit junk s := by
  unfold load_body
  rw [read_header_congr mk_unit junk s t h]

/-- The result of `load` is the same on two streams that are not failed and
have the same bytes, the same kind of buffer and the same exception mask,
whatever their cursors and their eofbits. -/
theorem load_congr {U : Type} (mk_unit : List Byte → Option U) (junk : Nat → Byte)
    (s t : Stream) (hs : s.failbit = false) (ht : t.failbit = false)
    (hframe : t.frame = s.frame) (hlen : 4 ≤ s.data.length) :
    load mk_unit junk t = load mk_unit junk s := by
  have hd := Stream.data_of_frame hframe
  have hk := Stream.seek_past_end_of_frame hframe
  have he := Stream.exceptions_of_frame hframe
  have h4 : (t.set_exceptions (false, false)).2.seekg_beg 4
      = (s.set_exceptions (false, false)).2.seekg_beg 4 := by
    have hlt : 4 ≤ (t.set_exceptions (false, false)).2.data.length := by
      have e : (t.set_exceptions (false, false)).2.data = t.data := rfl
      rw [e, hd]
      exact hlen
    have hls : 4 ≤ (s.set_exceptions (false, false)).2.data.length := hlen
    rw [Stream.seekg_beg_moved (t.set_exceptions (false, false)).2 4 ht hlt,
      Stream.seekg_beg_moved (s.set_exceptions (false, false)).2 4 hs hls]
    cases s
    cases t
    simp only [Stream.set_exceptions, Stream.moved] at hd hk hs ht ⊢
    simp only [Stream.mk.injEq, and_true, true_and]
    exact ⟨hd, ht.trans hs.symm, hk⟩
  unfold load
  dsimp only
  rw [load_body_congr mk_unit junk _ _ h4, he]

/-- When `load` succeeds on a stream, `load` on that stream with its cursor at
any other place succeeds with the same plot; a second `load` on the stream as
the first one left it succeeds with the same plot and leaves the stream in
the same state if the first one left the stream not failed; and the first one
leaves it not failed when the byte at index 7 of the uninitialised memory is
not a space. -/
theorem load_again {U : Type} (mk_unit : List Byte → Option U) (junk : Nat → Byte)
    (s s' : Stream) (plt : NexusPlot U)
    (h : load mk_unit junk s = (.ok plt, s')) :
    (∀ p, load mk_unit junk { s with pos := p } = (.ok plt, s'))
      ∧ (s'.failbit = false → load mk_unit junk s' = (.ok plt, s'))
      ∧ (junk 7 ≠ 32 → s'.failbit = false) := by
  obtain ⟨sb, hb, hs'⟩ := load_ok_inv mk_unit junk s s' plt h
  obtain ⟨hf, hlen⟩ := load_body_ok_header mk_unit junk _ sb plt hb
  have hfr := load_body_frame mk_unit junk (s.set_exceptions (false, false)).2
  rw [hb] at hfr
  have hframe : s'.frame = s.frame := by
    rw [hs']
    have hd := Stream.data_of_frame hfr
    have hk := Stream.seek_past_end_of_frame hfr
    simp only [Stream.frame, Stream.set_exceptions] at hd hk ⊢
    rw [hd, hk]
  have hlen' : 4 ≤ s.data.length := Nat.le_trans (by decide) (hlen : 872 ≤ s.data.length)
  have hf0 : s.failbit = false := hf
  refine ⟨?_, ?_, ?_⟩
  · intro p
    rw [load_congr mk_unit junk s { s with pos := p } hf0 hf0 rfl hlen']
    exact h
  · intro hf'
    rw [load_congr mk_unit junk s s' hf0 hf' hframe hlen']
    exact h
  · intro hjunk
    rw [hs']
    exact (load_body_ok_inv mk_unit junk hjunk _ sb plt hb).2.2

/-! ## The smallest plot stream -/

theorem take_append_drop_add (l : List Byte) (p k : Nat) :
    (l.drop p).take k ++ l.drop (p + k) = l.drop p := by
  rw [← List.drop_drop, List.take_append_drop]

theorem be32_drop_take (l : List Byte) (n q : Nat) (h : q + 4 ≤ n) :
    be32 ((l.take n).drop q) = be32 (l.drop q) := by
  rw [List.drop_take, be32_take _ _ (by omega)]

/-- C15: on a stream with the signature at offsets 4 to 15, an accepted
unit-system code, eight non-negative header counters of which the first is 1,
the variable count 0 for the one class of the catalog section, and the
sentinel `"STOP    "` at offset 920, right behind the catalog section, `load`
succeeds with a header whose `num_classes` is 1 and without records. -/
theorem load_minimal {U : Type} (mk_unit : List Byte → Option U) (junk : Nat → Byte)
    (s : Stream) (u : U)
    (hfail : s.failbit = false)
    (hsig : (s.data.drop 4).take 12 = th0)
    (hunit : mk_unit ((s.data.drop 40).take 6) = some u)
    (hcounters : ∀ k, k < 8 → 0 ≤ to_int32 (be32 (s.data.drop (840 + 4 * k))))
    (hnum : be32 (s.data.drop 840) = 1)
    (hcount : be32 (s.data.drop 896) = 0)
    (hstop : (s.data.drop 920).take 8 = stop) :
    (load mk_unit junk s).1
      = .ok { header :=
                { unit_system := u,
                  num_classes := 1,
                  counter1 := to_int32 (be32 (s.data.drop 844)),
                  counter2 := to_int32 (be32 (s.data.drop 848)),
                  counter3 := to_int32 (be32 (s.data.drop 852)),
                  counter4 := to_int32 (be32 (s.data.drop 856)),
                  counter5 := to_int32 (be32 (s.data.drop 860)),
                  counter6 := to_int32 (be32 (s.data.drop 864)),
                  counter7 := to_int32 (be32 (s.data.drop 868)) },
              data := [] } := by
  have hlen : 928 ≤ s.data.length := by
    have := congrArg List.length hstop
    rw [List.length_take, List.length_drop] at this
    simp only [stop, List.length_cons, List.length_nil] at this
    omega
  set c : ClassLayout :=
    { name := (s.data.drop 880).take 8,
      count := (s.data.drop 896).take 4,
      timevar := (s.data.drop 908).take 4,
      vars := [],
      trailer := (s.data.drop 912).take 8 } with hc
  have e8 : (s.data.drop 920).take 8 ++ s.data.drop 928 = s.data.drop 920 :=
    take_append_drop_add s.data 920 8
  have e7 : (s.data.drop 912).take 8 ++ s.data.drop 920 = s.data.drop 912 :=
    take_append_drop_add s.data 912 8
  have e6 : (s.data.drop 908).take 4 ++ s.data.drop 912 = s.data.drop 908 :=
    take_append_drop_add s.data 908 4
  have e5 : (s.data.drop 900).take 8 ++ s.data.drop 908 = s.data.drop 900 :=
    take_append_drop_add s.data 900 8
  have e4 : (s.data.drop 896).take 4 ++ s.data.drop 900 = s.data.drop 896 :=
    take_append_drop_add s.data 896 4
  have e3 : (s.data.drop 888).take 8 ++ s.data.drop 896 = s.data.drop 888 :=
    take_append_drop_add s.data 888 8
  have e2 : (s.data.drop 880).take 8 ++ s.data.drop 888 = s.data.drop 880 :=
    take_append_drop_add s.data 880 8
  have e1 : (s.data.drop 872).take 8 ++ s.data.drop 880 = s.data.drop 872 :=
    take_append_drop_add s.data 872 8
  have hdata : s.data = plot_stream (s.data.take 872) ((s.data.drop 872).take 8)
      ((s.data.drop 888).take 8) ((s.data.drop 900).take 8) [c] [] ++ s.data.drop 928 := by
    simp only [plot_stream, catalog_section, ClassLayout.block, hc, List.map_cons, List.map_nil,
      List.flatten_cons, List.flatten_nil, List.append_nil, List.nil_append,
      List.append_assoc]
    rw [← hstop, e8, e7, e6, e5, e4, e3, e2, e1, List.take_append_drop]
  have h := load_fst_well_formed mk_unit junk s u (s.data.take 872) ((s.data.drop 872).take 8)
    ((s.data.drop 888).take 8) ((s.data.drop 900).take 8) (s.data.drop 928) [c] []
    hfail hdata (by rw [List.length_take]; omega)
    (by rw [take_drop_take _ _ _ _ (by omega)]; exact hsig)
    (by rw [take_drop_take _ _ _ _ (by omega)]; exact hunit)
    (by intro k hk; rw [be32_drop_take _ _ _ (by omega)]; exact hcounters k hk)
    (by rw [be32_drop_take _ _ _ (by omega), hnum]; rfl)
    (by rw [List.length_take, List.length_drop]; omega)
    (by rw [List.length_take, List.length_drop]; omega)
    (by rw [List.length_take, List.length_drop]; omega)
    (by
      intro c' hc'
      rw [List.mem_singleton] at hc'
      subst hc'
      refine ⟨?_, ?_, ?_, ?_, ?_, ?_⟩
      · show ((s.data.drop 880).take 8).length = 8
        rw [List.length_take, List.length_drop]; omega
      · show ((s.data.drop 896).take 4).length = 4
        rw [List.length_take, List.length_drop]; omega
      · show ((s.data.drop 908).take 4).length = 4
        rw [List.length_take, List.length_drop]; omega
      · intro v hv
        exact absurd hv (List.not_mem_nil _)
      · show ((s.data.drop 912).take 8).length = 8
        rw [List.length_take, List.length_drop]; omega
      · show be32 ((s.data.drop 896).take 4) = 0
        rw [be32_take _ _ (by omega), hcount])
    (by rw [List.length_singleton]; decide)
    (by
      intro c' hc'
      rw [List.mem_singleton] at hc'
      subst hc'
      show 0 < 536870912
      decide)
    (by intro b hb; exact absurd hb (List.not_mem_nil _))
  rw [h]
  simp only [records_of, List.map_nil, List.flatten_nil, List.length_singleton, Nat.cast_one,
    be32_drop_take s.data 872 844 (by omega), be32_drop_take s.data 872 848 (by omega),
    be32_drop_take s.data 872 852 (by omega), be32_drop_take s.data 872 856 (by omega),
    be32_drop_take s.data 872 860 (by omega), be32_drop_take s.data 872 864 (by omega),
    be32_drop_take s.data 872 868 (by omega)]

/-- Witness of C15: the example header with one class, the class `WELL`
without variables, and the sentinel. -/
theorem load_minimal_witness :
    (load metric_only zero_junk (Stream.fresh minimal_stream true)).1
      = .ok { header :=
                { unit_system := [77, 69, 84, 82, 73, 67], num_classes := 1, counter1 := 0,
                  counter2 := 0, counter3 := 0, counter4 := 0, counter5 := 0, counter6 := 0,
                  counter7 := 0 },
              data := [] } :=
  (load_minimal metric_only zero_junk (Stream.fresh minimal_stream true)
    [77, 69, 84, 82, 73, 67] rfl (by decide) (by decide) (by decide) (by decide) (by decide)
    (by decide)).trans (by decide)

/-! ## The cursor behind the header -/

/-- C16: when `read_header` returns a header, it leaves the stream good with
its cursor at offset 872, whatever the cursor was before; and the first class
name that the loop of `read_varnames` reads after the 8 bytes it skips is the
8 bytes at offset 880. -/
theorem read_header_cursor {U : Type} (mk_unit : List Byte → Option U) (junk : Nat → Byte)
    (s s' : Stream) (h : NexusHeader U) (hr : read_header mk_unit junk s = (.ok h, s')) :
    s'.pos = 872 ∧ s'.good = true
      ∧ ∀ (n : Nat) (b : List Byte), b.length = 8 → 880 + 8 * (n + 1) ≤ s.data.length →
          (read_classnames (n + 1) b (s'.seekg_cur 8)).1.head?
            = some ((s.data.drop 880).take 8) := by
  obtain ⟨rfl, hf, hlen⟩ := read_header_snd mk_unit junk s s' h hr
  refine ⟨rfl, Stream.moved_good _ _ hf, ?_⟩
  intro n b hb hn
  rw [Stream.seekg_cur_moved s 872 8 hf (by omega),
    read_classnames_moved s hf (n + 1) (872 + 8) b hb (by omega)]
  simp [List.range_succ_eq_map]

/-- Witness of C16: the header of the example stream. -/
theorem read_header_cursor_witness :
    (read_header metric_only zero_junk (Stream.fresh example_stream true)).2.pos = 872 :=
  (read_header_cursor metric_only zero_junk (Stream.fresh example_stream true)
    (read_header metric_only zero_junk (Stream.fresh example_stream true)).2
    { unit_system := [77, 69, 84, 82, 73, 67], num_classes := 1, counter1 := 0,
      counter2 := 0, counter3 := 0, counter4 := 0, counter5 := 0, counter6 := 0,
      counter7 := 0 }
    (Prod.ext (by decide) rfl)).1

/-! ## The conversion of a float to an integer -/

theorem F32.floor_abs (f : F32) :
    ⌊(f.significand : ℚ) * (2 : ℚ) ^ ((f.scale : Int) - 149)⌋ = (f.trunc_abs : Int) := by
  unfold F32.trunc_abs
  split
  · rename_i h
    have e : (f.scale : Int) - 149 = ((f.scale - 149 : Nat) : Int) := by omega
    rw [e, zpow_natCast]
    have : (f.significand : ℚ) * (2 : ℚ) ^ (f.scale - 149)
        = ((f.significand * 2 ^ (f.scale - 149) : Nat) : ℚ) := by push_cast; ring
    rw [this, Int.floor_natCast]
  · rename_i h
    have e : (f.scale : Int) - 149 = -((149 - f.scale : Nat) : Int) := by omega
    rw [e, zpow_neg, zpow_natCast]
    have : (f.significand : ℚ) * ((2 : ℚ) ^ (149 - f.scale))⁻¹
        = ((f.significand : Int) : ℚ) / ((2 ^ (149 - f.scale) : Nat) : ℚ) := by
      push_cast
      rw [div_eq_mul_inv]
    rw [this, Rat.floor_intCast_div_natCast]
    push_cast
    rfl

/-- The truncation toward zero of the value of a float is its truncated
magnitude with its sign. -/
theorem trunc_toRat (f : F32) :
    trunc f.toRat = if f.sign = 0 then (f.trunc_abs : Int) else -(f.trunc_abs : Int) := by
  have hx : (0 : ℚ) ≤ (f.significand : ℚ) * (2 : ℚ) ^ ((f.scale : Int) - 149) :=
    mul_nonneg (Nat.cast_nonneg _) (zpow_nonneg (by norm_num) _)
  have hfl := f.floor_abs
  unfold trunc F32.toRat
  by_cases hs : f.sign = 0
  · rw [if_pos hs, if_pos hs, one_mul, if_pos hx, hfl]
  · rw [if_neg hs, if_neg hs]
    have e : (-1 : ℚ) * (f.significand : ℚ) * (2 : ℚ) ^ ((f.scale : Int) - 149)
        = -((f.significand : ℚ) * (2 : ℚ) ^ ((f.scale : Int) - 149)) := by ring
    rw [e]
    split
    · rename_i h0
      have hz : (f.significand : ℚ) * (2 : ℚ) ^ ((f.scale : Int) - 149) = 0 :=
        le_antisymm (neg_nonneg.mp h0) hx
      rw [hz] at hfl ⊢
      rw [neg_zero, ← hfl]
      simp
    · rw [Int.ceil_neg, hfl]

/-- The conversion `(int32_t) f` is defined for the finite floats whose
truncation toward zero is an `int32_t`, and it is that truncation. -/
theorem float_to_int32_iff (f : F32) (i : Int) :
    float_to_int32 f = some i
      ↔ f.nonfinite = false ∧ -2147483648 ≤ trunc f.toRat ∧ trunc f.toRat < 2147483648
          ∧ i = trunc f.toRat := by
  rw [trunc_toRat]
  unfold float_to_int32
  cases hn : f.nonfinite
  · simp only [Bool.false_eq_true, if_false, true_and]
    by_cases hs : f.sign = 0
    · simp only [hs, if_true]
      split
      · simp only [Option.some.injEq]
        constructor
        · intro h; omega
        · intro h; omega
      · constructor
        · intro h; cases h
        · intro h; omega
    · simp only [hs, if_false]
      split
      · simp only [Option.some.injEq]
        constructor
        · intro h; omega
        · intro h; omega
      · constructor
        · intro h; cases h
        · intro h; omega
  · simp

theorem F32.fits_iff (f : F32) : f.fits ↔ (float_to_int32 f).isSome = true := by
  rw [Option.isSome_iff_exists]
  constructor
  · intro h
    exact ⟨_, (float_to_int32_iff f _).mpr ⟨h.1, h.2.1, h.2.2, rfl⟩⟩
  · rintro ⟨i, hi⟩
    obtain ⟨h1, h2, h3, -⟩ := (float_to_int32_iff f i).mp hi
    exact ⟨h1, h2, h3⟩

theorem float_to_int32_of_fits (f : F32) (h : f.fits) :
    float_to_int32 f = some (trunc f.toRat) :=
  (float_to_int32_iff f _).mpr ⟨h.1, h.2.1, h.2.2, rfl⟩

/-! ## The five words of a data block -/

/-- C17: of the five big-endian words of a data block, which lie behind the
class name and 8 skipped bytes, `read_block` takes as timestep the float with
the bits of word 0, truncated toward zero; as time the float with the bits of
word 1; as the number of entities to read the float with the bits of word 2,
truncated toward zero; and as `max_perfs` the float with the bits of word 4,
truncated toward zero. Stated for finite floats whose truncation is an
`int32_t`. -/
theorem read_block_words (junk : Nat → Byte) (c : List Byte) (m : VarMap)
    (d : List NexusData) (s : Stream)
    (hgood : s.good = true) (hlen : 28 ≤ s.data.length - s.pos)
    (hts : F32.fits ⟨be32 (s.data.drop (s.pos + 8))⟩)
    (hni : F32.fits ⟨be32 (s.data.drop (s.pos + 16))⟩)
    (hmp : F32.fits ⟨be32 (s.data.drop (s.pos + 24))⟩) :
    read_block junk c m d s
      = (.ok ((read_items junk
                (trunc (F32.toRat ⟨be32 (s.data.drop (s.pos + 8))⟩))
                ⟨be32 (s.data.drop (s.pos + 12))⟩
                (trunc (F32.toRat ⟨be32 (s.data.drop (s.pos + 24))⟩)) c
                (trunc (F32.toRat ⟨be32 (s.data.drop (s.pos + 16))⟩)).toNat m d
                (s.moved (s.pos + 28))).1,
              (read_items junk
                (trunc (F32.toRat ⟨be32 (s.data.drop (s.pos + 8))⟩))
                ⟨be32 (s.data.drop (s.pos + 12))⟩
                (trunc (F32.toRat ⟨be32 (s.data.drop (s.pos + 24))⟩)) c
                (trunc (F32.toRat ⟨be32 (s.data.drop (s.pos + 16))⟩)).toNat m d
                (s.moved (s.pos + 28))).2.1),
          (read_items junk
                (trunc (F32.toRat ⟨be32 (s.data.drop (s.pos + 8))⟩))
                ⟨be32 (s.data.drop (s.pos + 12))⟩
                (trunc (F32.toRat ⟨be32 (s.data.drop (s.pos + 24))⟩)) c
                (trunc (F32.toRat ⟨be32 (s.data.drop (s.pos + 16))⟩)).toNat m d
                (s.moved (s.pos + 28))).2.2.seekg_cur 8) := by
  have hf := Stream.failbit_of_good hgood
  have hs : s = s.moved s.pos := (Stream.moved_self s hgood).symm
  have s1 : s.seekg_cur 8 = s.moved (s.pos + 8) := by
    conv_lhs => rw [hs]
    exact Stream.seekg_cur_moved s s.pos 8 hf (by omega)
  have s2 : (s.moved (s.pos + 8)).read (zeros 20) 20
      = ((s.data.drop (s.pos + 8)).take 20 ++ (zeros 20).drop 20, s.moved (s.pos + 8 + 20)) :=
    Stream.read_moved s (s.pos + 8) 20 _ hf (by omega)
  rw [drop_zeros, List.append_nil] at s2
  have w0 := word_at_take_drop s.data (s.pos + 8) 20 0 (by omega)
  have w1 := word_at_take_drop s.data (s.pos + 8) 20 1 (by omega)
  have w2 := word_at_take_drop s.data (s.pos + 8) 20 2 (by omega)
  have w4 := word_at_take_drop s.data (s.pos + 8) 20 4 (by omega)
  rw [show s.pos + 8 + 4 * 0 = s.pos + 8 by omega] at w0
  rw [show s.pos + 8 + 4 * 1 = s.pos + 12 by omega] at w1
  rw [show s.pos + 8 + 4 * 2 = s.pos + 16 by omega] at w2
  rw [show s.pos + 8 + 4 * 4 = s.pos + 24 by omega] at w4
  unfold read_block
  simp only [s1, s2, Stream.moved_good _ _ hf, Bool.not_true, Bool.false_eq_true, if_false,
    w0, w1, w2, w4, interpret_float_be32, float_to_int32_of_fits _ hts,
    float_to_int32_of_fits _ hni, float_to_int32_of_fits _ hmp]

/-- Witness of C17: the words `0x40400000`, `0x3FC00000`, `0x40000000`,
`0x01020304` and `0` give the timestep 3 (and not 1077936128), the time with
the bits `0x3FC00000`, two entities and `max_perfs` 0. -/
theorem read_block_words_witness :
    (read_block zero_junk [87, 69, 76, 76, 32, 32, 32, 32]
        [([87, 69, 76, 76, 32, 32, 32, 32], [[87, 79, 80, 82]])] []
        (Stream.fresh block_words_stream true)).1
      = .ok ([([87, 69, 76, 76, 32, 32, 32, 32], [[87, 79, 80, 82]])],
          [{ timestep := 3, time := ⟨1069547520⟩, max_perfs := 0,
             classname := [87, 69, 76, 76, 32, 32, 32, 32],
             instancename := [87, 69, 76, 76, 45, 65, 48, 49],
             varname := [87, 79, 80, 82], value := ⟨1120403456⟩ },
           { timestep := 3, time := ⟨1069547520⟩, max_perfs := 0,
             classname := [87, 69, 76, 76, 32, 32, 32, 32],
             instancename := [87, 69, 76, 76, 45, 65, 48, 49],
             varname := [87, 79, 80, 82], value := ⟨1120403456⟩ }]) :=
  (congrArg Prod.fst (read_block_words zero_junk [87, 69, 76, 76, 32, 32, 32, 32]
    [([87, 69, 76, 76, 32, 32, 32, 32], [[87, 79, 80, 82]])] []
    (Stream.fresh block_words_stream true) (by decide) (by decide)
    ((F32.fits_iff _).mpr (by decide)) ((F32.fits_iff _).mpr (by decide))
    ((F32.fits_iff _).mpr (by decide)))).trans
    (by simp only [trunc_toRat]; decide)

/-! ## The decoder on two streams that differ in skipped bytes -/

namespace Stream

@[simp] theorem rebase_data (s : Stream) (d : List Byte) : (s.rebase d).data = d := rfl

@[simp] theorem rebase_pos (s : Stream) (d : List Byte) : (s.rebase d).pos = s.pos := rfl

@[simp] theorem rebase_failbit (s : Stream) (d : List Byte) :
    (s.rebase d).failbit = s.failbit := rfl

@[simp] theorem rebase_eofbit (s : Stream) (d : List Byte) :
    (s.rebase d).eofbit = s.eofbit := rfl

@[simp] theorem rebase_good (s : Stream) (d : List Byte) : (s.rebase d).good = s.good := rfl

@[simp] theorem rebase_seek_past_end (s : Stream) (d : List Byte) :
    (s.rebase d).seek_past_end = s.seek_past_end := rfl

@[simp] theorem rebase_exceptions (s : Stream) (d : List Byte) :
    (s.rebase d).exceptions = s.exceptions := rfl

theorem seekg_to_rebase (s : Stream) (d : List Byte) (p : Nat)
    (hlen : d.length = s.data.length) :
    (s.rebase d).seekg_to p = (s.seekg_to p).rebase d := by
  unfold seekg_to
  simp only [rebase_failbit, rebase_seek_past_end, rebase_data, hlen]
  split
  · rfl
  · split <;> rfl

theorem seekg_cur_rebase (s : Stream) (d : List Byte) (n : Nat)
    (hlen : d.length = s.data.length) :
    (s.rebase d).seekg_cur n = (s.seekg_cur n).rebase d :=
  seekg_to_rebase s d (s.pos + n) hlen

theorem read_rebase (s : Stream) (d b : List Byte) (n : Nat)
    (hb : s.good = true → (d.drop s.pos).take n = (s.data.drop s.pos).take n) :
    (s.rebase d).read b n = ((s.read b n).1, (s.read b n).2.rebase d) := by
  unfold read
  simp only [rebase_good, rebase_data, rebase_pos]
  cases hg : s.good
  · rfl
  · simp only [if_true]
    rw [hb hg]
    split <;> rfl

theorem Agree.slice {k : Nat} {s : Stream} {d : List Byte} (h : Agree k s d) (n : Nat)
    (hg : s.good = true) : (d.drop s.pos).take n = (s.data.drop s.pos).take n := by
  have hk := h.2.2 (failbit_of_good hg)
  have e : s.pos = k + (s.pos - k) := by omega
  rw [e, ← List.drop_drop, ← List.drop_drop, h.2.1]

theorem Agree.read_agree {k : Nat} {s : Stream} {d : List Byte} (h : Agree k s d)
    (b : List Byte) (n : Nat) :
    (s.rebase d).read b n = ((s.read b n).1, (s.read b n).2.rebase d)
      ∧ Agree k (s.read b n).2 d := by
  refine ⟨read_rebase s d b n (h.slice n), ?_, ?_, ?_⟩
  · rw [read_data]; exact h.1
  · rw [read_data]; exact h.2.1
  · intro hf
    have hg := (read_failbit_inv s b n hf).1
    exact Nat.le_trans (h.2.2 (failbit_of_good hg)) (read_pos_le s b n)

theorem Agree.skip_agree {k : Nat} {s : Stream} {d : List Byte} (h : Agree k s d) (n : Nat) :
    (s.rebase d).seekg_cur n = (s.seekg_cur n).rebase d ∧ Agree k (s.seekg_cur n) d := by
  refine ⟨seekg_cur_rebase s d n h.1, ?_, ?_, ?_⟩
  · rw [seekg_cur_data]; exact h.1
  · rw [seekg_cur_data]; exact h.2.1
  · intro hf
    exact Nat.le_trans (h.2.2 (failbit_false_of_seekg_cur hf)) (seekg_cur_pos_le s n)

end Stream

theorem read_classnames_agree (k N : Nat) :
    ∀ (b : List Byte) (s : Stream) (d : List Byte), Stream.Agree k s d →
      read_classnames N b (s.rebase d)
          = ((read_classnames N b s).1, (read_classnames N b s).2.rebase d)
        ∧ Stream.Agree k (read_classnames N b s).2 d := by
  induction N with
  | zero =>
    intro b s d h
    exact ⟨by trivial, h⟩
  | succ N ih =>
    intro b s d h
    obtain ⟨e1, a1⟩ := h.read_agree b 8
    obtain ⟨e2, a2⟩ := ih (s.read b 8).1 (s.read b 8).2 d a1
    simp only [read_classnames, e1, e2]
    exact ⟨by trivial, a2⟩

theorem read_class_agree (k : Nat) (name : List Byte) (c : Int) (m : VarMap) (s : Stream)
    (d : List Byte) (h : Stream.Agree k s d) :
    read_class name c m (s.rebase d)
        = ((read_class name c m s).1, (read_class name c m s).2.rebase d)
      ∧ Stream.Agree k (read_class name c m s).2 d := by
  obtain ⟨e1, a1⟩ := h.skip_agree 4
  obtain ⟨e2, a2⟩ := a1.read_agree (zeros (c * 4).toNat) (c * 4).toNat
  obtain ⟨e3, a3⟩ := a2.skip_agree 8
  unfold read_class
  by_cases hc : 2147483648 ≤ c * 4
  · simp only [hc, if_true, e1]
    exact ⟨by trivial, a1⟩
  · simp only [hc, if_false, e1, e2, e3]
    exact ⟨by trivial, a3⟩

theorem read_classes_agree (k : Nat) (ps : List (List Byte × Int)) :
    ∀ (m : VarMap) (s : Stream) (d : List Byte), Stream.Agree k s d →
      read_classes ps m (s.rebase d)
          = ((read_classes ps m s).1, (read_classes ps m s).2.rebase d)
        ∧ Stream.Agree k (read_classes ps m s).2 d := by
  induction ps with
  | nil =>
    intro m s d h
    exact ⟨by trivial, h⟩
  | cons p ps ih =>
    intro m s d h
    obtain ⟨name, c⟩ := p
    obtain ⟨e1, a1⟩ := read_class_agree k name c m s d h
    simp only [read_classes, e1]
    rcases hr : read_class name c m s with ⟨r, s1⟩
    rw [hr] at a1
    cases r with
    | error e => exact ⟨by trivial, a1⟩
    | ok m1 => exact ih m1 s1 d a1

theorem read_varnames_agree (junk : Nat → Byte) (k : Nat) (s : Stream) (d : List Byte)
    (n : Int) (h : Stream.Agree k s d) :
    read_varnames junk (s.rebase d) n
        = ((read_varnames junk s n).1, (read_varnames junk s n).2.rebase d)
      ∧ Stream.Agree k (read_varnames junk s n).2 d := by
  obtain ⟨e1, a1⟩ := h.skip_agree 8
  obtain ⟨e2, a2⟩ := read_classnames_agree k n.toNat (uninit junk 8) _ d a1
  obtain ⟨e3, a3⟩ := a2.skip_agree 8
  obtain ⟨e4, a4⟩ := a3.read_agree (zeros (4 * n.toNat)) (n * 4).toNat
  obtain ⟨e5, a5⟩ := a4.skip_agree 8
  obtain ⟨e6, a6⟩ := read_classes_agree k
    ((read_classnames n.toNat (uninit junk 8) (s.seekg_cur 8)).1.zip
      (words (((read_classnames n.toNat (uninit junk 8) (s.seekg_cur 8)).2.seekg_cur
        8).read (zeros (4 * n.toNat)) (n * 4).toNat).1 n.toNat)) [] _ d a5
  unfold read_varnames
  by_cases c0 : n < 0
  · simp only [c0, if_true]
    exact ⟨by trivial, h⟩
  simp only [c0, if_false, e1, e2, e3]
  by_cases c1 : 2147483648 ≤ n * 4
  · simp only [c1, if_true]
    exact ⟨by trivial, a3⟩
  simp only [c1, if_false, e4]
  split
  · exact ⟨by trivial, a4⟩
  simp only [e5, e6]
  rcases hr : read_classes
    ((read_classnames n.toNat (uninit junk 8) (s.seekg_cur 8)).1.zip
      (words (((read_classnames n.toNat (uninit junk 8) (s.seekg_cur 8)).2.seekg_cur
        8).read (zeros (4 * n.toNat)) (n * 4).toNat).1 n.toNat)) []
    ((((read_classnames n.toNat (uninit junk 8) (s.seekg_cur 8)).2.seekg_cur
        8).read (zeros (4 * n.toNat)) (n * 4).toNat).2.seekg_cur 8) with ⟨r, s1⟩
  rw [hr] at a6
  cases r with
  | error e => exact ⟨by trivial, a6⟩
  | ok m1 =>
    simp only [Stream.rebase_eofbit, Stream.rebase_good]
    split
    · exact ⟨by trivial, a6⟩
    · exact ⟨by trivial, a6⟩

theorem read_vars_agree (k : Nat) (s : Stream) (d : List Byte) (ds : List NexusData)
    (ts : Int) (t : F32) (mp : Int) (c i : List Byte) (v : List (List Byte))
    (h : Stream.Agree k s d) :
    read_vars (s.rebase d) ds ts t mp c i v
        = ((read_vars s ds ts t mp c i v).1, (read_vars s ds ts t mp c i v).2.rebase d)
      ∧ Stream.Agree k (read_vars s ds ts t mp c i v).2 d := by
  obtain ⟨e1, a1⟩ := h.read_agree (zeros (v.length * 4)) (v.length * 4)
  simp only [read_vars, e1]
  exact ⟨by trivial, a1⟩

theorem read_items_agree (junk : Nat → Byte) (k : Nat) (ts : Int) (t : F32) (mp : Int)
    (c : List Byte) (n : Nat) :
    ∀ (m : VarMap) (ds : List NexusData) (s : Stream) (d : List Byte), Stream.Agree k s d →
      read_items junk ts t mp c n m ds (s.rebase d)
          = ((read_items junk ts t mp c n m ds s).1, (read_items junk ts t mp c n m ds s).2.1,
              (read_items junk ts t mp c n m ds s).2.2.rebase d)
        ∧ Stream.Agree k (read_items junk ts t mp c n m ds s).2.2 d := by
  induction n with
  | zero =>
    intro m ds s d h
    exact ⟨rfl, h⟩
  | succ n ih =>
    intro m ds s d h
    obtain ⟨e1, a1⟩ := h.skip_agree 8
    obtain ⟨e2, a2⟩ := a1.read_agree (uninit junk 8) 8
    obtain ⟨e3, a3⟩ := a2.skip_agree 64
    obtain ⟨e4, a4⟩ := read_vars_agree k _ d ds ts t mp c
      ((s.seekg_cur 8).read (uninit junk 8) 8).1 ((m.touch c).get c) a3
    obtain ⟨e5, a5⟩ := ih (m.touch c) _ _ d a4
    simp only [read_items, e1, e2, e3, e4, e5]
    exact ⟨by trivial, a5⟩

theorem read_block_agree (junk : Nat → Byte) (k : Nat) (c : List Byte) (m : VarMap)
    (ds : List NexusData) (s : Stream) (d : List Byte) (h : Stream.Agree k s d) :
    read_block junk c m ds (s.rebase d)
        = ((read_block junk c m ds s).1, (read_block junk c m ds s).2.rebase d)
      ∧ Stream.Agree k (read_block junk c m ds s).2 d := by
  obtain ⟨e1, a1⟩ := h.skip_agree 8
  obtain ⟨e2, a2⟩ := a1.read_agree (zeros 20) 20
  unfold read_block
  simp only [e1, e2, Stream.rebase_good]
  split
  · exact ⟨by trivial, a2⟩
  · split
    · rename_i ts ni mp _ _ _
      obtain ⟨e3, a3⟩ := read_items_agree junk k ts
        (interpret_float (word_at ((s.seekg_cur 8).read (zeros 20) 20).1 1)) mp c ni.toNat
        m ds _ d a2
      obtain ⟨e4, a4⟩ := a3.skip_agree 8
      simp only [e3, e4]
      exact ⟨by trivial, a4⟩
    · exact ⟨by trivial, a2⟩

theorem load_loop_agree (junk : Nat → Byte) (k : Nat) (fuel : Nat) :
    ∀ (m : VarMap) (ds : List NexusData) (s : Stream) (d : List Byte), Stream.Agree k s d →
      load_loop junk fuel m ds (s.rebase d)
        = (load_loop junk fuel m ds s).map (fun r => (r.1, r.2.1, r.2.2.rebase d)) := by
  induction fuel with
  | zero =>
    intro m ds s d h
    rfl
  | succ fuel ih =>
    intro m ds s d h
    obtain ⟨e1, a1⟩ := h.read_agree (uninit junk 8) 8
    obtain ⟨e2, a2⟩ := read_block_agree junk k (s.read (uninit junk 8) 8).1 m ds _ d a1
    simp only [load_loop, read_str, e1]
    split
    · rfl
    · rw [e2]
      rcases hr : read_block junk (s.read (uninit junk 8) 8).1 m ds (s.read (uninit junk 8) 8).2
        with ⟨r, s1⟩
      rw [hr] at a2
      cases r with
      | error e => rfl
      | ok md => exact ih md.1 md.2 s1 d a2

namespace Stream

theorem seekg_to_pos_of_failbit (s : Stream) (p : Nat)
    (h : (s.seekg_to p).failbit = false) : (s.seekg_to p).pos = p ∧ s.failbit = false := by
  obtain ⟨hf, he, -⟩ := seekg_to_inv s p h
  rw [he]
  exact ⟨rfl, hf⟩

theorem seekg_cur_pos_of_failbit (s : Stream) (n : Nat)
    (h : (s.seekg_cur n).failbit = false) :
    (s.seekg_cur n).pos = s.pos + n ∧ s.failbit = false :=
  seekg_to_pos_of_failbit s (s.pos + n) h

theorem read_pos_of_failbit (s : Stream) (b : List Byte) (n : Nat)
    (h : (s.read b n).2.failbit = false) :
    (s.read b n).2.pos = s.pos + n ∧ s.failbit = false := by
  obtain ⟨hg, hn⟩ := read_failbit_inv s b n h
  rw [read_ok s b n hg hn]
  exact ⟨rfl, failbit_of_good hg⟩

end Stream

/-- Two runs of `read_header` on streams in the same state whose bytes are as
many and are the same in the signature, the unit-system code and the
counters. -/
theorem read_header_rebase {U : Type} (mk_unit : List Byte → Option U) (junk : Nat → Byte)
    (s : Stream) (d : List Byte) (hlen : d.length = s.data.length)
    (h1 : (d.drop 4).take 12 = (s.data.drop 4).take 12)
    (h2 : (d.drop 40).take 6 = (s.data.drop 40).take 6)
    (h3 : (d.drop 840).take 32 = (s.data.drop 840).take 32) :
    read_header mk_unit junk (s.rebase d)
      = ((read_header mk_unit junk s).1, (read_header mk_unit junk s).2.rebase d) := by
  have q1 : (s.rebase d).seekg_beg 4 = (s.seekg_beg 4).rebase d :=
    Stream.seekg_to_rebase s d 4 hlen
  have p1 : (s.seekg_beg 4).failbit = false → (s.seekg_beg 4).pos = 4 :=
    fun h => (Stream.seekg_to_pos_of_failbit s 4 h).1
  have q2 : read_str junk 12 ((s.seekg_beg 4).rebase d)
      = ((read_str junk 12 (s.seekg_beg 4)).1, (read_str junk 12 (s.seekg_beg 4)).2.rebase d) :=
    Stream.read_rebase _ d _ 12 (fun hg => by
      rw [p1 (Stream.failbit_of_good hg)]
      simpa [Stream.seekg_beg] using h1)
  set s2 := (read_str junk 12 (s.seekg_beg 4)).2 with hs2
  have d2 : s2.data = s.data := by simp [hs2, read_str, Stream.seekg_beg]
  have p2 : s2.failbit = false → s2.pos = 16 := by
    intro h
    obtain ⟨e, f⟩ := Stream.read_pos_of_failbit _ _ _ h
    rw [hs2, read_str, e, p1 f]
  set s6 := (((s2.seekg_cur 6).seekg_cur 6).seekg_cur 6).seekg_cur 6 with hs6
  have d6 : s6.data = s.data := by simp [hs6, d2]
  have p6 : s6.failbit = false → s6.pos = 40 := by
    intro h
    obtain ⟨e4, f4⟩ := Stream.seekg_cur_pos_of_failbit _ _ h
    obtain ⟨e3, f3⟩ := Stream.seekg_cur_pos_of_failbit _ _ f4
    obtain ⟨e2, f2⟩ := Stream.seekg_cur_pos_of_failbit _ _ f3
    obtain ⟨e1, f1⟩ := Stream.seekg_cur_pos_of_failbit _ _ f2
    rw [hs6, e4, e3, e2, e1, p2 f1]
  have q6 : (((((s2.rebase d).seekg_cur 6).seekg_cur 6).seekg_cur 6).seekg_cur 6)
      = s6.rebase d := by
    rw [Stream.seekg_cur_rebase _ _ _ (by rw [d2]; exact hlen),
      Stream.seekg_cur_rebase _ _ _ (by simp [d2, hlen]),
      Stream.seekg_cur_rebase _ _ _ (by simp [d2, hlen]),
      Stream.seekg_cur_rebase _ _ _ (by simp [d2, hlen])]
  have q7 : read_str junk 6 (s6.rebase d)
      = ((read_str junk 6 s6).1, (read_str junk 6 s6).2.rebase d) :=
    Stream.read_rebase _ d _ 6 (fun hg => by
      rw [p6 (Stream.failbit_of_good hg), d6]
      exact h2)
  set s7 := (read_str junk 6 s6).2 with hs7
  have d7 : s7.data = s.data := by simp [hs7, read_str, d6]
  have p7 : s7.failbit = false → s7.pos = 46 := by
    intro h
    obtain ⟨e, f⟩ := Stream.read_pos_of_failbit _ _ _ h
    rw [hs7, read_str, e, p6 f]
  set s8 := s7.seekg_cur (530 + 264) with hs8
  have d8 : s8.data = s.data := by simp [hs8, d7]
  have p8 : s8.failbit = false → s8.pos = 840 := by
    intro h
    obtain ⟨e, f⟩ := Stream.seekg_cur_pos_of_failbit _ _ h
    rw [hs8, e, p7 f]
  have q8 : (s7.rebase d).seekg_cur (530 + 264) = s8.rebase d :=
    Stream.seekg_cur_rebase _ _ _ (by rw [d7]; exact hlen)
  have q9 : (s8.rebase d).read (zeros 32) 32
      = ((s8.read (zeros 32) 32).1, (s8.read (zeros 32) 32).2.rebase d) :=
    Stream.read_rebase _ d _ 32 (fun hg => by
      rw [p8 (Stream.failbit_of_good hg), d8]
      exact h3)
  unfold read_header
  simp only [q1, q2, ← hs2, Stream.rebase_good]
  split
  · rfl
  · simp only [q6, ← hs6, q7, ← hs7, Stream.rebase_good]
    split
    · rfl
    · split
      · rfl
      · simp only [q8, ← hs8, q9, Stream.rebase_good]
        split
        · rfl
        · split <;> rfl

theorem getElem?_eq_of_getD (d l : List Byte) (i : Nat) (hlen : d.length = l.length)
    (h : d.getD i 0 = l.getD i 0) : d[i]? = l[i]? := by
  by_cases hi : i < l.length
  · have hi' : i < d.length := by omega
    rw [List.getD_eq_getElem?_getD, List.getD_eq_getElem?_getD,
      List.getElem?_eq_getElem hi, List.getElem?_eq_getElem hi'] at h
    rw [List.getElem?_eq_getElem hi, List.getElem?_eq_getElem hi']
    exact congrArg some h
  · rw [List.getElem?_eq_none (by omega), List.getElem?_eq_none (by omega)]

theorem drop_eq_of_getD (d l : List Byte) (p : Nat) (hlen : d.length = l.length)
    (h : ∀ i, p ≤ i → d.getD i 0 = l.getD i 0) : d.drop p = l.drop p := by
  apply List.ext_getElem?
  intro i
  rw [List.getElem?_drop, List.getElem?_drop]
  exact getElem?_eq_of_getD d l _ hlen (h _ (by omega))

theorem slice_eq_of_getD (d l : List Byte) (p n : Nat) (hlen : d.length = l.length)
    (h : ∀ i, p ≤ i → i < p + n → d.getD i 0 = l.getD i 0) :
    (d.drop p).take n = (l.drop p).take n := by
  apply List.ext_getElem?
  intro i
  rw [List.getElem?_take, List.getElem?_take]
  split
  · rw [List.getElem?_drop, List.getElem?_drop]
    exact getElem?_eq_of_getD d l _ hlen (h _ (by omega) (by omega))
  · rfl

theorem load_body_rebase {U : Type} (mk_unit : List Byte → Option U) (junk : Nat → Byte)
    (s : Stream) (d : List Byte) (hlen : d.length = s.data.length)
    (h1 : (d.drop 4).take 12 = (s.data.drop 4).take 12)
    (h2 : (d.drop 40).take 6 = (s.data.drop 40).take 6)
    (h3 : (d.drop 840).take 32 = (s.data.drop 840).take 32)
    (h4 : d.drop 872 = s.data.drop 872) :
    load_body mk_unit junk (s.rebase d)
      = ((load_body mk_unit junk s).1, (load_body mk_unit junk s).2.rebase d) := by
  unfold load_body
  rw [read_header_rebase mk_unit junk s d hlen h1 h2 h3]
  rcases hh : read_header mk_unit junk s with ⟨r, s1⟩
  cases r with
  | error e => rfl
  | ok hdr =>
    dsimp only
    obtain ⟨rfl, hf, -⟩ := read_header_snd mk_unit junk s s1 hdr hh
    have a1 : Stream.Agree 872 (s.moved 872) d := ⟨hlen, h4, fun _ => Nat.le_refl _⟩
    obtain ⟨e2, a2⟩ := read_varnames_agree junk 872 _ d hdr.num_classes a1
    rw [e2]
    rcases hv : read_varnames junk (s.moved 872) hdr.num_classes with ⟨r2, s2⟩
    rw [hv] at a2
    cases r2 with
    | error e => rfl
    | ok vm =>
      dsimp only
      rw [load_loop_agree junk 872 _ vm [] s2 d a2, Stream.rebase_data, a2.1]
      rcases load_loop junk (s2.data.length + 1) vm [] s2 with _ | ⟨r3, m3, s3⟩
      · rfl
      · cases r3 <;> rfl

theorem scramble_length (l : List Byte) : (scramble l).length = l.length := by
  simp [scramble]

theorem scramble_getD (l : List Byte) (i : Nat)
    (h : (4 ≤ i ∧ i < 16) ∨ (40 ≤ i ∧ i < 46) ∨ 840 ≤ i) :
    (scramble l).getD i 0 = l.getD i 0 := by
  by_cases hi : i < l.length
  · have hc : ¬ (i < 4 ∨ (16 ≤ i ∧ i < 40) ∨ (46 ≤ i ∧ i < 840)) := by omega
    simp only [scramble, List.getD_eq_getElem?_getD, List.getElem?_map,
      List.getElem?_range hi, Option.map_some', Option.getD_some, hc, if_false]
  · rw [List.getD_eq_default _ _ (by rw [scramble_length]; omega),
      List.getD_eq_default _ _ (by omega)]

/-- C18: on two streams in the same state whose bytes are as many and are
the same but for bytes at the offsets 0 to 3 (the leading field), 16 to 39
(the version and simulator fields) and 46 to 839 (the reserved region), `load`
has the same result: the same failure, or plots with the same header and the
same records. -/
theorem load_skipped_fields {U : Type} (mk_unit : List Byte → Option U) (junk : Nat → Byte)
    (s : Stream) (d : List Byte) (hlen : d.length = s.data.length)
    (hbytes : ∀ i, (4 ≤ i ∧ i < 16) ∨ (40 ≤ i ∧ i < 46) ∨ 840 ≤ i →
      d.getD i 0 = s.data.getD i 0) :
    (load mk_unit junk { s with data := d }).1 = (load mk_unit junk s).1 := by
  have h1 : (d.drop 4).take 12 = (s.data.drop 4).take 12 :=
    slice_eq_of_getD d s.data 4 12 hlen (fun i _ _ => hbytes i (by omega))
  have h2 : (d.drop 40).take 6 = (s.data.drop 40).take 6 :=
    slice_eq_of_getD d s.data 40 6 hlen (fun i _ _ => hbytes i (by omega))
  have h3 : (d.drop 840).take 32 = (s.data.drop 840).take 32 :=
    slice_eq_of_getD d s.data 840 32 hlen (fun i _ _ => hbytes i (by omega))
  have h4 : d.drop 872 = s.data.drop 872 :=
    drop_eq_of_getD d s.data 872 hlen (fun i _ => hbytes i (by omega))
  have hb := load_body_rebase mk_unit junk (s.set_exceptions (false, false)).2 d hlen
    h1 h2 h3 h4
  have e : (Stream.set_exceptions { s with data := d } (false, false)).2
      = ((s.set_exceptions (false, false)).2).rebase d := rfl
  unfold load
  dsimp only
  rw [e, hb]
  simp only [Stream.set_exceptions, Stream.rebase_eofbit, Stream.rebase_failbit]
  split <;> rfl

/-- Witness of C18: the example stream, and the example stream with every
byte of its skipped header fields replaced by `0xFF`. -/
theorem load_skipped_fields_witness :
    scramble example_stream ≠ example_stream
      ∧ (load metric_only zero_junk
          { Stream.fresh example_stream true with data := scramble example_stream }).1
        = (load metric_only zero_junk (Stream.fresh example_stream true)).1 :=
  ⟨by decide,
    load_skipped_fields metric_only zero_junk (Stream.fresh example_stream true)
      (scramble example_stream) (scramble_length example_stream)
      (scramble_getD example_stream)⟩

/-! ## A class name that the class-name table has twice -/

theorem get_foldl_assign_of_ne (cs : List ClassLayout) (k : List Byte)
    (h : ∀ c ∈ cs, c.name ≠ k) :
    ∀ m : VarMap, (cs.foldl (fun m c => m.assign c.name c.vars) m).get k = m.get k := by
  induction cs with
  | nil => intro m; rfl
  | cons c cs ih =>
    intro m
    rw [List.foldl_cons, ih (fun c' hc' => h c' (List.mem_cons_of_mem _ hc')),
      VarMap.get_assign_other _ _ _ _ (h c (List.mem_cons_self _ _))]

theorem mem_keys_foldl_assign (cs : List ClassLayout) (k : List Byte) :
    ∀ m : VarMap, k ∈ (cs.foldl (fun m c => m.assign c.name c.vars) m).keys
      ↔ k ∈ m.keys ∨ k ∈ cs.map (·.name) := by
  induction cs with
  | nil => intro m; simp
  | cons c cs ih =>
    intro m
    rw [List.foldl_cons, ih, VarMap.mem_keys_assign_iff, List.map_cons, List.mem_cons]
    constructor
    · rintro ((h | h) | h)
      · exact Or.inr (Or.inl h)
      · exact Or.inl h
      · exact Or.inr (Or.inr h)
    · rintro (h | h | h)
      · exact Or.inl (Or.inr h)
      · exact Or.inl (Or.inl h)
      · exact Or.inr h

theorem keys_nodup_foldl_assign (cs : List ClassLayout) :
    ∀ m : VarMap, m.keys.Nodup →
      (cs.foldl (fun m c => m.assign c.name c.vars) m).keys.Nodup := by
  induction cs with
  | nil => intro m h; exact h
  | cons c cs ih =>
    intro m h
    rw [List.foldl_cons]
    exact ih _ (VarMap.keys_nodup_assign m _ _ h)

theorem size_assign_le (m : VarMap) (k : List Byte) (v : List (List Byte)) :
    (m.assign k v).size ≤ m.size + 1 := by
  rw [VarMap.size_eq_length_keys, VarMap.size_eq_length_keys]
  by_cases h : k ∈ m.keys
  · rw [VarMap.keys_assign_of_mem m k v h]
    omega
  · rw [VarMap.keys_assign_of_not_mem m k v h, List.length_append]
    rfl

theorem size_foldl_assign_le (cs : List ClassLayout) :
    ∀ m : VarMap, (cs.foldl (fun m c => m.assign c.name c.vars) m).size
      ≤ m.size + cs.length := by
  induction cs with
  | nil => intro m; exact Nat.le_refl _
  | cons c cs ih =>
    intro m
    rw [List.foldl_cons, List.length_cons]
    have h1 := ih (m.assign c.name c.vars)
    have h2 := size_assign_le m c.name c.vars
    omega

/-- The catalog of a class-name table in which the name of the class `cj`
also stands before `cj` and does not stand behind it. -/
theorem catalog_of_repeated (pre post : List ClassLayout) (cj : ClassLayout)
    (hi : ∃ ci ∈ pre, ci.name = cj.name) (hlast : ∀ c ∈ post, c.name ≠ cj.name) :
    (catalog_of (pre ++ cj :: post)).get cj.name = cj.vars
      ∧ cj.name ∈ (catalog_of (pre ++ cj :: post)).keys
      ∧ (catalog_of (pre ++ cj :: post)).keys.Nodup
      ∧ (catalog_of (pre ++ cj :: post)).size < (pre ++ cj :: post).length := by
  have hcat : catalog_of (pre ++ cj :: post)
      = post.foldl (fun m c => m.assign c.name c.vars)
          ((catalog_of pre).assign cj.name cj.vars) := by
    simp only [catalog_of, List.foldl_append, List.foldl_cons]
  have hmem : cj.name ∈ (catalog_of pre).keys := by
    obtain ⟨ci, hci, hn⟩ := hi
    rw [catalog_of, mem_keys_foldl_assign]
    exact Or.inr (List.mem_map.mpr ⟨ci, hci, hn⟩)
  refine ⟨?_, ?_, ?_, ?_⟩
  · rw [hcat, get_foldl_assign_of_ne post cj.name hlast, VarMap.get_assign_self]
  · rw [hcat, mem_keys_foldl_assign]
    exact Or.inl (VarMap.mem_keys_assign _ _ _)
  · rw [catalog_of]
    exact keys_nodup_foldl_assign _ _ List.nodup_nil
  · rw [hcat]
    have h1 := size_foldl_assign_le post ((catalog_of pre).assign cj.name cj.vars)
    have h2 : ((catalog_of pre).assign cj.name cj.vars).size = (catalog_of pre).size := by
      rw [VarMap.size_eq_length_keys, VarMap.size_eq_length_keys,
        VarMap.keys_assign_of_mem _ _ _ hmem]
    have h3 := size_foldl_assign_le pre []
    rw [← catalog_of] at h3
    simp only [List.length_append, List.length_cons]
    have h4 : VarMap.size [] = 0 := rfl
    omega

/-- C19: when the class-name table has the name of the class `cj` at an
earlier index too and at no later index, `read_varnames` returns a catalog
in which that name is a key, no key stands twice, and the variable names
of that name are those of the block of `cj`, the last class of that name, and
no others; and the catalog has fewer keys than the table has names. Stated for fewer than `2^29` classes and
variables in a class. -/
theorem read_varnames_repeated (junk : Nat → Byte) (s : Stream)
    (skip1 skip2 skip3 rest : List Byte) (pre post : List ClassLayout) (cj : ClassLayout)
    (hgood : s.good = true)
    (hdata : s.data.drop s.pos
      = catalog_section skip1 skip2 skip3 (pre ++ cj :: post) ++ rest)
    (h1 : skip1.length = 8) (h2 : skip2.length = 8) (h3 : skip3.length = 8)
    (hcs : ∀ c ∈ pre ++ cj :: post, c.complete)
    (hn : (pre ++ cj :: post).length < 536870912)
    (hv : ∀ c ∈ pre ++ cj :: post, c.vars.length < 536870912)
    (hi : ∃ ci ∈ pre, ci.name = cj.name) (hlast : ∀ c ∈ post, c.name ≠ cj.name) :
    ∃ m s', read_varnames junk s ((pre ++ cj :: post).length : Int) = (.ok m, s')
      ∧ m.get cj.name = cj.vars ∧ cj.name ∈ m.keys ∧ m.keys.Nodup
      ∧ m.size < (pre ++ cj :: post).length := by
  have hp : s.pos ≤ s.data.length := by
    by_contra hc
    rw [List.drop_eq_nil_of_le (by omega)] at hdata
    have := congrArg List.length hdata
    rw [List.length_append, catalog_section_length, h1, List.length_nil] at this
    omega
  have hh : s.Holds s.pos (catalog_section skip1 skip2 skip3 (pre ++ cj :: post) ++ rest) :=
    ⟨Stream.failbit_of_good hgood, hp, hdata⟩
  have hr := read_varnames_holds junk s s.pos skip1 skip2 skip3 rest _ hh h1 h2 h3 hcs hn hv
  rw [Stream.moved_self s hgood] at hr
  exact ⟨_, _, hr, catalog_of_repeated pre post cj hi hlast⟩

/-- Witness of C19: a class-name table with the name `WELL` twice, first
with the variable `WOPR`, then with the variable `WWPR`: the catalog has the
one entry `WELL` with the variable `WWPR`. -/
theorem read_varnames_repeated_witness :
    ∃ m s', read_varnames zero_junk (Stream.fresh repeated_catalog true) 2 = (.ok m, s')
      ∧ m.get [87, 69, 76, 76, 32, 32, 32, 32] = [[87, 87, 80, 82]]
      ∧ [87, 69, 76, 76, 32, 32, 32, 32] ∈ m.keys ∧ m.keys.Nodup ∧ m.size < 2 :=
  read_varnames_repeated zero_junk (Stream.fresh repeated_catalog true) (zeros 8) (zeros 8)
    (zeros 8) [] [first_well] [] second_well (by decide)
    (by simp [Stream.fresh, repeated_catalog]) (by decide) (by decide) (by decide)
    (by decide) (by decide) (by decide) ⟨first_well, by decide, by decide⟩ (by decide)

/-! ## The catalog in the loop of `load` -/

namespace VarMap

theorem grows_refl (m : VarMap) : m.Grows m :=
  ⟨fun _ => rfl, fun _ h => h⟩

theorem grows_trans {m m1 m2 : VarMap} (h1 : m.Grows m1) (h2 : m1.Grows m2) :
    m.Grows m2 :=
  ⟨fun k => (h2.1 k).trans (h1.1 k), fun k hk => h2.2 k (h1.2 k hk)⟩

theorem touch_grows (m : VarMap) (k : List Byte) : m.Grows (m.touch k) :=
  ⟨fun k' => get_touch m k k',
    fun k' hk' => (mem_keys_assign_iff m k k' (m.get k)).mpr (Or.inr hk')⟩

/-- A key that the larger map has and the smaller one does not have stands
for an empty vector. -/
theorem get_of_grows {m m' : VarMap} (h : m.Grows m') (k : List Byte) (hk : k ∉ m.keys) :
    m'.get k = [] :=
  (h.1 k).trans (get_of_not_mem_keys m k hk)

end VarMap

theorem read_items_grows (junk : Nat → Byte) (ts : Int) (t : F32) (mp : Int)
    (c : List Byte) (n : Nat) :
    ∀ (m : VarMap) (d : List NexusData) (s : Stream),
      m.Grows (read_items junk ts t mp c n m d s).1 := by
  induction n with
  | zero => intro m d s; exact VarMap.grows_refl m
  | succ n ih =>
    intro m d s
    simp only [read_items]
    exact VarMap.grows_trans (VarMap.touch_grows m c) (ih _ _ _)

theorem read_block_grows (junk : Nat → Byte) (c : List Byte) (m m' : VarMap)
    (d d' : List NexusData) (s s' : Stream)
    (h : read_block junk c m d s = (.ok (m', d'), s')) : m.Grows m' := by
  unfold read_block at h
  dsimp only at h
  split at h
  · simp at h
  · split at h
    · simp only [Prod.mk.injEq, Except.ok.injEq] at h
      rw [← h.1.1]
      exact read_items_grows _ _ _ _ _ _ _ _ _
    · simp at h

theorem load_loop_grows (junk : Nat → Byte) (fuel : Nat) :
    ∀ (m m' : VarMap) (d : List NexusData) (s s' : Stream)
      (r : Except Error (List NexusData)),
      load_loop junk fuel m d s = some (r, m', s') → m.Grows m' := by
  induction fuel with
  | zero => intro m m' d s s' r h; simp [load_loop] at h
  | succ fuel ih =>
    intro m m' d s s' r h
    rw [load_loop] at h
    dsimp only at h
    split at h
    · simp only [Option.some.injEq, Prod.mk.injEq] at h
      rw [← h.2.1]
      exact VarMap.grows_refl m
    · split at h
      · simp only [Option.some.injEq, Prod.mk.injEq] at h
        rw [← h.2.1]
        exact VarMap.grows_refl m
      · rename_i m1 d1 s1 hb
        exact VarMap.grows_trans (read_block_grows junk _ m m1 d d1 _ s1 hb)
          (ih _ _ _ _ _ _ h)

/-- Counterexample to C20: the catalog that `read_varnames` returns for the
example stream with a block of the class `ZONE` has the one key `WELL`;
`ZONE` is not a key of it; and the catalog that the loop of `load` leaves has
two keys, of which `ZONE` is one. -/
theorem catalog_grows_counterexample :
    (read_varnames zero_junk ((Stream.fresh zone_class_stream true).moved 872) 1).1
        = .ok [([87, 69, 76, 76, 32, 32, 32, 32], [[87, 79, 80, 82], [87, 87, 80, 82]])]
      ∧ VarMap.contains
          [([87, 69, 76, 76, 32, 32, 32, 32], [[87, 79, 80, 82], [87, 87, 80, 82]])]
          [90, 79, 78, 69, 32, 32, 32, 32] = false
      ∧ (load_loop zero_junk 3
            [([87, 69, 76, 76, 32, 32, 32, 32], [[87, 79, 80, 82], [87, 87, 80, 82]])] []
            ((Stream.fresh zone_class_stream true).moved 928)).map
          (fun r => (r.2.1.contains [90, 79, 78, 69, 32, 32, 32, 32], r.2.1.size))
          = some (true, 2) := by
  refine ⟨?_, ?_, ?_⟩
  · decide
  · decide
  · rfl

/-- C20, amended: in the loop of `load` the keys of the catalog can grow, and
nothing else of it changes: after every block that is decoded, and when the
loop ends, every key of the catalog that `read_varnames` returned is a key,
every lookup gives what it gave in the returned catalog, and a key that the
returned catalog did not have stands for an empty vector. -/
theorem catalog_grows (junk : Nat → Byte) (fuel : Nat) (m m' : VarMap)
    (d : List NexusData) (s s' : Stream) (r : Except Error (List NexusData))
    (h : load_loop junk fuel m d s = some (r, m', s')) :
    ((∀ k, k ∈ m.keys → k ∈ m'.keys) ∧ (∀ k, m'.get k = m.get k)
        ∧ ∀ k, k ∈ m'.keys → k ∉ m.keys → m'.get k = [])
      ∧ ∀ (c : List Byte) (m0 m1 : VarMap) (d0 d1 : List NexusData) (s0 s1 : Stream),
          read_block junk c m0 d0 s0 = (.ok (m1, d1), s1) →
            (∀ k, k ∈ m0.keys → k ∈ m1.keys) ∧ (∀ k, m1.get k = m0.get k)
              ∧ ∀ k, k ∈ m1.keys → k ∉ m0.keys → m1.get k = [] :=
  ⟨⟨(load_loop_grows junk fuel m m' d s s' r h).2,
      (load_loop_grows junk fuel m m' d s s' r h).1,
      fun k _ hk => VarMap.get_of_grows (load_loop_grows junk fuel m m' d s s' r h) k hk⟩,
    fun c m0 m1 d0 d1 s0 s1 hb =>
      ⟨(read_block_grows junk c m0 m1 d0 d1 s0 s1 hb).2,
        (read_block_grows junk c m0 m1 d0 d1 s0 s1 hb).1,
        fun k _ hk => VarMap.get_of_grows (read_block_grows junk c m0 m1 d0 d1 s0 s1 hb) k hk⟩⟩

/-- Witness of C20, amended: the loop of `load` on the example stream with a
block of the class `ZONE`: the lookups of `WELL` and of `ZONE` in the
catalog that the loop leaves. -/
theorem catalog_grows_witness :
    VarMap.get
        [([87, 69, 76, 76, 32, 32, 32, 32], [[87, 79, 80, 82], [87, 87, 80, 82]]),
          ([90, 79, 78, 69, 32, 32, 32, 32], [])] [87, 69, 76, 76, 32, 32, 32, 32]
        = [[87, 79, 80, 82], [87, 87, 80, 82]]
      ∧ VarMap.get
          [([87, 69, 76, 76, 32, 32, 32, 32], [[87, 79, 80, 82], [87, 87, 80, 82]]),
            ([90, 79, 78, 69, 32, 32, 32, 32], [])] [90, 79, 78, 69, 32, 32, 32, 32]
          = [] := by
  have h := catalog_grows zero_junk 3
    [([87, 69, 76, 76, 32, 32, 32, 32], [[87, 79, 80, 82], [87, 87, 80, 82]])]
    [([87, 69, 76, 76, 32, 32, 32, 32], [[87, 79, 80, 82], [87, 87, 80, 82]]),
      ([90, 79, 78, 69, 32, 32, 32, 32], [])] []
    ((Stream.fresh zone_class_stream true).moved 928)
    ((Stream.fresh zone_class_stream true).moved 1192)
    (.ok
      [{ timestep := 3, time := ⟨1069547520⟩, max_perfs := 0,
         classname := [87, 69, 76, 76, 32, 32, 32, 32],
         instancename := [87, 69, 76, 76, 45, 65, 48, 49],
         varname := [87, 79, 80, 82], value := ⟨1120403456⟩ },
       { timestep := 3, time := ⟨1069547520⟩, max_perfs := 0,
         classname := [87, 69, 76, 76, 32, 32, 32, 32],
         instancename := [87, 69, 76, 76, 45, 65, 48, 49],
         varname := [87, 87, 80, 82], value := ⟨0⟩ }])
    rfl
  exact ⟨h.1.2.1 _, h.1.2.2 _ (by decide) (by decide)⟩

/-! ## The class name that is compared with the sentinel after a read that failed

The loop of `load` compares the array that `read_str<8>` returns with
`"STOP    "` without a test of the stream in between (the reads of
`read_header` and the read of the five words of a block are followed by such a
test). After a read that did not fill the array, the comparison is with bytes
that the array held before, and what `load` does depends on them. The
theorems of this section evaluate `load` at two such memories, one that holds
the bytes of the sentinel and one that holds zeros. -/

/-- C2: the first 928 bytes of the example stream are its header and its
catalog section; they end before its data block and its sentinel. On them
`load` returns a plot without records when the uninitialised class-name
buffer holds `"STOP    "`, and throws `unexpected_eof` when it holds zeros;
and on the first 10 bytes of the example stream `load` throws `bad_header`. -/
theorem load_truncated_plot :
    (load metric_only stop_junk (Stream.fresh (example_stream.take 928) true)).1
        = .ok { header :=
                  { unit_system := [77, 69, 84, 82, 73, 67], num_classes := 1, counter1 := 0,
                    counter2 := 0, counter3 := 0, counter4 := 0, counter5 := 0, counter6 := 0,
                    counter7 := 0 },
                data := [] }
      ∧ (load metric_only zero_junk (Stream.fresh (example_stream.take 928) true)).1
          = .error (.unexpected_eof "")
      ∧ (load metric_only zero_junk (Stream.fresh (example_stream.take 10) true)).1
          = .error (.bad_header "Could not verify file type") := by
  refine ⟨?_, ?_, ?_⟩ <;> decide

/-- C12: the example stream cut after the first byte of the values array of
its entity, whose class has two variables. On it `load` returns a plot with
two records when the uninitialised class-name buffer holds `"STOP    "`: the
first has the value with the bits `0x42000000`, built from the one byte that
the stream has of the array (the whole stream gives `0x42C80000` there); and
`load` throws `unexpected_eof` when the buffer holds zeros. -/
theorem load_short_values_plot :
    (load metric_only stop_junk (Stream.fresh short_values_stream true)).1
        = .ok { header :=
                  { unit_system := [77, 69, 84, 82, 73, 67], num_classes := 1, counter1 := 0,
                    counter2 := 0, counter3 := 0, counter4 := 0, counter5 := 0, counter6 := 0,
                    counter7 := 0 },
                data :=
                  [{ timestep := 3, time := ⟨1069547520⟩, max_perfs := 0,
                     classname := [87, 69, 76, 76, 32, 32, 32, 32],
                     instancename := [87, 69, 76, 76, 45, 65, 48, 49],
                     varname := [87, 79, 80, 82], value := ⟨1107296256⟩ },
                   { timestep := 3, time := ⟨1069547520⟩, max_perfs := 0,
                     classname := [87, 69, 76, 76, 32, 32, 32, 32],
                     instancename := [87, 69, 76, 76, 45, 65, 48, 49],
                     varname := [87, 87, 80, 82], value := ⟨0⟩ }] }
      ∧ (load metric_only zero_junk (Stream.fresh short_values_stream true)).1
          = .error (.unexpected_eof "") := by
  refine ⟨?_, ?_⟩ <;> decide

/-- On a failed stream with an empty exception mask `load` throws
`bad_header`, whatever the bytes of the stream and of the uninitialised
memory: the seek and the read of the signature do nothing. -/
theorem load_of_failed {U : Type} (mk_unit : List Byte → Option U) (junk : Nat → Byte)
    (s : Stream) (hmask : s.exceptions = (false, false)) (hf : s.failbit = true) :
    (load mk_unit junk s).1 = .error (.bad_header "Could not verify file type") := by
  have hh : (read_header mk_unit junk s).1
      = .error (.bad_header "Could not verify file type") := by
    rw [read_header_fst, if_neg]
    intro hc
    rw [hf] at hc
    exact absurd hc.1 (by decide)
  rw [load_fst_of_mask mk_unit junk s hmask, load_body_header_error mk_unit junk s _ hh]

/-- C14: the first 1000 bytes of the example stream end inside the entity of
its data block. When the uninitialised class-name buffer holds `"STOP    "`,
`load` succeeds on them, with two records, and leaves the stream failed; and
a second `load` on the stream as the first one left it throws `bad_header`,
whatever the uninitialised memory holds then. -/
theorem load_again_fails :
    (load metric_only stop_junk (Stream.fresh (example_stream.take 1000) true)).1
        = .ok { header :=
                  { unit_system := [77, 69, 84, 82, 73, 67], num_classes := 1, counter1 := 0,
                    counter2 := 0, counter3 := 0, counter4 := 0, counter5 := 0, counter6 := 0,
                    counter7 := 0 },
                data :=
                  [{ timestep := 3, time := ⟨1069547520⟩, max_perfs := 0,
                     classname := [87, 69, 76, 76, 32, 32, 32, 32],
                     instancename := [87, 69, 76, 76, 45, 65, 48, 49],
                     varname := [87, 79, 80, 82], value := ⟨0⟩ },
                   { timestep := 3, time := ⟨1069547520⟩, max_perfs := 0,
                     classname := [87, 69, 76, 76, 32, 32, 32, 32],
                     instancename := [87, 69, 76, 76, 45, 65, 48, 49],
                     varname := [87, 87, 80, 82], value := ⟨0⟩ }] }
      ∧ (load metric_only stop_junk (Stream.fresh (example_stream.take 1000) true)).2.failbit
          = true
      ∧ ∀ junk : Nat → Byte,
          (load metric_only junk
              (load metric_only stop_junk (Stream.fresh (example_stream.take 1000) true)).2).1
            = .error (.bad_header "Could not verify file type") := by
  refine ⟨by decide, by decide, fun junk => ?_⟩
  exact load_of_failed metric_only junk _ (by decide) (by decide)

end Nex
